import Mathlib

/-!
# Copy-on-write path handles: `vcowptr.h` and `vpath.h`

A shallow embedding of the reference-counted copy-on-write container
`vcow_ptr<T>` and of the façade `VPath` built on it.

* The heap is a list of cells; a cell's address is its index.  Address `0` is the
  function-local `static model default_s` of the default constructor.  `new model`
  takes the next unused index, `delete` marks the cell as deleted.
* Handle objects (`vcow_ptr`, and `VPath`, whose only member is a `vcow_ptr`) live in a
  store indexed by object identity, so aliasing between `*this` and an argument is
  whatever the indices say.  Temporaries are passed by value.
* `std::size_t` is 64 bits wide, `int` is 32 bits wide.
* An execution either returns or stops with a `Fault`.
-/

namespace VCow

/-! ## Definitions -/

/-- Ways an execution stops without returning. -/
inductive Fault where
  /-- an `assert(mModel)` failed -/
  | assertion
  /-- undefined behaviour: an object used outside its lifetime, a cell used after
  `delete`, `delete` of the static cell, signed overflow -/
  | undefined
deriving DecidableEq

/-- The number of values of `std::size_t`. -/
def SIZE_MOD : Nat := 2 ^ 64

/-- The largest `int`. -/
def INT_MAX : Int := 2 ^ 31 - 1

/-- The effect of `++` on a `std::atomic<std::size_t>`. -/
def incRef (n : Nat) : Nat := (n + 1) % SIZE_MOD

/-- The effect of `--` on a `std::atomic<std::size_t>`. -/
def decRef (n : Nat) : Nat := (n + (SIZE_MOD - 1)) % SIZE_MOD

/-- The conversion of a `std::size_t` to `int` made by `return mModel->mRef;` in
`refCount()`: the value modulo `2 ^ 32`, read as two's complement. -/
def toInt (n : Nat) : Int :=
  if n % 2 ^ 32 < 2 ^ 31 then ((n % 2 ^ 32 : Nat) : Int)
  else ((n % 2 ^ 32 : Nat) : Int) - 2 ^ 32

/-- What `vcow_ptr<T>` needs of its payload type `T`: the value of a `T` in the
zero-initialised, default-constructed static cell, and `T`'s copy constructor. -/
class Payload (T : Type) where
  /-- the value of `default_s.mValue` -/
  defaultValue : T
  /-- the copy constructor of `T` -/
  copyValue : T → T

/-- The reference-counted cell `vcow_ptr<T>::model`. -/
structure model (T : Type) where
  mRef : Nat
  mValue : T

/-- A heap slot: the cell and whether `delete` has run on it. -/
structure Cell (T : Type) where
  obj : model T
  deleted : Bool

/-- A handle `vcow_ptr<T>`: its only member, `model* mModel` (`none` is `nullptr`). -/
structure vcow_ptr where
  mModel : Option Nat
deriving DecidableEq

/-- The program state: the cells by address, and the handle objects by identity
(`none` for an object whose lifetime has ended). -/
structure World (T : Type) where
  cells : List (Cell T)
  vars : List (Option vcow_ptr)

variable {T : Type}

/-- The state before any handle exists: only `default_s`, with `mRef{1}`. -/
def World.initial [Payload T] : World T :=
  { cells := [{ obj := { mRef := 1, mValue := Payload.defaultValue }, deleted := false }],
    vars := [] }

/-- Dereference `mModel` at address `a`. -/
def World.cell (w : World T) (a : Nat) : Except Fault (model T) :=
  match w.cells[a]? with
  | some c => if c.deleted then .error .undefined else .ok c.obj
  | none => .error .undefined

/-- The handle object `i`, which must be within its lifetime. -/
def World.handle (w : World T) (i : Nat) : Except Fault vcow_ptr :=
  match w.vars[i]? with
  | some (some p) => .ok p
  | _ => .error .undefined

/-- Store `p` into the handle object `i`. -/
def World.setHandle (w : World T) (i : Nat) (p : vcow_ptr) : World T :=
  { w with vars := w.vars.set i (some p) }

/-- Overwrite the count of the cell at `a`. -/
def World.setRef (w : World T) (a : Nat) (r : Nat) : World T :=
  match w.cells[a]? with
  | some c => { w with cells := w.cells.set a { c with obj := { c.obj with mRef := r } } }
  | none => w

/-- Overwrite the payload of the cell at `a`. -/
def World.setValue (w : World T) (a : Nat) (v : T) : World T :=
  match w.cells[a]? with
  | some c => { w with cells := w.cells.set a { c with obj := { c.obj with mValue := v } } }
  | none => w

/-- Run `delete` on the cell at `a`; the static cell at address `0` was not obtained
from `new`. -/
def World.deleteCell (w : World T) (a : Nat) : Except Fault (World T) :=
  if a = 0 then .error .undefined
  else
    match w.cells[a]? with
    | some c => .ok { w with cells := w.cells.set a { c with deleted := true } }
    | none => .error .undefined

/-- The statement `++mModel->mRef` for `mModel = a`. -/
def World.increment (w : World T) (a : Nat) : Except Fault (World T) := do
  let c ← w.cell a
  pure (w.setRef a (incRef c.mRef))

/-- The destructor body run on a handle value `p`:
`if (mModel && (--mModel->mRef == 0)) delete mModel;` -/
def World.release (w : World T) (p : vcow_ptr) : Except Fault (World T) :=
  match p.mModel with
  | none => .ok w
  | some a => do
    let c ← w.cell a
    let w1 := w.setRef a (decRef c.mRef)
    if decRef c.mRef = 0 then w1.deleteCell a else pure w1

/-- The constructor `vcow_ptr()`: a new handle object bound to `default_s`, whose
count it increments.  The new object is the last of `vars`. -/
def World.ctor_default (w : World T) : Except Fault (World T) := do
  let w1 ← w.increment 0
  pure { w1 with vars := w1.vars ++ [some { mModel := some 0 }] }

/-- The destructor `~vcow_ptr()` of the handle object `i`. -/
def World.dtor (w : World T) (i : Nat) : Except Fault (World T) := do
  let p ← w.handle i
  let w1 ← w.release p
  pure { w1 with vars := w1.vars.set i none }

/-- The constructor `vcow_ptr(Args&&...)` called with one `const T&`, as a temporary:
`new model(v)` copy-constructs the payload, with `mRef{1}`. -/
def World.ctor_value [Payload T] (w : World T) (v : T) : vcow_ptr × World T :=
  ({ mModel := some w.cells.length },
   { w with cells := w.cells ++
      [{ obj := { mRef := 1, mValue := Payload.copyValue v }, deleted := false }] })

/-- The body of the copy constructor for a source handle value `x`: the new handle
takes `x.mModel`, `assert(mModel)`, `++mModel->mRef`. -/
def World.copy_of (w : World T) (x : vcow_ptr) : Except Fault (vcow_ptr × World T) :=
  match x.mModel with
  | none => .error .assertion
  | some a => do
    let w1 ← w.increment a
    pure ({ mModel := some a }, w1)

/-- The copy constructor `vcow_ptr(const vcow_ptr& x)` with `x` the object `j`; the
new object is the last of `vars`. -/
def World.ctor_copy (w : World T) (j : Nat) : Except Fault (World T) := do
  let x ← w.handle j
  let (p, w1) ← w.copy_of x
  pure { w1 with vars := w1.vars ++ [some p] }

/-- The move constructor `vcow_ptr(vcow_ptr&& x)` with `x` the object `j`:
`assert(mModel)`, then `x.mModel = nullptr`; the new object is the last of `vars`. -/
def World.ctor_move (w : World T) (j : Nat) : Except Fault (World T) := do
  let x ← w.handle j
  match x.mModel with
  | none => .error .assertion
  | some a =>
    pure { w with vars := (w.vars.set j (some { mModel := none })) ++ [some { mModel := some a }] }

/-- The move assignment `*this = std::move(x)` with `*this` the object `i` and `x` a
temporary: `tmp` takes `x.mModel` (`assert`), `x` becomes null, `swap(*this, tmp)`,
then `tmp` (holding the former `mModel` of `*this`) and the null `x` are destroyed. -/
def World.assign_temp (w : World T) (i : Nat) (x : vcow_ptr) : Except Fault (World T) :=
  match x.mModel with
  | none => .error .assertion
  | some a => do
    let self ← w.handle i
    let w1 := w.setHandle i { mModel := some a }
    w1.release self

/-- The move assignment `operator=(vcow_ptr&& x)` with `*this` the object `i` and `x`
the object `j`: `auto tmp = std::move(x); swap(*this, tmp);` and `tmp` is destroyed
on return. -/
def World.assign_move (w : World T) (i j : Nat) : Except Fault (World T) := do
  let x ← w.handle j
  match x.mModel with
  | none => .error .assertion
  | some a => do
    let w1 := w.setHandle j { mModel := none }
    let self ← w1.handle i
    let w2 := w1.setHandle i { mModel := some a }
    w2.release self

/-- The copy assignment `operator=(const vcow_ptr& x)`, `return *this = vcow_ptr(x);`,
with `*this` the object `i` and `x` the object `j`. -/
def World.assign_copy (w : World T) (i j : Nat) : Except Fault (World T) := do
  let x ← w.handle j
  let (tmp, w1) ← w.copy_of x
  w1.assign_temp i tmp

/-- The friend `swap(x, y)`: `std::swap(x.mModel, y.mModel)`. -/
def World.swap (w : World T) (i j : Nat) : Except Fault (World T) := do
  let x ← w.handle i
  let y ← w.handle j
  pure ((w.setHandle i y).setHandle j x)

/-- The member `read()` of the handle object `i`: `assert(mModel)`, then the payload. -/
def World.read (w : World T) (i : Nat) : Except Fault T := do
  let p ← w.handle i
  match p.mModel with
  | none => .error .assertion
  | some a => do
    let c ← w.cell a
    pure c.mValue

/-- The size_t count behind `refCount()` and `unique()`: `assert(mModel)`, then
`mModel->mRef`. -/
def World.count (w : World T) (i : Nat) : Except Fault Nat := do
  let p ← w.handle i
  match p.mModel with
  | none => .error .assertion
  | some a => do
    let c ← w.cell a
    pure c.mRef

/-- The member `int refCount()` of the handle object `i`. -/
def World.refCount (w : World T) (i : Nat) : Except Fault Int := do
  let n ← w.count i
  pure (toInt n)

/-- The member `unique()` of the handle object `i`: `mModel->mRef == 1`. -/
def World.unique (w : World T) (i : Nat) : Except Fault Bool := do
  let n ← w.count i
  pure (n == 1)

/-- The member `write()` of the handle object `i`:
`if (!unique()) *this = vcow_ptr(read());`.  The reference it returns is to the
payload of the cell the handle is bound to in the resulting state. -/
def World.write [Payload T] (w : World T) (i : Nat) : Except Fault (World T) := do
  let u ← w.unique i
  if u then pure w
  else do
    let v ← w.read i
    let (tmp, w1) := w.ctor_value v
    w1.assign_temp i tmp

/-- The address the handle object `i` is bound to. -/
def World.addr (w : World T) (i : Nat) : Option Nat :=
  match w.vars[i]? with
  | some (some p) => p.mModel
  | _ => none

/-- Apply `f` to the payload behind the reference returned for the handle object `i`
(`mModel->mValue`, no assertion on this path). -/
def World.update (w : World T) (i : Nat) (f : T → Except Fault T) :
    Except Fault (World T) := do
  let p ← w.handle i
  match p.mModel with
  | none => .error .undefined
  | some a => do
    let c ← w.cell a
    let v ← f c.mValue
    pure (w.setValue a v)

/-! ### The payload `VPath::VPathData` -/

/-- The enumeration `VPath::Element`. -/
inductive Element where
  | MoveTo
  | LineTo
  | CubicTo
  | Close
deriving DecidableEq

/-- The external point type `VPointF`, over a coordinate type `F` standing for `float`. -/
structure VPointF (F : Type) where
  x : F
  y : F
deriving DecidableEq

/-- A `std::vector`: its elements and its capacity. -/
structure vector (α : Type) where
  elems : List α
  cap : Nat
deriving DecidableEq

/-- The member `empty()` of `std::vector`. -/
def vector.empty {α : Type} (v : vector α) : Bool := v.elems.isEmpty

/-- The member `capacity()` of `std::vector`. -/
def vector.capacity {α : Type} (v : vector α) : Nat := v.cap

/-- The member `push_back` of `std::vector`; when full the storage grows geometrically. -/
def vector.push_back {α : Type} (v : vector α) (a : α) : vector α :=
  { elems := v.elems ++ [a],
    cap := if v.elems.length < v.cap then v.cap else max (2 * v.cap) (v.elems.length + 1) }

/-- The member `clear()` of `std::vector`: the capacity stays. -/
def vector.clear {α : Type} (v : vector α) : vector α := { elems := [], cap := v.cap }

/-- The member `reserve(n)` of `std::vector`. -/
def vector.reserve {α : Type} (v : vector α) (n : Nat) : vector α :=
  { elems := v.elems, cap := max v.cap n }

/-- The copy constructor of `std::vector`: the same elements in storage of exactly
their size. -/
def vector.copy {α : Type} (v : vector α) : vector α :=
  { elems := v.elems, cap := v.elems.length }

/-- The data members of `VPath::VPathData`, in declaration order. -/
structure VPathData (F : Type) where
  m_points : vector (VPointF F)
  m_elements : vector Element
  m_segments : Int
  mStartPoint : VPointF F
  mLength : F
  mLengthDirty : Bool
  mNewSegment : Bool
deriving DecidableEq

variable {F : Type}

/-- The member `VPathData::empty()`: `m_elements.empty()`. -/
def VPathData.empty (d : VPathData F) : Bool := d.m_elements.empty

/-- The member `VPathData::null()`: `empty() && !m_elements.capacity()`. -/
def VPathData.null (d : VPathData F) : Bool := d.empty && !(d.m_elements.capacity != 0)

/-- The member `VPathData::elements()`. -/
def VPathData.elements (d : VPathData F) : List Element := d.m_elements.elems

/-- The member `VPathData::points()`. -/
def VPathData.points (d : VPathData F) : List (VPointF F) := d.m_points.elems

/-- The implicit copy constructor of `VPathData`: member by member. -/
def VPathData.copy (d : VPathData F) : VPathData F :=
  { d with m_points := d.m_points.copy, m_elements := d.m_elements.copy }

/-- The payload of the static cell: zero-initialised, then `mLength{0}` and
`mLengthDirty{true}`; both vectors empty without storage. -/
def VPathData.default [Zero F] : VPathData F :=
  { m_points := { elems := [], cap := 0 },
    m_elements := { elems := [], cap := 0 },
    m_segments := 0,
    mStartPoint := { x := 0, y := 0 },
    mLength := 0,
    mLengthDirty := true,
    mNewSegment := false }

instance instPayloadVPathData [Zero F] : Payload (VPathData F) where
  defaultValue := VPathData.default
  copyValue := VPathData.copy

/-- The `int` increment `m_segments += n`; signed overflow is undefined behaviour. -/
def addSegments (s n : Int) : Except Fault Int :=
  if s + n ≤ INT_MAX ∧ -INT_MAX - 1 ≤ s + n then .ok (s + n) else .error .undefined

/-- Modelled from the spec: the body of `VPathData::moveTo` (declared in `vpath.h`,
defined outside it).  "`moveTo` transitions any in-progress contour to closed
(implicitly) and opens a new one at the given point, pushing a MoveTo command and
incrementing `segmentCount`"; the point becomes `currentSubpathStart`, and "every
structural operation invalidates the length cache". -/
def VPathData.moveTo (d : VPathData F) (x y : F) : Except Fault (VPathData F) := do
  let s ← addSegments d.m_segments 1
  pure { d with
    mStartPoint := { x := x, y := y },
    mNewSegment := false,
    m_elements := d.m_elements.push_back Element.MoveTo,
    m_points := d.m_points.push_back { x := x, y := y },
    m_segments := s,
    mLengthDirty := true }

/-- Modelled from the spec: whether a contour is open, for the contour state machine
`Fresh → Open → Closed`: some command was issued and the last contour was not closed. -/
def VPathData.contourOpen (d : VPathData F) : Bool := !d.empty && !d.mNewSegment

/-- Modelled from the spec: the body of `VPathData::checkNewSegment` (declared in
`vpath.h`, defined outside it).  "if none is open, a MoveTo is synthesized first";
the policy taken for the open question of §9 is the origin. -/
def VPathData.checkNewSegment [Zero F] (d : VPathData F) : Except Fault (VPathData F) :=
  if d.contourOpen then .ok d else d.moveTo 0 0

/-- Modelled from the spec: the body of `VPathData::lineTo` (declared in `vpath.h`,
defined outside it).  "`lineTo`/`cubicTo` append to the currently open contour; if
none is open, a MoveTo is synthesized first"; a LineTo carries one point. -/
def VPathData.lineTo [Zero F] (d : VPathData F) (x y : F) : Except Fault (VPathData F) := do
  let d1 ← d.checkNewSegment
  pure { d1 with
    m_elements := d1.m_elements.push_back Element.LineTo,
    m_points := d1.m_points.push_back { x := x, y := y },
    mLengthDirty := true }

/-- Modelled from the spec: the body of `VPathData::cubicTo` (declared in `vpath.h`,
defined outside it).  As `lineTo`, with a CubicTo command carrying three points, two
control points and the end point. -/
def VPathData.cubicTo [Zero F] (d : VPathData F) (cx1 cy1 cx2 cy2 ex ey : F) :
    Except Fault (VPathData F) := do
  let d1 ← d.checkNewSegment
  pure { d1 with
    m_elements := d1.m_elements.push_back Element.CubicTo,
    m_points := ((d1.m_points.push_back { x := cx1, y := cy1 }).push_back
      { x := cx2, y := cy2 }).push_back { x := ex, y := ey },
    mLengthDirty := true }

/-- Modelled from the spec: whether the open contour has a drawable command, that is
whether the last command is a LineTo or a CubicTo. -/
def VPathData.drawable (d : VPathData F) : Bool :=
  match d.m_elements.elems.getLast? with
  | some Element.LineTo => true
  | some Element.CubicTo => true
  | _ => false

/-- Modelled from the spec: the body of `VPathData::close` (declared in `vpath.h`,
defined outside it).  "`close()` appends a Close command connecting the current point
back to `currentSubpathStart`; a no-op if the contour has no drawable commands." -/
def VPathData.close (d : VPathData F) : Except Fault (VPathData F) :=
  if d.contourOpen && d.drawable then
    .ok { d with
      m_elements := d.m_elements.push_back Element.Close,
      mNewSegment := true,
      mLengthDirty := true }
  else .ok d

/-- Modelled from the spec: the body of `VPathData::reset` (declared in `vpath.h`,
defined outside it).  "clears both sequences and bookkeeping in place, retaining
allocated capacity, leaving the contour state `Fresh`". -/
def VPathData.reset [Zero F] (d : VPathData F) : Except Fault (VPathData F) :=
  .ok { d with
    m_elements := d.m_elements.clear,
    m_points := d.m_points.clear,
    m_segments := 0,
    mNewSegment := false,
    mLength := 0,
    mLengthDirty := true }

/-- Modelled from the spec: the body of `VPathData::reserve` (declared in `vpath.h`,
defined outside it).  "pre-allocates storage capacity for both sequences without
altering current contents". -/
def VPathData.reserve (d : VPathData F) (pts elms : Nat) : Except Fault (VPathData F) :=
  .ok { d with
    m_points := d.m_points.reserve (d.m_points.elems.length + pts),
    m_elements := d.m_elements.reserve (d.m_elements.elems.length + elms) }

/-- Modelled from the spec: the body of `VPathData::segments` (declared in `vpath.h`,
defined outside it): the `segmentCount` of the payload. -/
def VPathData.segments (d : VPathData F) : Int := d.m_segments

/-- Modelled from the spec: the body of `VPathData::transform` (declared in `vpath.h`,
defined outside it).  "applies the affine transform to every point in place ...; marks
the length cache invalid".  The external matrix is given by its action on a point. -/
def VPathData.transform (d : VPathData F) (m : VPointF F → VPointF F) :
    Except Fault (VPathData F) :=
  .ok { d with
    m_points := { d.m_points with elems := d.m_points.elems.map m },
    mLengthDirty := true }

/-- Modelled from the spec: the body of `VPathData::addPath` (declared in `vpath.h`,
defined outside it).  "`other`'s commands and points are appended verbatim;
`segmentCount` sums"; a structural operation, so the length cache is invalidated. -/
def VPathData.addPath (d : VPathData F) (path : VPathData F) : Except Fault (VPathData F) := do
  let s ← addSegments d.m_segments path.segments
  pure { d with
    m_points := path.m_points.elems.foldl vector.push_back d.m_points,
    m_elements := path.m_elements.elems.foldl vector.push_back d.m_elements,
    m_segments := s,
    mLengthDirty := true }

/-- Modelled from the spec: the caching of `VPathData::length` (declared in `vpath.h`,
defined outside it).  "returns the cached value if valid; otherwise ... caches the
result and clears the dirty flag"; the arc length computed from the points is given as
`computed`. -/
def VPathData.length (d : VPathData F) (computed : F) : Except Fault (VPathData F) :=
  if d.mLengthDirty then .ok { d with mLength := computed, mLengthDirty := false }
  else .ok d

/-- The four drawing primitives, as calls with their arguments. -/
inductive Prim (F : Type) where
  | moveTo (x y : F)
  | lineTo (x y : F)
  | cubicTo (cx1 cy1 cx2 cy2 ex ey : F)
  | close

/-- Run one drawing primitive on a payload. -/
def VPathData.prim [Zero F] (d : VPathData F) : Prim F → Except Fault (VPathData F)
  | Prim.moveTo x y => d.moveTo x y
  | Prim.lineTo x y => d.lineTo x y
  | Prim.cubicTo cx1 cy1 cx2 cy2 ex ey => d.cubicTo cx1 cy1 cx2 cy2 ex ey
  | Prim.close => d.close

/-- Modelled from the spec: the bodies of the derived shape builders
`VPathData::arcTo`, `addRect`, `addRoundRect`, `addOval`, `addCircle`, `addPolygon`
and `addPolystar` (declared in `vpath.h`, defined outside it).  "Derived shape
builders (all operate in terms of the primitives above)": a builder runs a sequence of
drawing primitives; which sequence its floating-point arguments produce is given as
`calls`. -/
def VPathData.shape [Zero F] (d : VPathData F) : List (Prim F) → Except Fault (VPathData F)
  | [] => .ok d
  | c :: calls => do
    let d1 ← d.prim c
    d1.shape calls

/-! ### The façade `VPath` -/

/-- The public mutating calls of `VPath` whose body is `d.write().f(args)`, with the
arguments of `f`. -/
inductive Mutator (F : Type) where
  | moveTo (x y : F)
  | lineTo (x y : F)
  | cubicTo (c1x c1y c2x c2y ex ey : F)
  | close
  | reset
  | reserve (pts elms : Nat)
  | transform (m : VPointF F → VPointF F)
  | arcTo (calls : List (Prim F))
  | addRect (calls : List (Prim F))
  | addRoundRect (calls : List (Prim F))
  | addOval (calls : List (Prim F))
  | addCircle (calls : List (Prim F))
  | addPolygon (calls : List (Prim F))
  | addPolystar (calls : List (Prim F))

/-- The payload member a mutating call of `VPath` forwards to. -/
def Mutator.apply [Zero F] : Mutator F → VPathData F → Except Fault (VPathData F)
  | Mutator.moveTo x y, d => d.moveTo x y
  | Mutator.lineTo x y, d => d.lineTo x y
  | Mutator.cubicTo c1x c1y c2x c2y ex ey, d => d.cubicTo c1x c1y c2x c2y ex ey
  | Mutator.close, d => d.close
  | Mutator.reset, d => d.reset
  | Mutator.reserve pts elms, d => d.reserve pts elms
  | Mutator.transform m, d => d.transform m
  | Mutator.arcTo calls, d => d.shape calls
  | Mutator.addRect calls, d => d.shape calls
  | Mutator.addRoundRect calls, d => d.shape calls
  | Mutator.addOval calls, d => d.shape calls
  | Mutator.addCircle calls, d => d.shape calls
  | Mutator.addPolygon calls, d => d.shape calls
  | Mutator.addPolystar calls, d => d.shape calls

/-- A `VPath` object is its only member `vcow_ptr<VPathData> d`: the path object `i`
is the handle object `i`. -/
abbrev Paths (F : Type) := World (VPathData F)

/-- The member `VPath::empty()`: `d->empty()`. -/
def VPath.empty (w : Paths F) (i : Nat) : Except Fault Bool := do
  let d ← w.read i
  pure d.empty

/-- The member `VPath::null()`: `d->null()`. -/
def VPath.null (w : Paths F) (i : Nat) : Except Fault Bool := do
  let d ← w.read i
  pure d.null

/-- The member `VPath::elements()`: `d->elements()`. -/
def VPath.elements (w : Paths F) (i : Nat) : Except Fault (List Element) := do
  let d ← w.read i
  pure d.elements

/-- The member `VPath::points()`: `d->points()`. -/
def VPath.points (w : Paths F) (i : Nat) : Except Fault (List (VPointF F)) := do
  let d ← w.read i
  pure d.points

/-- The member `VPath::segments()`: `d->segments()`. -/
def VPath.segments (w : Paths F) (i : Nat) : Except Fault Int := do
  let d ← w.read i
  pure d.segments

/-- The member `VPath::unique()`: `d.unique()`. -/
def VPath.unique (w : Paths F) (i : Nat) : Except Fault Bool := w.unique i

/-- The member `VPath::refCount()`: `d.refCount()`. -/
def VPath.refCount (w : Paths F) (i : Nat) : Except Fault Int := w.refCount i

/-- A public mutating call `d.write().f(args)` on the path object `i`. -/
def VPath.mutate [Zero F] (w : Paths F) (i : Nat) (mu : Mutator F) :
    Except Fault (Paths F) := do
  let w1 ← w.write i
  w1.update i mu.apply

/-- The member `VPath::reset()`: `d.write().reset()`. -/
def VPath.reset [Zero F] (w : Paths F) (i : Nat) : Except Fault (Paths F) :=
  VPath.mutate w i Mutator.reset

/-- The member `VPath::addPath(const VPath &path)` on the path object `i`, with `path`
the path object `j`:
`if (path.empty()) return; if (null()) *this = path; else d.write().addPath(path.d.read());` -/
def VPath.addPath [Zero F] (w : Paths F) (i j : Nat) : Except Fault (Paths F) := do
  let e ← VPath.empty w j
  if e then pure w
  else do
    let n ← VPath.null w i
    if n then w.assign_copy i j
    else do
      let w1 ← w.write i
      let src ← w1.read j
      w1.update i (fun d => d.addPath src)

/-- The member `VPath::clone(const VPath &srcPath)`: `reset(); addPath(srcPath);` -/
def VPath.clone [Zero F] (w : Paths F) (i j : Nat) : Except Fault (Paths F) := do
  let w1 ← VPath.reset w i
  VPath.addPath w1 i j

/-- The member `VPath::length()`: `d->length()`, which fills the cache of the cell
read through the const handle. -/
def VPath.length (w : Paths F) (i : Nat) (computed : F) : Except Fault (Paths F) := do
  let _ ← w.read i
  w.update i (fun d => d.length computed)

/-- The public operations on path objects that change the state. -/
inductive Op (F : Type) where
  /-- the declaration `VPath p;` -/
  | construct
  /-- the declaration `VPath p(q);` with `q` the object `j` -/
  | copyConstruct (j : Nat)
  /-- the declaration `VPath p(std::move(q));` with `q` the object `j` -/
  | moveConstruct (j : Nat)
  /-- the end of the lifetime of the object `i` -/
  | destroy (i : Nat)
  /-- the assignment `p = q;` -/
  | copyAssign (i j : Nat)
  /-- the assignment `p = std::move(q);` -/
  | moveAssign (i j : Nat)
  /-- a mutating call `d.write().f(args)` -/
  | mutate (i : Nat) (mu : Mutator F)
  /-- the call `p.addPath(q);` -/
  | addPath (i j : Nat)
  /-- the call `p.clone(q);` -/
  | clone (i j : Nat)
  /-- the call `p.length();` -/
  | length (i : Nat) (computed : F)

/-- Run one public operation. -/
def Op.run [Zero F] : Op F → Paths F → Except Fault (Paths F)
  | Op.construct, w => w.ctor_default
  | Op.copyConstruct j, w => w.ctor_copy j
  | Op.moveConstruct j, w => w.ctor_move j
  | Op.destroy i, w => w.dtor i
  | Op.copyAssign i j, w => w.assign_copy i j
  | Op.moveAssign i j, w => w.assign_move i j
  | Op.mutate i mu, w => VPath.mutate w i mu
  | Op.addPath i j, w => VPath.addPath w i j
  | Op.clone i j, w => VPath.clone w i j
  | Op.length i computed, w => VPath.length w i computed

/-- Run a sequence of public operations, stopping at the first fault. -/
def runOps [Zero F] : List (Op F) → Paths F → Except Fault (Paths F)
  | [], w => .ok w
  | op :: ops, w => do
    let w1 ← op.run w
    runOps ops w1

/-- The point arity of a command: MoveTo 1, LineTo 1, CubicTo 3, Close 0. -/
def arity : Element → Nat
  | Element.MoveTo => 1
  | Element.LineTo => 1
  | Element.CubicTo => 3
  | Element.Close => 0

/-- Invariant I1 of a payload: as many points as the arities of its commands sum to. -/
def I1 (d : VPathData F) : Prop := d.points.length = (d.elements.map arity).sum

/-- Invariant I2 of a payload: `segments()` is the number of MoveTo commands. -/
def I2 (d : VPathData F) : Prop := d.segments = (d.elements.count Element.MoveTo : Nat)

instance instDecidableI1 (d : VPathData F) : Decidable (I1 d) :=
  inferInstanceAs (Decidable (d.points.length = (d.elements.map arity).sum))

instance instDecidableI2 (d : VPathData F) : Decidable (I2 d) :=
  inferInstanceAs (Decidable (d.segments = (d.elements.count Element.MoveTo : Nat)))

/-- The handle object `i` is bound to the cell `c` at address `a`, on which `delete`
has not run. -/
def World.Bound (w : World T) (i a : Nat) (c : model T) : Prop :=
  w.vars[i]? = some (some { mModel := some a }) ∧
  w.cells[a]? = some { obj := c, deleted := false }

/-- The state after `VPath p0; VPath p1;`: both objects bound to `default_s`, whose
count is `3`. -/
def twoDefaults : Paths Int :=
  { cells := [{ obj := { mRef := 3, mValue := VPathData.default }, deleted := false }],
    vars := [some { mModel := some 0 }, some { mModel := some 0 }] }

/-- The payload after `moveTo(0, 0); lineTo(10, 0);` on a copy of the default payload. -/
def linePayload : VPathData Int :=
  { m_points := { elems := [{ x := 0, y := 0 }, { x := 10, y := 0 }], cap := 2 },
    m_elements := { elems := [Element.MoveTo, Element.LineTo], cap := 2 },
    m_segments := 1,
    mStartPoint := { x := 0, y := 0 },
    mLength := 0,
    mLengthDirty := true,
    mNewSegment := false }

/-- The state after `VPath p0; VPath p1; p1.moveTo(0, 0); p1.lineTo(10, 0);`: `p0` on
`default_s`, `p1` the only owner of a heap cell. -/
def oneLine : Paths Int :=
  { cells := [{ obj := { mRef := 2, mValue := VPathData.default }, deleted := false },
              { obj := { mRef := 1, mValue := linePayload }, deleted := false }],
    vars := [some { mModel := some 0 }, some { mModel := some 1 }] }

/-- The calls on the path object `i` that mutate it: a call whose body is
`d.write().f(args)`, `addPath` or `clone`. -/
def Op.mutatesPath (i : Nat) : Op F → Prop
  | Op.mutate k _ => k = i
  | Op.addPath k _ => k = i
  | Op.clone k _ => k = i
  | _ => False

instance instDecidableMutatesPath (i : Nat) (op : Op F) : Decidable (op.mutatesPath i) := by
  cases op <;> simp only [Op.mutatesPath] <;> infer_instance

/-- The state after `VPath p0; VPath p1; p1.reset();`: `p0` on `default_s`, `p1` the
only owner of a heap cell whose payload is empty. -/
def oneReset : Paths Int :=
  { cells := [{ obj := { mRef := 2, mValue := VPathData.default }, deleted := false },
              { obj := { mRef := 1, mValue := VPathData.default }, deleted := false }],
    vars := [some { mModel := some 0 }, some { mModel := some 1 }] }

/-- The payload after `moveTo(5, 5);` on a copy of the default payload. -/
def dotPayload : VPathData Int :=
  { m_points := { elems := [{ x := 5, y := 5 }], cap := 1 },
    m_elements := { elems := [Element.MoveTo], cap := 1 },
    m_segments := 1,
    mStartPoint := { x := 5, y := 5 },
    mLength := 0,
    mLengthDirty := true,
    mNewSegment := false }

/-- The state after `VPath p0; VPath p1; p1.moveTo(0, 0); p1.lineTo(10, 0);
p0.moveTo(5, 5);`: each path the only owner of a heap cell. -/
def twoOwners : Paths Int :=
  { cells := [{ obj := { mRef := 1, mValue := VPathData.default }, deleted := false },
              { obj := { mRef := 1, mValue := linePayload }, deleted := false },
              { obj := { mRef := 1, mValue := dotPayload }, deleted := false }],
    vars := [some { mModel := some 2 }, some { mModel := some 1 }] }

/-- Every cell of the state holds a payload with the property `P`. -/
def World.AllCells (P : T → Prop) (w : World T) : Prop :=
  ∀ cl ∈ w.cells, P cl.obj.mValue

/-- A property of path payloads that the copy constructor and every payload member
keep. -/
structure PayloadInvariant [Zero F] (P : VPathData F → Prop) : Prop where
  copy : ∀ d, P d → P d.copy
  mutate : ∀ (mu : Mutator F) (d v : VPathData F), P d → mu.apply d = .ok v → P v
  addPath : ∀ (d src v : VPathData F), P d → P src → d.addPath src = .ok v → P v
  length : ∀ (d v : VPathData F) (x : F), P d → d.length x = .ok v → P v

/-- The state after `VPath p0; VPath p1(std::move(p0));`: `p0` has no cell, `p1` is
bound to `default_s`. -/
def movedFrom : Paths Int :=
  { cells := [{ obj := { mRef := 2, mValue := VPathData.default }, deleted := false }],
    vars := [some { mModel := none }, some { mModel := some 0 }] }

/-! ### Handle operations of `vcow_ptr` and the accounting of references -/

/-- The constructor `vcow_ptr(Args&&...)` called with one `const T&` for a named handle
object: the new object is the last of `vars`. -/
def World.ctor_args [Payload T] (w : World T) (v : T) : Except Fault (World T) :=
  .ok { cells := (w.ctor_value v).2.cells,
        vars := (w.ctor_value v).2.vars ++ [some (w.ctor_value v).1] }

/-- The operations on handle objects that change the state. -/
inductive HandleOp (T : Type) where
  /-- the declaration `vcow_ptr<T> h;` -/
  | ctor_default
  /-- the declaration `vcow_ptr<T> h(v);` -/
  | ctor_value (v : T)
  /-- the declaration `vcow_ptr<T> h(x);` with `x` the object `j` -/
  | ctor_copy (j : Nat)
  /-- the declaration `vcow_ptr<T> h(std::move(x));` with `x` the object `j` -/
  | ctor_move (j : Nat)
  /-- the end of the lifetime of the object `i` -/
  | dtor (i : Nat)
  /-- the assignment `h = x;` -/
  | assign_copy (i j : Nat)
  /-- the assignment `h = std::move(x);` -/
  | assign_move (i j : Nat)
  /-- the call `swap(h, x);` -/
  | swap (i j : Nat)
  /-- the call `h.write();` -/
  | write (i : Nat)
  /-- the statement `h.write() = v;`, a store through the reference that `write()`
  returns -/
  | store (i : Nat) (v : T)

/-- Run one handle operation. -/
def HandleOp.run [Payload T] : HandleOp T → World T → Except Fault (World T)
  | HandleOp.ctor_default, w => w.ctor_default
  | HandleOp.ctor_value v, w => w.ctor_args v
  | HandleOp.ctor_copy j, w => w.ctor_copy j
  | HandleOp.ctor_move j, w => w.ctor_move j
  | HandleOp.dtor i, w => w.dtor i
  | HandleOp.assign_copy i j, w => w.assign_copy i j
  | HandleOp.assign_move i j, w => w.assign_move i j
  | HandleOp.swap i j, w => w.swap i j
  | HandleOp.write i, w => w.write i
  | HandleOp.store i v, w => do
    let w1 ← w.write i
    w1.update i (fun _ => .ok v)

/-- Run a sequence of handle operations, stopping at the first fault. -/
def runHandleOps [Payload T] : List (HandleOp T) → World T → Except Fault (World T)
  | [], w => .ok w
  | op :: ops, w => do
    let w1 ← op.run w
    runHandleOps ops w1

/-- The handle object `i` is within its lifetime. -/
def World.Live (w : World T) (i : Nat) : Prop := ∃ p, w.vars[i]? = some (some p)

/-- The handle object `i` is within its lifetime and its `mModel` is not null. -/
def World.NonNull (w : World T) (i : Nat) : Prop :=
  ∃ a, w.vars[i]? = some (some { mModel := some a })

/-- The operands of a handle operation are within their lifetime, and not null where
the code asserts it. -/
def HandleOp.Admissible (w : World T) : HandleOp T → Prop
  | HandleOp.ctor_default => True
  | HandleOp.ctor_value _ => True
  | HandleOp.ctor_copy j => w.NonNull j
  | HandleOp.ctor_move j => w.NonNull j
  | HandleOp.dtor i => w.Live i
  | HandleOp.assign_copy i j => w.Live i ∧ w.NonNull j
  | HandleOp.assign_move i j => w.Live i ∧ w.NonNull j
  | HandleOp.swap i j => w.Live i ∧ w.Live j
  | HandleOp.write i => w.NonNull i
  | HandleOp.store i _ => w.NonNull i

/-- The number of handles bound to the cell at `a`: handle objects within their
lifetime, and the temporaries `temps`. -/
def World.holders (w : World T) (temps : List vcow_ptr) (a : Nat) : Nat :=
  w.vars.count (some { mModel := some a }) + temps.count { mModel := some a }

/-- The count a cell at `a` should hold: its holders, and one more for `default_s`,
whose count starts at 1. -/
def World.due (w : World T) (temps : List vcow_ptr) (a : Nat) : Nat :=
  w.holders temps a + (if a = 0 then 1 else 0)

/-- The accounting of references in a state in which the temporaries `temps` are
alive: `default_s` exists; every cell's count is the number of handles bound to it
(one more for `default_s`); a cell is deleted exactly when its count is zero; no
handle is bound to an address that was never allocated. -/
structure World.Accounted (w : World T) (temps : List vcow_ptr) : Prop where
  static : 0 < w.cells.length
  counts : ∀ (a : Nat) (c : Cell T), w.cells[a]? = some c → c.obj.mRef = w.due temps a
  freed : ∀ (a : Nat) (c : Cell T), w.cells[a]? = some c →
    (c.deleted = true ↔ c.obj.mRef = 0)
  alloc : ∀ a, w.cells.length ≤ a → w.holders temps a = 0

/-- The state after `vcow_ptr<T> h0; vcow_ptr<T> h1(line); vcow_ptr<T> h2(h1);
h2.write() = dot; h0 = h1;` and the end of the lifetime of `h2`: `h0` and `h1` share
the cell of `line`, the cell `h2` had detached to is deleted. -/
def handleSample : Paths Int :=
  { cells := [{ obj := { mRef := 1, mValue := VPathData.default }, deleted := false },
              { obj := { mRef := 2, mValue := linePayload }, deleted := false },
              { obj := { mRef := 0, mValue := dotPayload }, deleted := true }],
    vars := [some { mModel := some 1 }, some { mModel := some 1 }, none] }

/-- The state after `{ vcow_ptr<T> h0; vcow_ptr<T> h1; }`: both objects were bound to
`default_s` and are destroyed. -/
def allDestroyed : Paths Int :=
  { cells := [{ obj := { mRef := 1, mValue := VPathData.default }, deleted := false }],
    vars := [none, none] }

/-- The state after `2 ^ 31 - 1` declarations `vcow_ptr<T> h;`: every object is bound
to `default_s`, whose count is `2 ^ 31`. -/
def manyDefaults : Paths Int :=
  { cells := [{ obj := { mRef := 1 + (2 ^ 31 - 1), mValue := VPathData.default },
                deleted := false }],
    vars := [] ++ List.replicate (2 ^ 31 - 1) (some { mModel := some 0 }) }

/-! ## Theorems -/

/-! ### Arithmetic of the counter -/

theorem decRef_of_pos (n : Nat) (h1 : 1 ≤ n) (h2 : n < SIZE_MOD) : decRef n = n - 1 := by
  unfold decRef SIZE_MOD at *
  omega

theorem incRef_of_lt (n : Nat) (h : n + 1 < SIZE_MOD) : incRef n = n + 1 := by
  unfold incRef
  exact Nat.mod_eq_of_lt h

theorem toInt_of_small (n : Nat) (h : n < 2 ^ 31) : toInt n = (n : Int) := by
  unfold toInt
  have h1 : n % 2 ^ 32 = n := Nat.mod_eq_of_lt (by omega)
  rw [h1]
  have h2 : n < 2147483648 := by simpa using h
  simp [h2]

/-! ### Reading through a bound handle -/

theorem addr_lt_of_bound {w : World T} {i a : Nat} {c : model T} (hb : w.Bound i a c) :
    a < w.cells.length := by
  have h := hb.2
  by_contra hlt
  rw [List.getElem?_eq_none (by omega)] at h
  exact Option.noConfusion h

theorem handle_of_bound {w : World T} {i a : Nat} {c : model T} (hb : w.Bound i a c) :
    w.handle i = .ok { mModel := some a } := by
  simp [World.handle, hb.1]

theorem cell_of_bound {w : World T} {i a : Nat} {c : model T} (hb : w.Bound i a c) :
    w.cell a = .ok c := by
  simp [World.cell, hb.2]

theorem count_of_bound {w : World T} {i a : Nat} {c : model T} (hb : w.Bound i a c) :
    w.count i = .ok c.mRef := by
  simp [World.count, handle_of_bound hb, cell_of_bound hb, bind, Except.bind, pure,
    Except.pure]

theorem read_of_bound {w : World T} {i a : Nat} {c : model T} (hb : w.Bound i a c) :
    w.read i = .ok c.mValue := by
  simp [World.read, handle_of_bound hb, cell_of_bound hb, bind, Except.bind, pure,
    Except.pure]

theorem unique_of_bound {w : World T} {i a : Nat} {c : model T} (hb : w.Bound i a c) :
    w.unique i = .ok (c.mRef == 1) := by
  simp [World.unique, count_of_bound hb, bind, Except.bind, pure, Except.pure]

theorem refCount_of_bound {w : World T} {i a : Nat} {c : model T} (hb : w.Bound i a c) :
    w.refCount i = .ok (toInt c.mRef) := by
  simp [World.refCount, count_of_bound hb, bind, Except.bind, pure, Except.pure]

/-! ### `write()` -/

theorem write_of_unique [Payload T] {w : World T} {i a : Nat} {c : model T}
    (hb : w.Bound i a c) (h1 : c.mRef = 1) : w.write i = .ok w := by
  simp [World.write, unique_of_bound hb, h1, bind, Except.bind, pure, Except.pure]

theorem write_of_shared [Payload T] {w : World T} {i a : Nat} {c : model T}
    (hb : w.Bound i a c) (h1 : c.mRef ≠ 1) (hpos : 1 ≤ c.mRef) (hrep : c.mRef < SIZE_MOD) :
    w.write i = .ok
      { cells := (w.cells ++
            [({ obj := { mRef := 1, mValue := Payload.copyValue c.mValue },
                deleted := false } : Cell T)]).set
          a { obj := { mRef := c.mRef - 1, mValue := c.mValue }, deleted := false },
        vars := w.vars.set i (some { mModel := some w.cells.length }) } := by
  have hlt := addr_lt_of_bound hb
  have hdec := decRef_of_pos c.mRef hpos hrep
  have hne : c.mRef - 1 ≠ 0 := by omega
  have hget : (w.cells ++
      [{ obj := { mRef := 1, mValue := Payload.copyValue c.mValue }, deleted := false }])[a]?
      = some { obj := c, deleted := false } := by
    rw [List.getElem?_append_left hlt]
    exact hb.2
  simp [World.write, unique_of_bound hb, read_of_bound hb, h1, World.ctor_value,
    World.assign_temp, World.handle, hb.1, World.setHandle, World.release, World.cell,
    World.setRef, hget, hdec, hne, bind, Except.bind, pure, Except.pure]

/-! ### Counter updates -/

theorem increment_of_cell {w : World T} {a : Nat} {c : model T}
    (hc : w.cells[a]? = some { obj := c, deleted := false }) :
    w.increment a = .ok
      { w with
        cells := w.cells.set a
          { obj := { mRef := incRef c.mRef, mValue := c.mValue }, deleted := false } } := by
  simp [World.increment, World.cell, World.setRef, hc, bind, Except.bind, pure, Except.pure]

theorem release_null (w : World T) : w.release { mModel := none } = .ok w := rfl

theorem release_kept {w : World T} {a : Nat} {c : model T}
    (hc : w.cells[a]? = some { obj := c, deleted := false }) (hne : decRef c.mRef ≠ 0) :
    w.release { mModel := some a } = .ok
      { w with
        cells := w.cells.set a
          { obj := { mRef := decRef c.mRef, mValue := c.mValue }, deleted := false } } := by
  simp [World.release, World.cell, World.setRef, hc, hne, bind, Except.bind, pure,
    Except.pure]

theorem release_last {w : World T} {a : Nat} {c : model T}
    (hc : w.cells[a]? = some { obj := c, deleted := false }) (hz : decRef c.mRef = 0)
    (ha : a ≠ 0) :
    w.release { mModel := some a } = .ok
      { w with
        cells := w.cells.set a
          { obj := { mRef := 0, mValue := c.mValue }, deleted := true } } := by
  have hlt : a < w.cells.length := by
    by_contra hlt
    rw [List.getElem?_eq_none (by omega)] at hc
    exact Option.noConfusion hc
  simp [World.release, World.cell, World.setRef, World.deleteCell, hc, hz, ha, hlt, bind,
    Except.bind, pure, Except.pure]

/-! ### Copy construction -/

theorem ctor_copy_of_bound {w : World T} {j a : Nat} {c : model T} (hb : w.Bound j a c) :
    w.ctor_copy j = .ok
      { cells := w.cells.set a
          { obj := { mRef := incRef c.mRef, mValue := c.mValue }, deleted := false },
        vars := w.vars ++ [some { mModel := some a }] } := by
  simp [World.ctor_copy, World.copy_of, handle_of_bound hb, increment_of_cell hb.2, bind,
    Except.bind, pure, Except.pure]

/-- C10: copy construction from a handle bound to a live cell returns; the new handle
object (the last of `vars`) and the source are bound to the same cell, whose count is
exactly one more than before and whose payload is unchanged; no cell is allocated and
every other cell (count included) is unchanged.  The count before is a count of
handles, so its successor is representable. -/
theorem ctor_copy_shares_and_increments (w : World T) (j a : Nat) (c : model T)
    (hb : w.Bound j a c) (hrep : c.mRef + 1 < SIZE_MOD) :
    ∃ w', w.ctor_copy j = .ok w' ∧
      w'.vars = w.vars ++ [some { mModel := some a }] ∧
      w'.Bound w.vars.length a { mRef := c.mRef + 1, mValue := c.mValue } ∧
      w'.Bound j a { mRef := c.mRef + 1, mValue := c.mValue } ∧
      w'.cells.length = w.cells.length ∧
      (∀ b, b ≠ a → w'.cells[b]? = w.cells[b]?) := by
  have hlt := addr_lt_of_bound hb
  have hj : j < w.vars.length := by
    by_contra hj
    have h := hb.1
    rw [List.getElem?_eq_none (by omega)] at h
    exact Option.noConfusion h
  refine ⟨_, ctor_copy_of_bound hb, rfl, ?_, ?_, ?_, ?_⟩
  · constructor
    · simp
    · simp [incRef_of_lt _ hrep, hlt]
  · constructor
    · simp [List.getElem?_append_left hj, hb.1]
    · simp [incRef_of_lt _ hrep, hlt]
  · simp
  · intro b hba
    simp [List.getElem?_set_ne (Ne.symm hba)]

/-- C10, at `VPath p0; VPath p1;` copying `p0`. -/
theorem ctor_copy_shares_and_increments_witness :
    ∃ w', twoDefaults.ctor_copy 0 = .ok w' ∧
      w'.vars = twoDefaults.vars ++ [some { mModel := some 0 }] ∧
      w'.Bound twoDefaults.vars.length 0 { mRef := 3 + 1, mValue := VPathData.default } ∧
      w'.Bound 0 0 { mRef := 3 + 1, mValue := VPathData.default } ∧
      w'.cells.length = twoDefaults.cells.length ∧
      (∀ b, b ≠ 0 → w'.cells[b]? = twoDefaults.cells[b]?) :=
  ctor_copy_shares_and_increments twoDefaults 0 0
    { mRef := 3, mValue := VPathData.default } ⟨rfl, rfl⟩ (by decide)

/-- C2: `write()` on a handle bound to a live cell (whose count, a count of handles
that includes this one, is at least 1).  If the count is 1 the call returns with the
state unchanged: the reference returned is to that same cell's payload, nothing is
allocated and no count changes.  Otherwise it returns having allocated exactly one
cell, at a fresh address, whose payload is the copy-constructed old payload and whose
count is 1; the handle is bound to it; the old cell's count is one less, its payload
is unchanged and it is not deleted, the count not having reached zero; no other cell
and no other handle changes. -/
theorem write_contract [Payload T] (w : World T) (i a : Nat) (c : model T)
    (hb : w.Bound i a c) (hpos : 1 ≤ c.mRef) (hrep : c.mRef < SIZE_MOD) :
    (c.mRef = 1 → w.write i = .ok w) ∧
    (c.mRef ≠ 1 → ∃ w', w.write i = .ok w' ∧
      w'.cells.length = w.cells.length + 1 ∧
      w'.Bound i w.cells.length { mRef := 1, mValue := Payload.copyValue c.mValue } ∧
      w'.cells[a]? = some { obj := { mRef := c.mRef - 1, mValue := c.mValue },
                            deleted := false } ∧
      (∀ b, b ≠ a → b < w.cells.length → w'.cells[b]? = w.cells[b]?) ∧
      (∀ k, k ≠ i → w'.vars[k]? = w.vars[k]?)) := by
  refine ⟨fun h1 => write_of_unique hb h1, fun h1 => ?_⟩
  have hlt := addr_lt_of_bound hb
  have hi : i < w.vars.length := by
    by_contra hi
    have h := hb.1
    rw [List.getElem?_eq_none (by omega)] at h
    exact Option.noConfusion h
  refine ⟨_, write_of_shared hb h1 hpos hrep, ?_, ?_, ?_, ?_, ?_⟩
  · simp
  · constructor
    · simp [hi]
    · have hne : a ≠ w.cells.length := by omega
      simp [List.getElem?_set_ne hne]
  · have hlt' : a < w.cells.length + 1 := by omega
    simp [hlt']
  · intro b hba hb'
    simp [List.getElem?_set_ne (Ne.symm hba), List.getElem?_append_left hb']
  · intro k hk
    simp [List.getElem?_set_ne (Ne.symm hk)]

/-- C2, at `VPath p0; VPath p1;` with `write()` on `p0`, which shares `default_s`. -/
theorem write_contract_witness :
    ((3 : Nat) = 1 → twoDefaults.write 0 = .ok twoDefaults) ∧
    ((3 : Nat) ≠ 1 → ∃ w', twoDefaults.write 0 = .ok w' ∧
      w'.cells.length = twoDefaults.cells.length + 1 ∧
      w'.Bound 0 twoDefaults.cells.length
        { mRef := 1, mValue := Payload.copyValue (VPathData.default : VPathData Int) } ∧
      w'.cells[0]? = some { obj := { mRef := 3 - 1, mValue := VPathData.default },
                            deleted := false } ∧
      (∀ b, b ≠ 0 → b < twoDefaults.cells.length → w'.cells[b]? = twoDefaults.cells[b]?) ∧
      (∀ k, k ≠ 0 → w'.vars[k]? = twoDefaults.vars[k]?)) :=
  write_contract twoDefaults 0 0 { mRef := 3, mValue := VPathData.default } ⟨rfl, rfl⟩
    (by decide) (by decide)

/-! ### Mutating through `write()` -/

theorem index_lt_of_bound {w : World T} {i a : Nat} {c : model T} (hb : w.Bound i a c) :
    i < w.vars.length := by
  by_contra hi
  have h := hb.1
  rw [List.getElem?_eq_none (by omega)] at h
  exact Option.noConfusion h

theorem update_of_bound {w : World T} {i a : Nat} {c : model T} (hb : w.Bound i a c)
    (f : T → Except Fault T) :
    w.update i f = (f c.mValue).map (fun v =>
      ({ w with
         cells := w.cells.set a { obj := { mRef := c.mRef, mValue := v }, deleted := false } } :
        World T)) := by
  cases hf : f c.mValue <;>
    simp [World.update, handle_of_bound hb, cell_of_bound hb, World.setValue, hb.2, hf, bind,
      Except.bind, pure, Except.pure, Except.map]

theorem bound_after_detach [Payload T] {w : World T} {i a : Nat} {c : model T}
    (hb : w.Bound i a c) :
    World.Bound
      ({ cells := (w.cells ++
            [({ obj := { mRef := 1, mValue := Payload.copyValue c.mValue },
                deleted := false } : Cell T)]).set
          a { obj := { mRef := c.mRef - 1, mValue := c.mValue }, deleted := false },
         vars := w.vars.set i (some { mModel := some w.cells.length }) } : World T)
      i w.cells.length { mRef := 1, mValue := Payload.copyValue c.mValue } := by
  have hlt := addr_lt_of_bound hb
  have hi := index_lt_of_bound hb
  have hne : a ≠ w.cells.length := by omega
  constructor
  · simp [hi]
  · simp [List.getElem?_set_ne hne]

theorem mutate_of_unique [Zero F] {w : Paths F} {i a : Nat} {c : model (VPathData F)}
    (hb : w.Bound i a c) (h1 : c.mRef = 1) (mu : Mutator F) :
    VPath.mutate w i mu = (mu.apply c.mValue).map (fun v =>
      ({ w with
         cells := w.cells.set a { obj := { mRef := 1, mValue := v }, deleted := false } } :
        Paths F)) := by
  simp [VPath.mutate, write_of_unique hb h1, update_of_bound hb, h1, bind, Except.bind]

theorem mutate_of_shared [Zero F] {w : Paths F} {i a : Nat} {c : model (VPathData F)}
    (hb : w.Bound i a c) (h1 : c.mRef ≠ 1) (hpos : 1 ≤ c.mRef) (hrep : c.mRef < SIZE_MOD)
    (mu : Mutator F) :
    VPath.mutate w i mu = (mu.apply c.mValue.copy).map (fun v =>
      ({ cells := ((w.cells ++
            [({ obj := { mRef := 1, mValue := c.mValue.copy }, deleted := false } :
              Cell (VPathData F))]).set
            a { obj := { mRef := c.mRef - 1, mValue := c.mValue }, deleted := false }).set
            w.cells.length { obj := { mRef := 1, mValue := v }, deleted := false },
         vars := w.vars.set i (some { mModel := some w.cells.length }) } : Paths F)) := by
  have hb2 := bound_after_detach hb
  simp only [VPath.mutate, write_of_shared hb h1 hpos hrep, bind, Except.bind]
  rw [update_of_bound hb2]
  rfl

theorem bound_eta {w : World T} {i a : Nat} {c : model T} (hb : w.Bound i a c) :
    w.Bound i a { mRef := c.mRef, mValue := c.mValue } := hb

theorem write_post [Payload T] {w : World T} {i a : Nat} {c : model T}
    (hb : w.Bound i a c) (hpos : 1 ≤ c.mRef) (hrep : c.mRef < SIZE_MOD) :
    ∃ w1 n v, w.write i = .ok w1 ∧ w1.Bound i n { mRef := 1, mValue := v } := by
  by_cases h1 : c.mRef = 1
  · refine ⟨w, a, c.mValue, write_of_unique hb h1, ?_⟩
    have h := bound_eta hb
    rw [h1] at h
    exact h
  · exact ⟨_, _, _, write_of_shared hb h1 hpos hrep, bound_after_detach hb⟩

theorem update_post {w w2 : World T} {i n : Nat} {c : model T} (hb : w.Bound i n c)
    {f : T → Except Fault T} (h : w.update i f = .ok w2) :
    ∃ v, f c.mValue = .ok v ∧ w2.Bound i n { mRef := c.mRef, mValue := v } ∧
      w2.cells = w.cells.set n { obj := { mRef := c.mRef, mValue := v }, deleted := false } ∧
      w2.vars = w.vars := by
  rw [update_of_bound hb] at h
  cases hf : f c.mValue with
  | error e => simp [hf, Except.map] at h
  | ok v =>
    simp only [hf, Except.map, Except.ok.injEq] at h
    subst h
    have hlt := addr_lt_of_bound hb
    exact ⟨v, rfl, ⟨hb.1, by simp [hlt]⟩, rfl, rfl⟩

theorem sole_of_bound_one {w : Paths F} {i n : Nat} {v : VPathData F}
    (hb : w.Bound i n { mRef := 1, mValue := v }) :
    VPath.unique w i = .ok true ∧ VPath.refCount w i = .ok 1 := by
  constructor
  · simp [VPath.unique, unique_of_bound hb]
  · simp [VPath.refCount, refCount_of_bound hb, toInt]

theorem twoDefaults_reachable :
    runOps [Op.construct, Op.construct] (World.initial : Paths Int) = .ok twoDefaults := rfl

theorem oneLine_reachable :
    runOps [Op.construct, Op.construct, Op.mutate 1 (Mutator.moveTo 0 0),
      Op.mutate 1 (Mutator.lineTo 10 0)] (World.initial : Paths Int) = .ok oneLine := rfl

/-- C4, as stated, fails for `addPath`.  With an empty argument (`VPath p0; VPath p1;
p0.addPath(p1);`) it returns at once and `p0` stays on the shared `default_s`, count 3;
on a no-storage receiver with a non-empty argument it makes the receiver share the
argument's cell, count 2.  In both `unique()` is false. -/
theorem addPath_not_sole_owner :
    (VPath.addPath twoDefaults 0 1 = .ok twoDefaults ∧
      VPath.unique twoDefaults 0 = .ok false ∧ VPath.refCount twoDefaults 0 = .ok 3) ∧
    (∃ w', VPath.addPath oneLine 0 1 = .ok w' ∧
      VPath.unique w' 0 = .ok false ∧ VPath.refCount w' 0 = .ok 2) :=
  ⟨⟨rfl, rfl, rfl⟩, ⟨_, rfl, rfl, rfl⟩⟩

/-- C4 (amended): for a path bound to a live cell, every mutating call whose body is
`d.write().f(args)` (moveTo, lineTo, cubicTo, close, reset, reserve, transform, arcTo,
addRect, addRoundRect, addOval, addCircle, addPolygon, addPolystar) that returns
leaves the path the sole owner of its cell, `unique()` true and `refCount() == 1`, and
it returns whenever the payload member does; `addPath` does so when it takes its
append branch, the argument not empty and the receiver with storage. -/
theorem mutators_leave_sole_owner [Zero F] (w : Paths F) (i a : Nat)
    (c : model (VPathData F)) (hb : w.Bound i a c) (hpos : 1 ≤ c.mRef)
    (hrep : c.mRef < SIZE_MOD) :
    (∀ (mu : Mutator F) (w' : Paths F), VPath.mutate w i mu = .ok w' →
      VPath.unique w' i = .ok true ∧ VPath.refCount w' i = .ok 1) ∧
    (∀ (mu : Mutator F),
      (∃ v, mu.apply (if c.mRef = 1 then c.mValue else c.mValue.copy) = .ok v) →
      ∃ w', VPath.mutate w i mu = .ok w') ∧
    (∀ (j : Nat) (w' : Paths F), VPath.empty w j = .ok false → VPath.null w i = .ok false →
      VPath.addPath w i j = .ok w' →
      VPath.unique w' i = .ok true ∧ VPath.refCount w' i = .ok 1) := by
  obtain ⟨w1, n, v, hw, hb1⟩ := write_post hb hpos hrep
  refine ⟨?_, ?_, ?_⟩
  · intro mu w' h
    simp only [VPath.mutate, hw, bind, Except.bind] at h
    obtain ⟨v', -, hb2, -, -⟩ := update_post hb1 h
    exact sole_of_bound_one hb2
  · intro mu hv
    obtain ⟨v', hv'⟩ := hv
    by_cases h1 : c.mRef = 1
    · rw [mutate_of_unique hb h1]
      simp only [h1, if_true] at hv'
      exact ⟨_, by rw [hv']; rfl⟩
    · rw [mutate_of_shared hb h1 hpos hrep]
      simp only [h1, if_false] at hv'
      exact ⟨_, by rw [hv']; rfl⟩
  · intro j w' hE hN h
    simp only [VPath.addPath, hE, hN, hw, bind, Except.bind, pure, Except.pure] at h
    cases hr : w1.read j with
    | error e => simp [hr] at h
    | ok src =>
      simp only [hr, Bool.false_eq_true, if_false] at h
      obtain ⟨v', -, hb2, -, -⟩ := update_post hb1 h
      exact sole_of_bound_one hb2

/-- C4 (amended), at `VPath p0; VPath p1;` with calls on `p0`. -/
theorem mutators_leave_sole_owner_witness :
    (∀ (mu : Mutator Int) (w' : Paths Int), VPath.mutate twoDefaults 0 mu = .ok w' →
      VPath.unique w' 0 = .ok true ∧ VPath.refCount w' 0 = .ok 1) ∧
    (∀ (mu : Mutator Int),
      (∃ v, mu.apply (if (3 : Nat) = 1 then (VPathData.default : VPathData Int)
        else (VPathData.default : VPathData Int).copy) = .ok v) →
      ∃ w', VPath.mutate twoDefaults 0 mu = .ok w') ∧
    (∀ (j : Nat) (w' : Paths Int), VPath.empty twoDefaults j = .ok false →
      VPath.null twoDefaults 0 = .ok false →
      VPath.addPath twoDefaults 0 j = .ok w' →
      VPath.unique w' 0 = .ok true ∧ VPath.refCount w' 0 = .ok 1) :=
  mutators_leave_sole_owner twoDefaults 0 0 { mRef := 3, mValue := VPathData.default }
    ⟨rfl, rfl⟩ (by decide) (by decide)

/-! ### Frame of `write()`: a cell that the writer does not own alone is kept -/

theorem write_frame [Payload T] {w : World T} {i n q r : Nat} {c : model T} {v : T}
    (hb : w.Bound i n c) (hpos : 1 ≤ c.mRef) (hrep : c.mRef < SIZE_MOD)
    (hq : w.cells[q]? = some { obj := { mRef := r, mValue := v }, deleted := false })
    (hshare : n = q → 2 ≤ r) :
    ∃ w1 n1 v1, w.write i = .ok w1 ∧ w1.Bound i n1 { mRef := 1, mValue := v1 } ∧ n1 ≠ q ∧
      (v1 = c.mValue ∨ v1 = Payload.copyValue c.mValue) ∧
      w1.cells[q]? = some { obj := { mRef := if n = q then r - 1 else r, mValue := v },
                            deleted := false } ∧
      (∀ k, k ≠ i → w1.vars[k]? = w.vars[k]?) ∧
      w.cells.length ≤ w1.cells.length := by
  have hlt := addr_lt_of_bound hb
  have hi := index_lt_of_bound hb
  have hqlt : q < w.cells.length := by
    by_contra hlt'
    rw [List.getElem?_eq_none (by omega)] at hq
    exact Option.noConfusion hq
  by_cases h1 : c.mRef = 1
  · have hnq : n ≠ q := by
      intro h
      subst h
      have h2 := hshare rfl
      have h3 := hb.2
      rw [hq] at h3
      simp only [Option.some.injEq, Cell.mk.injEq, and_true] at h3
      rw [← h3] at h1
      simp only at h1
      omega
    refine ⟨w, n, c.mValue, write_of_unique hb h1, ?_, hnq, Or.inl rfl, ?_, fun _ _ => rfl,
      le_refl _⟩
    · have h := bound_eta hb
      rw [h1] at h
      exact h
    · simp [hnq, hq]
  · refine ⟨_, _, _, write_of_shared hb h1 hpos hrep, bound_after_detach hb, by omega,
      Or.inr rfl, ?_, ?_, ?_⟩
    · by_cases hnq : n = q
      · subst hnq
        have h3 := hb.2
        rw [hq] at h3
        simp only [Option.some.injEq, Cell.mk.injEq, and_true] at h3
        subst h3
        have hlt' : n < w.cells.length + 1 := by omega
        simp [hlt']
      · simp [hnq, List.getElem?_set_ne hnq, List.getElem?_append_left hqlt, hq]
    · intro k hk
      simp [List.getElem?_set_ne (Ne.symm hk)]
    · simp

theorem mutate_frame [Zero F] {w w2 : Paths F} {i n q r : Nat} {c : model (VPathData F)}
    {v : VPathData F} {mu : Mutator F}
    (hb : w.Bound i n c) (hpos : 1 ≤ c.mRef) (hrep : c.mRef < SIZE_MOD)
    (hq : w.cells[q]? = some { obj := { mRef := r, mValue := v }, deleted := false })
    (hshare : n = q → 2 ≤ r) (h : VPath.mutate w i mu = .ok w2) :
    ∃ n1 v1 v2, w2.Bound i n1 { mRef := 1, mValue := v2 } ∧ n1 ≠ q ∧
      (v1 = c.mValue ∨ v1 = c.mValue.copy) ∧ mu.apply v1 = .ok v2 ∧
      w2.cells[q]? = some { obj := { mRef := if n = q then r - 1 else r, mValue := v },
                            deleted := false } ∧
      (∀ k, k ≠ i → w2.vars[k]? = w.vars[k]?) := by
  obtain ⟨w1, n1, v1, hw, hb1, hne, hv1, hq1, hvars, -⟩ := write_frame hb hpos hrep hq hshare
  simp only [VPath.mutate, hw, bind, Except.bind] at h
  obtain ⟨v2, hf, hb2, hcells, hvars2⟩ := update_post hb1 h
  refine ⟨n1, v1, v2, hb2, hne, hv1, hf, ?_, ?_⟩
  · rw [hcells, List.getElem?_set_ne hne]
    exact hq1
  · intro k hk
    rw [hvars2]
    exact hvars k hk

/-! ### Copy assignment between handles bound to different cells -/

theorem bound_of_read {w : World T} {i : Nat} {v : T} (h : w.read i = .ok v) :
    ∃ a c, w.Bound i a c ∧ c.mValue = v := by
  unfold World.read World.handle at h
  cases hv : w.vars[i]? with
  | none => simp [hv, bind, Except.bind] at h
  | some o =>
    cases o with
    | none => simp [hv, bind, Except.bind] at h
    | some p =>
      cases p with
      | mk m =>
        cases m with
        | none => simp [hv, bind, Except.bind] at h
        | some a =>
          simp only [hv, bind, Except.bind, World.cell] at h
          cases hc : w.cells[a]? with
          | none => simp [hc] at h
          | some cl =>
            cases cl with
            | mk c d =>
              cases d with
              | true => simp [hc] at h
              | false =>
                simp only [hc, pure, Except.pure] at h
                refine ⟨a, c, ⟨hv, hc⟩, ?_⟩
                simpa using h

theorem assign_temp_eq {w : World T} {i a : Nat} {c : model T} (hb : w.Bound i a c)
    (x : Nat) :
    w.assign_temp i { mModel := some x } =
      (w.setHandle i { mModel := some x }).release { mModel := some a } := by
  simp [World.assign_temp, handle_of_bound hb, bind, Except.bind]

theorem assign_copy_eq {w : World T} {i j a b : Nat} {c cb : model T}
    (hbi : w.Bound i a c) (hbj : w.Bound j b cb) (hab : a ≠ b)
    (hpos : 1 ≤ c.mRef) (hrep : c.mRef < SIZE_MOD) :
    w.assign_copy i j =
      if c.mRef = 1 then
        (if a = 0 then .error .undefined
         else .ok
          { cells := (w.cells.set b
              { obj := { mRef := incRef cb.mRef, mValue := cb.mValue }, deleted := false }).set
              a { obj := { mRef := 0, mValue := c.mValue }, deleted := true },
            vars := w.vars.set i (some { mModel := some b }) })
      else .ok
          { cells := (w.cells.set b
              { obj := { mRef := incRef cb.mRef, mValue := cb.mValue }, deleted := false }).set
              a { obj := { mRef := c.mRef - 1, mValue := c.mValue }, deleted := false },
            vars := w.vars.set i (some { mModel := some b }) } := by
  have hdec := decRef_of_pos c.mRef hpos hrep
  have hb1 : World.Bound
      ({ w with
         cells := w.cells.set b
          { obj := { mRef := incRef cb.mRef, mValue := cb.mValue }, deleted := false } } :
        World T) i a c := by
    refine ⟨hbi.1, ?_⟩
    show (w.cells.set b _)[a]? = _
    rw [List.getElem?_set_ne (Ne.symm hab)]
    exact hbi.2
  unfold World.assign_copy
  rw [handle_of_bound hbj]
  simp only [bind, Except.bind, World.copy_of, increment_of_cell hbj.2, pure, Except.pure]
  rw [assign_temp_eq hb1]
  have hc2 : (World.setHandle
      ({ w with
         cells := w.cells.set b
          { obj := { mRef := incRef cb.mRef, mValue := cb.mValue }, deleted := false } } :
        World T) i { mModel := some b }).cells[a]? = some { obj := c, deleted := false } :=
    hb1.2
  by_cases h1 : c.mRef = 1
  · have hz : decRef c.mRef = 0 := by omega
    rw [if_pos h1]
    by_cases h0 : a = 0
    · subst h0
      rw [if_pos rfl]
      simp [World.release, World.cell, World.setRef, World.deleteCell, hc2, hz, bind,
        Except.bind]
    · rw [if_neg h0, release_last hc2 hz h0]
      rfl
  · have hz : decRef c.mRef ≠ 0 := by omega
    rw [if_neg h1, release_kept hc2 hz, hdec]
    rfl

/-! ### Queries of `VPath` through a bound handle -/

theorem empty_of_bound {w : Paths F} {i a : Nat} {c : model (VPathData F)}
    (hb : w.Bound i a c) : VPath.empty w i = .ok c.mValue.empty := by
  simp [VPath.empty, read_of_bound hb, bind, Except.bind, pure, Except.pure]

theorem null_of_bound {w : Paths F} {i a : Nat} {c : model (VPathData F)}
    (hb : w.Bound i a c) : VPath.null w i = .ok c.mValue.null := by
  simp [VPath.null, read_of_bound hb, bind, Except.bind, pure, Except.pure]

theorem elements_of_bound {w : Paths F} {i a : Nat} {c : model (VPathData F)}
    (hb : w.Bound i a c) : VPath.elements w i = .ok c.mValue.elements := by
  simp [VPath.elements, read_of_bound hb, bind, Except.bind, pure, Except.pure]

theorem points_of_bound {w : Paths F} {i a : Nat} {c : model (VPathData F)}
    (hb : w.Bound i a c) : VPath.points w i = .ok c.mValue.points := by
  simp [VPath.points, read_of_bound hb, bind, Except.bind, pure, Except.pure]

theorem segments_of_bound {w : Paths F} {i a : Nat} {c : model (VPathData F)}
    (hb : w.Bound i a c) : VPath.segments w i = .ok c.mValue.segments := by
  simp [VPath.segments, read_of_bound hb, bind, Except.bind, pure, Except.pure]

theorem empty_of_null {d : VPathData F} (h : d.null = true) : d.empty = true := by
  unfold VPathData.null at h
  cases he : d.empty
  · simp [he] at h
  · rfl

theorem cell_of_bound_at {w : World T} {i q r : Nat} {c : model T} {v : T}
    (hb : w.Bound i q c)
    (hq : w.cells[q]? = some { obj := { mRef := r, mValue := v }, deleted := false }) :
    c = { mRef := r, mValue := v } := by
  have h := hb.2
  rw [hq] at h
  simp only [Option.some.injEq, Cell.mk.injEq, and_true] at h
  exact h.symm

/-! ### Frame of `addPath`: a cell that the receiver does not own alone is kept -/

theorem addPath_frame [Zero F] {w w2 : Paths F} {i j n q r : Nat}
    {c : model (VPathData F)} {v : VPathData F}
    (hb : w.Bound i n c) (hpos : 1 ≤ c.mRef) (hrep : c.mRef < SIZE_MOD)
    (hq : w.cells[q]? = some { obj := { mRef := r, mValue := v }, deleted := false })
    (hshare : n = q → 2 ≤ r) (h : VPath.addPath w i j = .ok w2) :
    ∃ r2, w2.cells[q]? = some { obj := { mRef := r2, mValue := v }, deleted := false } ∧
      (∀ k, k ≠ i → w2.vars[k]? = w.vars[k]?) := by
  unfold VPath.addPath at h
  cases hrj : w.read j with
  | error e => simp [VPath.empty, hrj, bind, Except.bind] at h
  | ok vj =>
    obtain ⟨b, cb, hbj, hvj⟩ := bound_of_read hrj
    simp only [empty_of_bound hbj, null_of_bound hb, bind, Except.bind, pure,
      Except.pure] at h
    cases he : cb.mValue.empty with
    | true =>
      simp only [he, if_true, Except.ok.injEq] at h
      subst h
      exact ⟨r, hq, fun _ _ => rfl⟩
    | false =>
      simp only [he, Bool.false_eq_true, if_false] at h
      cases hn : c.mValue.null with
      | true =>
        simp only [hn, if_true] at h
        have hab : n ≠ b := by
          intro hnb
          subst hnb
          have h1 := hb.2
          rw [hbj.2] at h1
          simp only [Option.some.injEq, Cell.mk.injEq, and_true] at h1
          subst h1
          rw [empty_of_null hn] at he
          exact Bool.noConfusion he
        rw [assign_copy_eq hb hbj hab hpos hrep] at h
        have hqb : ∀ x : Nat, b = q →
            ({ obj := { mRef := x, mValue := cb.mValue }, deleted := false } :
              Cell (VPathData F)) =
            { obj := { mRef := x, mValue := v }, deleted := false } := by
          intro x hbq
          subst hbq
          have h2 := cell_of_bound_at hbj hq
          subst h2
          rfl
        have hqlt : q < w.cells.length := by
          by_contra hlt'
          rw [List.getElem?_eq_none (by omega)] at hq
          exact Option.noConfusion hq
        by_cases h1 : c.mRef = 1
        · have hnq : n ≠ q := by
            intro hnq
            subst hnq
            have h2 := cell_of_bound_at hb hq
            subst h2
            have := hshare rfl
            simp only at h1
            omega
          rw [if_pos h1] at h
          by_cases h0 : n = 0
          · simp [h0] at h
          · rw [if_neg h0] at h
            simp only [Except.ok.injEq] at h
            subst h
            refine ⟨if b = q then incRef cb.mRef else r, ?_, ?_⟩
            · by_cases hbq : b = q
              · simp only [List.getElem?_set_ne hnq, hbq, if_true]
                rw [← hqb _ hbq]
                simp [hbq, hqlt]
              · simp [List.getElem?_set_ne hnq, List.getElem?_set_ne hbq, hbq, hq]
            · intro k hk
              simp [List.getElem?_set_ne (Ne.symm hk)]
        · rw [if_neg h1] at h
          simp only [Except.ok.injEq] at h
          subst h
          by_cases hnq : n = q
          · subst hnq
            have h2 := cell_of_bound_at hb hq
            subst h2
            refine ⟨r - 1, ?_, ?_⟩
            · simp [hqlt]
            · intro k hk
              simp [List.getElem?_set_ne (Ne.symm hk)]
          · refine ⟨if b = q then incRef cb.mRef else r, ?_, ?_⟩
            · by_cases hbq : b = q
              · simp only [List.getElem?_set_ne hnq, hbq, if_true]
                rw [← hqb _ hbq]
                simp [hbq, hqlt]
              · simp [List.getElem?_set_ne hnq, List.getElem?_set_ne hbq, hbq, hq]
            · intro k hk
              simp [List.getElem?_set_ne (Ne.symm hk)]
      | false =>
        simp only [hn, Bool.false_eq_true, if_false] at h
        obtain ⟨w1, n1, v1, hw, hb1, hne, -, hq1, hvars, -⟩ :=
          write_frame hb hpos hrep hq hshare
        simp only [hw] at h
        cases hr : w1.read j with
        | error e => simp [hr] at h
        | ok src =>
          simp only [hr] at h
          obtain ⟨v2, -, -, hcells, hvars2⟩ := update_post hb1 h
          refine ⟨if n = q then r - 1 else r, ?_, ?_⟩
          · rw [hcells, List.getElem?_set_ne hne]
            exact hq1
          · intro k hk
            rw [hvars2]
            exact hvars k hk

/-! ### Copy, then mutate the copy -/

theorem ctor_copy_post {w : World T} {j a : Nat} {c : model T}
    (hb : w.Bound j a c) (hrep : c.mRef + 1 < SIZE_MOD) :
    ∃ w', w.ctor_copy j = .ok w' ∧
      w'.vars = w.vars ++ [some { mModel := some a }] ∧
      w'.Bound w.vars.length a { mRef := c.mRef + 1, mValue := c.mValue } ∧
      w'.Bound j a { mRef := c.mRef + 1, mValue := c.mValue } ∧
      w'.cells.length = w.cells.length ∧
      (∀ b, b ≠ a → w'.cells[b]? = w.cells[b]?) := by
  have hlt := addr_lt_of_bound hb
  have hj := index_lt_of_bound hb
  refine ⟨_, ctor_copy_of_bound hb, rfl, ?_, ?_, ?_, ?_⟩
  · constructor
    · simp
    · simp [incRef_of_lt _ hrep, hlt]
  · constructor
    · simp [List.getElem?_append_left hj, hb.1]
    · simp [incRef_of_lt _ hrep, hlt]
  · simp
  · intro b hba
    simp [List.getElem?_set_ne (Ne.symm hba)]

theorem bound_of_frame {w w2 : World T} {i q r : Nat} {c : model T} {v : T}
    (hb : w.Bound i q c)
    (hq : w2.cells[q]? = some { obj := { mRef := r, mValue := v }, deleted := false })
    (hvars : w2.vars[i]? = w.vars[i]?) :
    w2.Bound i q { mRef := r, mValue := v } :=
  ⟨hvars.trans hb.1, hq⟩

theorem content_of_bound {w : Paths F} {i q r : Nat} {v : VPathData F}
    (hb : w.Bound i q { mRef := r, mValue := v }) :
    VPath.elements w i = .ok v.elements ∧ VPath.points w i = .ok v.points :=
  ⟨elements_of_bound hb, points_of_bound hb⟩

/-- C1: let `A` be a path bound to a live cell (whose count, a count of handles that
includes `A`, is at least 1 and below the largest `size_t`) and `B` a copy of `A`.
Every mutating call on `B` that returns, be it a call whose body is
`d.write().f(args)`, `addPath` with any argument or `clone` from any source, leaves
`A.elements()` and `A.points()` exactly as before the call; and a call of the first
kind returns whenever the payload member does. -/
theorem copy_then_mutate_isolation [Zero F] (w : Paths F) (iA a : Nat)
    (c : model (VPathData F)) (hb : w.Bound iA a c) (hpos : 1 ≤ c.mRef)
    (hrep : c.mRef + 1 < SIZE_MOD) :
    VPath.elements w iA = .ok c.mValue.elements ∧
    VPath.points w iA = .ok c.mValue.points ∧
    ∃ w1, w.ctor_copy iA = .ok w1 ∧
      (∀ (op : Op F) (w2 : Paths F), op.mutatesPath w.vars.length → op.run w1 = .ok w2 →
        VPath.elements w2 iA = .ok c.mValue.elements ∧
        VPath.points w2 iA = .ok c.mValue.points) ∧
      (∀ (mu : Mutator F), (∃ v, mu.apply c.mValue.copy = .ok v) →
        ∃ w2, (Op.mutate w.vars.length mu).run w1 = .ok w2) := by
  refine ⟨elements_of_bound hb, points_of_bound hb, ?_⟩
  obtain ⟨w1, hcopy, -, hbB, hbA, -, -⟩ := ctor_copy_post hb hrep
  have hiA := index_lt_of_bound hb
  have hne : iA ≠ w.vars.length := by omega
  have hposB : 1 ≤ (c.mRef + 1) := by omega
  have hrepB : (c.mRef + 1) < SIZE_MOD := hrep
  have hshare : a = a → 2 ≤ c.mRef + 1 := fun _ => by omega
  refine ⟨w1, hcopy, ?_, ?_⟩
  · intro op w2 hop h
    cases op with
    | mutate k mu =>
      simp only [Op.mutatesPath] at hop
      subst hop
      obtain ⟨n1, v1, v2, -, -, -, -, hq2, hvars⟩ :=
        mutate_frame hbB hposB hrepB hbA.2 hshare h
      have hbA2 := bound_of_frame hbA hq2 (hvars iA hne)
      exact content_of_bound hbA2
    | addPath k j =>
      simp only [Op.mutatesPath] at hop
      subst hop
      obtain ⟨r2, hq2, hvars⟩ := addPath_frame hbB hposB hrepB hbA.2 hshare h
      have hbA2 := bound_of_frame hbA hq2 (hvars iA hne)
      exact content_of_bound hbA2
    | clone k j =>
      simp only [Op.mutatesPath] at hop
      subst hop
      simp only [Op.run, VPath.clone, VPath.reset, bind, Except.bind] at h
      cases hreset : VPath.mutate w1 w.vars.length Mutator.reset with
      | error e => simp [hreset] at h
      | ok w2a =>
        simp only [hreset] at h
        obtain ⟨n1, v1, v2, hbB2, hn1, -, -, hq2, hvars⟩ :=
          mutate_frame hbB hposB hrepB hbA.2 hshare hreset
        have hbA2 := bound_of_frame hbA hq2 (hvars iA hne)
        have hone : (1 : Nat) < SIZE_MOD := by decide
        obtain ⟨r3, hq3, hvars3⟩ :=
          addPath_frame hbB2 (le_refl 1) hone hq2 (fun h' => absurd h' hn1) h
        have hbA3 := bound_of_frame hbA2 hq3 (hvars3 iA hne)
        exact content_of_bound hbA3
    | construct => exact absurd hop (by simp [Op.mutatesPath])
    | copyConstruct j => exact absurd hop (by simp [Op.mutatesPath])
    | moveConstruct j => exact absurd hop (by simp [Op.mutatesPath])
    | destroy k => exact absurd hop (by simp [Op.mutatesPath])
    | copyAssign k j => exact absurd hop (by simp [Op.mutatesPath])
    | moveAssign k j => exact absurd hop (by simp [Op.mutatesPath])
    | length k x => exact absurd hop (by simp [Op.mutatesPath])
  · intro mu hv
    obtain ⟨v, hv⟩ := hv
    have h1 : c.mRef + 1 ≠ 1 := by omega
    have hm := mutate_of_shared hbB h1 hposB hrepB mu
    simp only [hv, Except.map] at hm
    exact ⟨_, hm⟩

/-- C1, at `VPath p0; VPath p1; p1.moveTo(0, 0); p1.lineTo(10, 0);` with `A = p1`. -/
theorem copy_then_mutate_isolation_witness :
    VPath.elements oneLine 1 = .ok linePayload.elements ∧
    VPath.points oneLine 1 = .ok linePayload.points ∧
    ∃ w1, oneLine.ctor_copy 1 = .ok w1 ∧
      (∀ (op : Op Int) (w2 : Paths Int), op.mutatesPath oneLine.vars.length →
        op.run w1 = .ok w2 →
        VPath.elements w2 1 = .ok linePayload.elements ∧
        VPath.points w2 1 = .ok linePayload.points) ∧
      (∀ (mu : Mutator Int), (∃ v, mu.apply linePayload.copy = .ok v) →
        ∃ w2, (Op.mutate oneLine.vars.length mu).run w1 = .ok w2) :=
  copy_then_mutate_isolation oneLine 1 1 { mRef := 1, mValue := linePayload } ⟨rfl, rfl⟩
    (by decide) (by decide)

/-- C3, as stated, fails for a path still bound to the shared `default_s`:
after `VPath A; VPath B(A); B.moveTo(1, 2);` the call `A.refCount()` returns 2. -/
theorem refCount_of_default_path_after_mutated_copy :
    ∃ w2, runOps [Op.construct, Op.copyConstruct 0, Op.mutate 1 (Mutator.moveTo 1 2)]
        (World.initial : Paths Int) = .ok w2 ∧
      VPath.refCount w2 0 = .ok 2 :=
  ⟨_, rfl, rfl⟩

/-- C3 (amended): let `A` be a path bound to a live cell whose count `n` is at least 1
with `n + 1` below `2 ^ 31`, and `B` a copy of `A`.  Before `B` is mutated
`A.refCount() == B.refCount() == n + 1 >= 2`.  After a call on `B` whose body is
`d.write().f(args)` returns, `A.refCount() == n`, the value it had before the copy
(which is 1 exactly when `A` was the only handle of its cell), and `B.refCount() == 1`;
and such a call returns whenever the payload member does. -/
theorem refCount_around_copy_then_mutate [Zero F] (w : Paths F) (iA a : Nat)
    (c : model (VPathData F)) (hb : w.Bound iA a c) (hpos : 1 ≤ c.mRef)
    (hsmall : c.mRef + 1 < 2 ^ 31) :
    VPath.refCount w iA = .ok (c.mRef : Int) ∧
    ∃ w1, w.ctor_copy iA = .ok w1 ∧
      VPath.refCount w1 iA = .ok ((c.mRef : Int) + 1) ∧
      VPath.refCount w1 w.vars.length = .ok ((c.mRef : Int) + 1) ∧
      (2 : Int) ≤ (c.mRef : Int) + 1 ∧
      (∀ (mu : Mutator F) (w2 : Paths F), VPath.mutate w1 w.vars.length mu = .ok w2 →
        VPath.refCount w2 iA = .ok (c.mRef : Int) ∧
        VPath.refCount w2 w.vars.length = .ok 1) ∧
      (∀ (mu : Mutator F), (∃ v, mu.apply c.mValue.copy = .ok v) →
        ∃ w2, VPath.mutate w1 w.vars.length mu = .ok w2) := by
  have hrep : c.mRef + 1 < SIZE_MOD := by
    have : (2 : Nat) ^ 31 < SIZE_MOD := by decide
    omega
  have hsm : c.mRef < 2 ^ 31 := by omega
  obtain ⟨w1, hcopy, -, hbB, hbA, -, -⟩ := ctor_copy_post hb hrep
  have hiA := index_lt_of_bound hb
  have hne : iA ≠ w.vars.length := by omega
  have hposB : 1 ≤ (c.mRef + 1) := by omega
  have hshare : a = a → 2 ≤ c.mRef + 1 := fun _ => by omega
  refine ⟨?_, w1, hcopy, ?_, ?_, by omega, ?_, ?_⟩
  · simp [VPath.refCount, refCount_of_bound hb, toInt_of_small _ hsm]
  · simp [VPath.refCount, refCount_of_bound hbA, toInt_of_small _ hsmall]
  · simp [VPath.refCount, refCount_of_bound hbB, toInt_of_small _ hsmall]
  · intro mu w2 h
    obtain ⟨n1, v1, v2, hbB2, -, -, -, hq2, hvars⟩ :=
      mutate_frame hbB hposB hrep hbA.2 hshare h
    simp only [if_true, Nat.add_sub_cancel] at hq2
    have hbA2 := bound_of_frame hbA hq2 (hvars iA hne)
    constructor
    · simp [VPath.refCount, refCount_of_bound hbA2, toInt_of_small _ hsm]
    · exact (sole_of_bound_one hbB2).2
  · intro mu hv
    obtain ⟨v, hv⟩ := hv
    have h1 : c.mRef + 1 ≠ 1 := by omega
    have hm := mutate_of_shared hbB h1 hposB hrep mu
    simp only [hv, Except.map] at hm
    exact ⟨_, hm⟩

/-- C3 (amended), at `VPath p0; VPath p1; p1.moveTo(0, 0); p1.lineTo(10, 0);` with
`A = p1`, the only handle of its cell. -/
theorem refCount_around_copy_then_mutate_witness :
    VPath.refCount oneLine 1 = .ok ((1 : Nat) : Int) ∧
    ∃ w1, oneLine.ctor_copy 1 = .ok w1 ∧
      VPath.refCount w1 1 = .ok (((1 : Nat) : Int) + 1) ∧
      VPath.refCount w1 oneLine.vars.length = .ok (((1 : Nat) : Int) + 1) ∧
      (2 : Int) ≤ ((1 : Nat) : Int) + 1 ∧
      (∀ (mu : Mutator Int) (w2 : Paths Int),
        VPath.mutate w1 oneLine.vars.length mu = .ok w2 →
        VPath.refCount w2 1 = .ok ((1 : Nat) : Int) ∧
        VPath.refCount w2 oneLine.vars.length = .ok 1) ∧
      (∀ (mu : Mutator Int), (∃ v, mu.apply linePayload.copy = .ok v) →
        ∃ w2, VPath.mutate w1 oneLine.vars.length mu = .ok w2) :=
  refCount_around_copy_then_mutate oneLine 1 1 { mRef := 1, mValue := linePayload }
    ⟨rfl, rfl⟩ (by decide) (by decide)

/-! ### The payload under copy and `addPath` -/

theorem foldl_push_back_elems {α : Type} (l : List α) (v : vector α) :
    (l.foldl vector.push_back v).elems = v.elems ++ l := by
  induction l generalizing v with
  | nil => simp
  | cons x xs ih => simp [List.foldl_cons, ih, vector.push_back]

theorem copy_elements (d : VPathData F) : d.copy.elements = d.elements := rfl

theorem copy_points (d : VPathData F) : d.copy.points = d.points := rfl

theorem copy_segments (d : VPathData F) : d.copy.segments = d.segments := rfl

theorem addSegments_ok {s n : Int} (h1 : -INT_MAX - 1 ≤ s + n) (h2 : s + n ≤ INT_MAX) :
    addSegments s n = .ok (s + n) := by
  simp [addSegments, h1, h2]

theorem addSegments_eq {s n r : Int} (h : addSegments s n = .ok r) : r = s + n := by
  unfold addSegments at h
  split at h
  · simpa using h.symm
  · exact Except.noConfusion h

theorem payload_addPath_eq {d src v : VPathData F} (h : d.addPath src = .ok v) :
    v.elements = d.elements ++ src.elements ∧ v.points = d.points ++ src.points ∧
      v.segments = d.segments + src.segments := by
  unfold VPathData.addPath at h
  cases hs : addSegments d.m_segments src.segments with
  | error e => simp [hs, bind, Except.bind] at h
  | ok r =>
    simp only [hs, bind, Except.bind, pure, Except.pure, Except.ok.injEq] at h
    subst h
    have hr := addSegments_eq hs
    refine ⟨?_, ?_, ?_⟩
    · simp [VPathData.elements, foldl_push_back_elems]
    · simp [VPathData.points, foldl_push_back_elems]
    · simp [VPathData.segments, hr]

theorem payload_addPath_ok (d src : VPathData F)
    (h1 : -INT_MAX - 1 ≤ d.segments + src.segments)
    (h2 : d.segments + src.segments ≤ INT_MAX) : ∃ v, d.addPath src = .ok v := by
  unfold VPathData.addPath
  have hs : addSegments d.m_segments src.segments = .ok (d.m_segments + src.segments) :=
    addSegments_ok h1 h2
  simp [hs, bind, Except.bind, pure, Except.pure]

theorem points_nil_of_empty {d : VPathData F} (h1 : I1 d) (he : d.empty = true) :
    d.elements = [] ∧ d.points = [] := by
  have hel : d.elements = [] := by
    simpa [VPathData.empty, vector.empty, VPathData.elements] using he
  refine ⟨hel, ?_⟩
  unfold I1 at h1
  rw [hel] at h1
  simpa using h1

theorem segments_zero_of_empty {d : VPathData F} (h2 : I2 d) (he : d.empty = true) :
    d.segments = 0 := by
  have hel : d.elements = [] := by
    simpa [VPathData.empty, vector.empty, VPathData.elements] using he
  unfold I2 at h2
  rw [hel] at h2
  simpa using h2

/-! ### The branches of `addPath` -/

theorem addPath_of_empty [Zero F] {w : Paths F} {j b : Nat} {cb : model (VPathData F)}
    (i : Nat) (hbj : w.Bound j b cb) (he : cb.mValue.empty = true) :
    VPath.addPath w i j = .ok w := by
  simp [VPath.addPath, empty_of_bound hbj, he, bind, Except.bind, pure, Except.pure]

theorem cells_differ_of_null {w : Paths F} {i j a b : Nat} {c cb : model (VPathData F)}
    (hbi : w.Bound i a c) (hbj : w.Bound j b cb) (hn : c.mValue.null = true)
    (he : cb.mValue.empty = false) : a ≠ b := by
  intro hab
  subst hab
  have h1 := hbi.2
  rw [hbj.2] at h1
  simp only [Option.some.injEq, Cell.mk.injEq, and_true] at h1
  subst h1
  rw [empty_of_null hn] at he
  exact Bool.noConfusion he

theorem addPath_of_null [Zero F] {w : Paths F} {i j a b : Nat} {c cb : model (VPathData F)}
    (hbi : w.Bound i a c) (hbj : w.Bound j b cb) (hn : c.mValue.null = true)
    (he : cb.mValue.empty = false) : VPath.addPath w i j = w.assign_copy i j := by
  simp [VPath.addPath, empty_of_bound hbj, null_of_bound hbi, he, hn, bind, Except.bind]

theorem assign_copy_post {w : World T} {i j a b : Nat} {c cb : model T}
    (hbi : w.Bound i a c) (hbj : w.Bound j b cb) (hab : a ≠ b)
    (hpos : 1 ≤ c.mRef) (hrep : c.mRef < SIZE_MOD) (hstatic : a = 0 → 2 ≤ c.mRef) :
    ∃ w', w.assign_copy i j = .ok w' ∧
      w'.Bound i b { mRef := incRef cb.mRef, mValue := cb.mValue } ∧
      w'.Bound j b { mRef := incRef cb.mRef, mValue := cb.mValue } ∧
      w'.cells[a]? = some { obj := { mRef := c.mRef - 1, mValue := c.mValue },
                            deleted := decide (c.mRef = 1) } ∧
      w'.cells.length = w.cells.length ∧
      (∀ q, q ≠ a → q ≠ b → w'.cells[q]? = w.cells[q]?) ∧
      (∀ k, k ≠ i → w'.vars[k]? = w.vars[k]?) := by
  have hlta := addr_lt_of_bound hbi
  have hltb := addr_lt_of_bound hbj
  have hi := index_lt_of_bound hbi
  have hij : j ≠ i := by
    intro h
    subst h
    have h1 := hbi.1
    rw [hbj.1] at h1
    simp only [Option.some.injEq, vcow_ptr.mk.injEq] at h1
    exact hab h1.symm
  have heq := assign_copy_eq hbi hbj hab hpos hrep
  by_cases h1 : c.mRef = 1
  · have h0 : a ≠ 0 := by
      intro h0
      have := hstatic h0
      omega
    rw [if_pos h1, if_neg h0] at heq
    refine ⟨_, heq, ⟨?_, ?_⟩, ⟨?_, ?_⟩, ?_, ?_, ?_, ?_⟩
    · simp [hi]
    · simp [List.getElem?_set_ne hab, hltb]
    · simp [List.getElem?_set_ne (Ne.symm hij), hbj.1]
    · simp [List.getElem?_set_ne hab, hltb]
    · simp [hlta, h1]
    · simp
    · intro q hqa hqb
      simp [List.getElem?_set_ne (Ne.symm hqa), List.getElem?_set_ne (Ne.symm hqb)]
    · intro k hk
      simp [List.getElem?_set_ne (Ne.symm hk)]
  · rw [if_neg h1] at heq
    refine ⟨_, heq, ⟨?_, ?_⟩, ⟨?_, ?_⟩, ?_, ?_, ?_, ?_⟩
    · simp [hi]
    · simp [List.getElem?_set_ne hab, hltb]
    · simp [List.getElem?_set_ne (Ne.symm hij), hbj.1]
    · simp [List.getElem?_set_ne hab, hltb]
    · simp [hlta, h1]
    · simp
    · intro q hqa hqb
      simp [List.getElem?_set_ne (Ne.symm hqa), List.getElem?_set_ne (Ne.symm hqb)]
    · intro k hk
      simp [List.getElem?_set_ne (Ne.symm hk)]

/-- C5: let the receiver `p` be bound to a live cell with `p.null()` true and `other`
be bound to a live cell, both payloads satisfying invariant I1 (the count of `p`'s
cell being a count of handles: at least 1, and at least 2 on `default_s`, which is
never deleted).  Then `p.addPath(other)` returns, after it `p.elements()` and
`p.points()` are those of `other`, and `other`'s are unchanged. -/
theorem addPath_on_null_receiver [Zero F] (w : Paths F) (p o a b : Nat)
    (c cb : model (VPathData F)) (hp : w.Bound p a c) (ho : w.Bound o b cb)
    (hnull : c.mValue.null = true) (hI1p : I1 c.mValue) (hI1o : I1 cb.mValue)
    (hpos : 1 ≤ c.mRef) (hrep : c.mRef < SIZE_MOD) (hstatic : a = 0 → 2 ≤ c.mRef) :
    ∃ w', VPath.addPath w p o = .ok w' ∧
      VPath.elements w' p = .ok cb.mValue.elements ∧
      VPath.points w' p = .ok cb.mValue.points ∧
      VPath.elements w' o = .ok cb.mValue.elements ∧
      VPath.points w' o = .ok cb.mValue.points := by
  cases he : cb.mValue.empty with
  | true =>
    obtain ⟨hce, hcp⟩ := points_nil_of_empty hI1p (empty_of_null hnull)
    obtain ⟨hoe, hop⟩ := points_nil_of_empty hI1o he
    refine ⟨w, addPath_of_empty p ho he, ?_, ?_, elements_of_bound ho, points_of_bound ho⟩
    · rw [elements_of_bound hp, hce, hoe]
    · rw [points_of_bound hp, hcp, hop]
  | false =>
    have hab := cells_differ_of_null hp ho hnull he
    obtain ⟨w', hw', hbp, hbo, -, -, -, -⟩ := assign_copy_post hp ho hab hpos hrep hstatic
    rw [← addPath_of_null hp ho hnull he] at hw'
    exact ⟨w', hw', (content_of_bound hbp).1, (content_of_bound hbp).2,
      (content_of_bound hbo).1, (content_of_bound hbo).2⟩

/-- C5, at `VPath p0; VPath p1; p1.moveTo(0, 0); p1.lineTo(10, 0);` with receiver `p0`
and argument `p1`. -/
theorem addPath_on_null_receiver_witness :
    ∃ w', VPath.addPath oneLine 0 1 = .ok w' ∧
      VPath.elements w' 0 = .ok linePayload.elements ∧
      VPath.points w' 0 = .ok linePayload.points ∧
      VPath.elements w' 1 = .ok linePayload.elements ∧
      VPath.points w' 1 = .ok linePayload.points :=
  addPath_on_null_receiver oneLine 0 1 0 1 { mRef := 2, mValue := VPathData.default }
    { mRef := 1, mValue := linePayload } ⟨rfl, rfl⟩ ⟨rfl, rfl⟩ rfl rfl rfl (by decide)
    (by decide) (by decide)

/-- C6, as stated, fails when the argument is empty: `addPath` returns at once.  After
`VPath p0; VPath p1; p1.reset();` the receiver `p0` has no storage, and
`p0.addPath(p1)` leaves the state as it was: `p0` stays bound to `default_s` at
address 0 while `p1` is bound to the cell at address 1, whose count is still 1. -/
theorem addPath_empty_argument_does_not_share :
    runOps [Op.construct, Op.construct, Op.mutate 1 Mutator.reset]
      (World.initial : Paths Int) = .ok oneReset ∧
    VPath.null oneReset 0 = .ok true ∧
    VPath.addPath oneReset 0 1 = .ok oneReset ∧
    oneReset.addr 0 = some 0 ∧ oneReset.addr 1 = some 1 ∧
    oneReset.count 1 = .ok 1 :=
  ⟨rfl, rfl, rfl, rfl, rfl, rfl⟩

/-- C6 (amended): let the receiver `p` be bound to a live cell with `p.null()` true and
`other` be bound to a live cell with `other.empty()` false (the counts being counts of
handles).  Then `p.addPath(other)` returns; after it `p` and `other` are bound to the
same cell, the one `other` was bound to, which is not `p`'s previous cell; no cell is
allocated and that cell's payload is the same; its count has grown by exactly one;
the count of `p`'s previous cell has dropped by exactly one, and that cell is deleted
exactly when its count has reached zero; no other cell changes. -/
theorem addPath_on_null_receiver_shares [Zero F] (w : Paths F) (p o a b : Nat)
    (c cb : model (VPathData F)) (hp : w.Bound p a c) (ho : w.Bound o b cb)
    (hnull : c.mValue.null = true) (hne : cb.mValue.empty = false)
    (hpos : 1 ≤ c.mRef) (hrep : c.mRef < SIZE_MOD) (hstatic : a = 0 → 2 ≤ c.mRef)
    (hrepo : cb.mRef + 1 < SIZE_MOD) :
    ∃ w', VPath.addPath w p o = .ok w' ∧
      w'.Bound p b { mRef := cb.mRef + 1, mValue := cb.mValue } ∧
      w'.Bound o b { mRef := cb.mRef + 1, mValue := cb.mValue } ∧
      a ≠ b ∧
      w'.cells.length = w.cells.length ∧
      w'.cells[a]? = some { obj := { mRef := c.mRef - 1, mValue := c.mValue },
                            deleted := decide (c.mRef - 1 = 0) } ∧
      (∀ q, q ≠ a → q ≠ b → w'.cells[q]? = w.cells[q]?) := by
  have hab := cells_differ_of_null hp ho hnull hne
  obtain ⟨w', hw', hbp, hbo, hca, hlen, hframe, -⟩ :=
    assign_copy_post hp ho hab hpos hrep hstatic
  rw [← addPath_of_null hp ho hnull hne] at hw'
  rw [incRef_of_lt _ hrepo] at hbp hbo
  refine ⟨w', hw', hbp, hbo, hab, hlen, ?_, hframe⟩
  rw [hca]
  have hd : decide (c.mRef = 1) = decide (c.mRef - 1 = 0) := by
    by_cases h1 : c.mRef = 1
    · simp [h1]
    · have : ¬ (c.mRef - 1 = 0) := by omega
      simp [h1, this]
  rw [hd]

/-- C6 (amended), at `VPath p0; VPath p1; p1.moveTo(0, 0); p1.lineTo(10, 0);` with
receiver `p0` and argument `p1`. -/
theorem addPath_on_null_receiver_shares_witness :
    ∃ w', VPath.addPath oneLine 0 1 = .ok w' ∧
      w'.Bound 0 1 { mRef := 1 + 1, mValue := linePayload } ∧
      w'.Bound 1 1 { mRef := 1 + 1, mValue := linePayload } ∧
      (0 : Nat) ≠ 1 ∧
      w'.cells.length = oneLine.cells.length ∧
      w'.cells[0]? = some { obj := { mRef := 2 - 1, mValue := VPathData.default },
                            deleted := decide (2 - 1 = 0) } ∧
      (∀ q, q ≠ 0 → q ≠ 1 → w'.cells[q]? = oneLine.cells[q]?) :=
  addPath_on_null_receiver_shares oneLine 0 1 0 1
    { mRef := 2, mValue := VPathData.default } { mRef := 1, mValue := linePayload }
    ⟨rfl, rfl⟩ ⟨rfl, rfl⟩ rfl rfl (by decide) (by decide) (by decide) (by decide)

/-- C7, as stated for every path `other`, fails when `other` is the receiver itself:
after `VPath p0; VPath p1; p1.moveTo(0, 0); p1.lineTo(10, 0); p0.moveTo(5, 5);` the
call `p1.addPath(p1)` returns and `p1.elements()`, which was `[MoveTo, LineTo]`, is
`[MoveTo, LineTo, MoveTo, LineTo]`: the argument is not unchanged. -/
theorem addPath_to_itself_changes_argument :
    VPath.elements twoOwners 1 = .ok [Element.MoveTo, Element.LineTo] ∧
    ∃ w', VPath.addPath twoOwners 1 1 = .ok w' ∧
      VPath.elements w' 1 =
        .ok [Element.MoveTo, Element.LineTo, Element.MoveTo, Element.LineTo] :=
  ⟨rfl, _, rfl, rfl⟩

/-- C7 (amended): let the receiver `p` be bound to a live cell with `p.null()` false, and `other`
be another path object bound to a live cell whose payload satisfies invariants I1 and
I2 (counts being counts of handles, so at least 2 when both are bound to one cell),
the sum of the two `segments()` being an `int`.  Then `p.addPath(other)` returns;
after it `p.elements()` is the old `p.elements()` followed by `other.elements()`,
`p.points()` the old `p.points()` followed by `other.points()`, `p.segments()` the
sum of the two `segments()`, and `other`'s elements, points and segments are
unchanged. -/
theorem addPath_appends [Zero F] (w : Paths F) (p o a b : Nat)
    (c cb : model (VPathData F)) (hp : w.Bound p a c) (ho : w.Bound o b cb)
    (hpo : p ≠ o) (hnn : c.mValue.null = false)
    (hI1o : I1 cb.mValue) (hI2o : I2 cb.mValue)
    (hpos : 1 ≤ c.mRef) (hrep : c.mRef < SIZE_MOD) (hshare : a = b → 2 ≤ c.mRef)
    (hseg1 : -INT_MAX - 1 ≤ c.mValue.segments + cb.mValue.segments)
    (hseg2 : c.mValue.segments + cb.mValue.segments ≤ INT_MAX) :
    ∃ w', VPath.addPath w p o = .ok w' ∧
      VPath.elements w' p = .ok (c.mValue.elements ++ cb.mValue.elements) ∧
      VPath.points w' p = .ok (c.mValue.points ++ cb.mValue.points) ∧
      VPath.segments w' p = .ok (c.mValue.segments + cb.mValue.segments) ∧
      VPath.elements w' o = .ok cb.mValue.elements ∧
      VPath.points w' o = .ok cb.mValue.points ∧
      VPath.segments w' o = .ok cb.mValue.segments := by
  cases he : cb.mValue.empty with
  | true =>
    obtain ⟨hoe, hop⟩ := points_nil_of_empty hI1o he
    have hos := segments_zero_of_empty hI2o he
    refine ⟨w, addPath_of_empty p ho he, ?_, ?_, ?_, elements_of_bound ho,
      points_of_bound ho, segments_of_bound ho⟩
    · rw [elements_of_bound hp, hoe, List.append_nil]
    · rw [points_of_bound hp, hop, List.append_nil]
    · rw [segments_of_bound hp, hos, add_zero]
  | false =>
    have hshare' : a = b → 2 ≤ cb.mRef := by
      intro hab
      subst hab
      have h1 := hp.2
      rw [ho.2] at h1
      simp only [Option.some.injEq, Cell.mk.injEq, and_true] at h1
      subst h1
      exact hshare rfl
    obtain ⟨w1, n1, v1, hw, hb1, hne, hv1, hq1, hvars, -⟩ :=
      write_frame hp hpos hrep (bound_eta ho).2 hshare'
    have hbo1 := bound_of_frame ho hq1 (hvars o (Ne.symm hpo))
    have hv1e : v1.elements = c.mValue.elements ∧ v1.points = c.mValue.points ∧
        v1.segments = c.mValue.segments := by
      rcases hv1 with h | h
      · subst h
        exact ⟨rfl, rfl, rfl⟩
      · subst h
        exact ⟨rfl, rfl, rfl⟩
    obtain ⟨v2, hv2⟩ := payload_addPath_ok v1 cb.mValue (by rw [hv1e.2.2]; exact hseg1)
      (by rw [hv1e.2.2]; exact hseg2)
    obtain ⟨h2e, h2p, h2s⟩ := payload_addPath_eq hv2
    have hupd := update_of_bound hb1 (fun d => d.addPath cb.mValue)
    simp only [hv2, Except.map] at hupd
    have hadd : VPath.addPath w p o = .ok
        ({ w1 with
           cells := w1.cells.set n1
            { obj := { mRef := 1, mValue := v2 }, deleted := false } } : Paths F) := by
      simp only [VPath.addPath, empty_of_bound ho, null_of_bound hp, he, hnn, hw,
        read_of_bound hbo1, bind, Except.bind, pure, Except.pure, Bool.false_eq_true,
        if_false]
      exact hupd
    have hlt1 := addr_lt_of_bound hb1
    have hbp2 : World.Bound
        ({ w1 with
           cells := w1.cells.set n1
            { obj := { mRef := 1, mValue := v2 }, deleted := false } } : Paths F)
        p n1 { mRef := 1, mValue := v2 } := by
      refine ⟨hb1.1, ?_⟩
      simp [hlt1]
    have hbo2 : World.Bound
        ({ w1 with
           cells := w1.cells.set n1
            { obj := { mRef := 1, mValue := v2 }, deleted := false } } : Paths F)
        o b { mRef := if a = b then cb.mRef - 1 else cb.mRef, mValue := cb.mValue } := by
      refine ⟨hbo1.1, ?_⟩
      show (w1.cells.set n1 _)[b]? = _
      rw [List.getElem?_set_ne hne]
      exact hq1
    refine ⟨_, hadd, ?_, ?_, ?_, ?_, ?_, ?_⟩
    · rw [elements_of_bound hbp2]
      simp only [h2e, hv1e.1]
    · rw [points_of_bound hbp2]
      simp only [h2p, hv1e.2.1]
    · rw [segments_of_bound hbp2]
      simp only [h2s, hv1e.2.2]
    · exact (content_of_bound hbo2).1
    · exact (content_of_bound hbo2).2
    · have h := segments_of_bound hbo2
      exact h

/-- C7 (amended), at `VPath p0; VPath p1; p1.moveTo(0, 0); p1.lineTo(10, 0);
p0.moveTo(5, 5);` with receiver `p0` and argument `p1`. -/
theorem addPath_appends_witness :
    ∃ w', VPath.addPath twoOwners 0 1 = .ok w' ∧
      VPath.elements w' 0 = .ok (dotPayload.elements ++ linePayload.elements) ∧
      VPath.points w' 0 = .ok (dotPayload.points ++ linePayload.points) ∧
      VPath.segments w' 0 = .ok (dotPayload.segments + linePayload.segments) ∧
      VPath.elements w' 1 = .ok linePayload.elements ∧
      VPath.points w' 1 = .ok linePayload.points ∧
      VPath.segments w' 1 = .ok linePayload.segments :=
  addPath_appends twoOwners 0 1 2 1 { mRef := 1, mValue := dotPayload }
    { mRef := 1, mValue := linePayload } ⟨rfl, rfl⟩ ⟨rfl, rfl⟩ (by decide) rfl rfl rfl
    (by decide) (by decide) (by decide) (by decide) (by decide)

theorem twoOwners_reachable :
    runOps [Op.construct, Op.construct, Op.mutate 1 (Mutator.moveTo 0 0),
      Op.mutate 1 (Mutator.lineTo 10 0), Op.mutate 0 (Mutator.moveTo 5 5)]
      (World.initial : Paths Int) = .ok twoOwners := rfl

/-! ### Properties of all cells along an execution -/

theorem bind_ok {α β : Type} {x : Except Fault α} {f : α → Except Fault β} {b : β}
    (h : (x >>= f) = .ok b) : ∃ a, x = .ok a ∧ f a = .ok b := by
  cases x with
  | error e => exact Except.noConfusion h
  | ok a => exact ⟨a, rfl, h⟩

theorem all_of_cells_set {P : T → Prop} {w : World T} (h : w.AllCells P) (a : Nat)
    (cl : Cell T) (hcl : P cl.obj.mValue) (vars : List (Option vcow_ptr)) :
    World.AllCells P ({ cells := w.cells.set a cl, vars := vars } : World T) := by
  intro x hx
  rcases List.mem_or_eq_of_mem_set hx with h1 | h1
  · exact h x h1
  · subst h1
    exact hcl

theorem all_of_same_cells {P : T → Prop} {w w2 : World T} (h : w.AllCells P)
    (hc : w2.cells = w.cells) : w2.AllCells P := by
  intro x hx
  rw [hc] at hx
  exact h x hx

theorem all_setRef {P : T → Prop} {w : World T} (h : w.AllCells P) (a r : Nat) :
    (w.setRef a r).AllCells P := by
  unfold World.setRef
  cases hc : w.cells[a]? with
  | none => exact h
  | some c =>
    exact all_of_cells_set h a ⟨⟨r, c.obj.mValue⟩, c.deleted⟩ (h c (List.getElem?_mem hc))
      w.vars

theorem all_setValue {P : T → Prop} {w : World T} (h : w.AllCells P) (a : Nat) {v : T}
    (hv : P v) : (w.setValue a v).AllCells P := by
  unfold World.setValue
  cases hc : w.cells[a]? with
  | none => exact h
  | some c =>
    exact all_of_cells_set h a ⟨⟨c.obj.mRef, v⟩, c.deleted⟩ hv w.vars

theorem all_deleteCell {P : T → Prop} {w w2 : World T} (h : w.AllCells P) {a : Nat}
    (hd : w.deleteCell a = .ok w2) : w2.AllCells P := by
  unfold World.deleteCell at hd
  split at hd
  · exact Except.noConfusion hd
  · cases hc : w.cells[a]? with
    | none => simp [hc] at hd
    | some c =>
      simp only [hc, Except.ok.injEq] at hd
      subst hd
      exact all_of_cells_set h a { obj := c.obj, deleted := true }
        (h c (List.getElem?_mem hc)) w.vars

theorem prop_of_cell {P : T → Prop} {w : World T} (h : w.AllCells P) {a : Nat}
    {c : model T} (hc : w.cell a = .ok c) : P c.mValue := by
  unfold World.cell at hc
  cases hg : w.cells[a]? with
  | none => simp [hg] at hc
  | some cl =>
    simp only [hg] at hc
    split at hc
    · exact Except.noConfusion hc
    · simp only [Except.ok.injEq] at hc
      subst hc
      exact h cl (List.getElem?_mem hg)

theorem all_increment {P : T → Prop} {w w2 : World T} (h : w.AllCells P) {a : Nat}
    (hi : w.increment a = .ok w2) : w2.AllCells P := by
  unfold World.increment at hi
  obtain ⟨c, -, h2⟩ := bind_ok hi
  simp only [pure, Except.pure, Except.ok.injEq] at h2
  subst h2
  exact all_setRef h _ _

theorem all_release {P : T → Prop} {w w2 : World T} (h : w.AllCells P) {p : vcow_ptr}
    (hr : w.release p = .ok w2) : w2.AllCells P := by
  unfold World.release at hr
  cases hm : p.mModel with
  | none =>
    simp only [hm, Except.ok.injEq] at hr
    subst hr
    exact h
  | some a =>
    simp only [hm] at hr
    obtain ⟨c, -, h2⟩ := bind_ok hr
    split at h2
    · exact all_deleteCell (all_setRef h _ _) h2
    · simp only [pure, Except.pure, Except.ok.injEq] at h2
      subst h2
      exact all_setRef h _ _

theorem all_copy_of {P : T → Prop} {w w2 : World T} (h : w.AllCells P) {x p : vcow_ptr}
    (hc : w.copy_of x = .ok (p, w2)) : w2.AllCells P := by
  unfold World.copy_of at hc
  cases hm : x.mModel with
  | none => simp [hm] at hc
  | some a =>
    simp only [hm] at hc
    obtain ⟨w1, h1, h2⟩ := bind_ok hc
    simp only [pure, Except.pure, Except.ok.injEq, Prod.mk.injEq] at h2
    rw [← h2.2]
    exact all_increment h h1

theorem all_assign_temp {P : T → Prop} {w w2 : World T} (h : w.AllCells P) {i : Nat}
    {x : vcow_ptr} (ha : w.assign_temp i x = .ok w2) : w2.AllCells P := by
  unfold World.assign_temp at ha
  cases hm : x.mModel with
  | none => simp [hm] at ha
  | some a =>
    simp only [hm] at ha
    obtain ⟨self, -, h2⟩ := bind_ok ha
    have h1 : (w.setHandle i { mModel := some a }).AllCells P := all_of_same_cells h rfl
    exact all_release h1 h2

theorem all_read {P : T → Prop} {w : World T} (h : w.AllCells P) {i : Nat} {v : T}
    (hr : w.read i = .ok v) : P v := by
  obtain ⟨a, c, hb, hv⟩ := bound_of_read hr
  subst hv
  exact h _ (List.getElem?_mem hb.2)

theorem all_write [Payload T] {P : T → Prop} (hcopy : ∀ v, P v → P (Payload.copyValue v))
    {w w2 : World T} (h : w.AllCells P) {i : Nat} (hw : w.write i = .ok w2) :
    w2.AllCells P := by
  unfold World.write at hw
  obtain ⟨u, -, h2⟩ := bind_ok hw
  cases u with
  | true =>
    simp only [if_true, pure, Except.pure, Except.ok.injEq] at h2
    subst h2
    exact h
  | false =>
    simp only [Bool.false_eq_true, if_false] at h2
    obtain ⟨v, hv, h3⟩ := bind_ok h2
    refine all_assign_temp ?_ h3
    intro x hx
    simp only [World.ctor_value, List.mem_append, List.mem_singleton] at hx
    rcases hx with hx | hx
    · exact h x hx
    · subst hx
      exact hcopy v (all_read h hv)

theorem all_update {P : T → Prop} {w w2 : World T} (h : w.AllCells P) {i : Nat}
    {f : T → Except Fault T} (hf : ∀ d v, P d → f d = .ok v → P v)
    (hu : w.update i f = .ok w2) : w2.AllCells P := by
  unfold World.update at hu
  obtain ⟨p, -, h2⟩ := bind_ok hu
  cases hm : p.mModel with
  | none => simp [hm] at h2
  | some a =>
    simp only [hm] at h2
    obtain ⟨c, hc, h3⟩ := bind_ok h2
    obtain ⟨v, hv, h4⟩ := bind_ok h3
    simp only [pure, Except.pure, Except.ok.injEq] at h4
    subst h4
    exact all_setValue h a (hf _ _ (prop_of_cell h hc) hv)

/-! ### Invariants I1 and I2 of a payload under the payload members -/

theorem moveTo_eq {d v : VPathData F} {x y : F} (h : d.moveTo x y = .ok v) :
    v.elements = d.elements ++ [Element.MoveTo] ∧
      v.points = d.points ++ [{ x := x, y := y }] ∧ v.segments = d.segments + 1 := by
  unfold VPathData.moveTo at h
  obtain ⟨s, hs, h2⟩ := bind_ok h
  simp only [pure, Except.pure, Except.ok.injEq] at h2
  subst h2
  have hr := addSegments_eq hs
  exact ⟨rfl, rfl, hr⟩

theorem good_moveTo {d v : VPathData F} {x y : F} (hd : I1 d ∧ I2 d)
    (h : d.moveTo x y = .ok v) : I1 v ∧ I2 v := by
  obtain ⟨he, hp, hs⟩ := moveTo_eq h
  obtain ⟨h1, h2⟩ := hd
  unfold I1 I2 at *
  rw [he, hp, hs, h2]
  constructor
  · simp [arity, h1]
  · simp

theorem good_checkNewSegment [Zero F] {d v : VPathData F} (hd : I1 d ∧ I2 d)
    (h : d.checkNewSegment = .ok v) : I1 v ∧ I2 v := by
  unfold VPathData.checkNewSegment at h
  split at h
  · simp only [Except.ok.injEq] at h
    subst h
    exact hd
  · exact good_moveTo hd h

theorem good_lineTo [Zero F] {d v : VPathData F} {x y : F} (hd : I1 d ∧ I2 d)
    (h : d.lineTo x y = .ok v) : I1 v ∧ I2 v := by
  unfold VPathData.lineTo at h
  obtain ⟨d1, hd1, h2⟩ := bind_ok h
  simp only [pure, Except.pure, Except.ok.injEq] at h2
  subst h2
  obtain ⟨h1, h2⟩ := good_checkNewSegment hd hd1
  unfold I1 I2 VPathData.points VPathData.elements VPathData.segments at *
  constructor
  · simp [vector.push_back, arity, h1]
  · simp [vector.push_back, h2]

theorem good_cubicTo [Zero F] {d v : VPathData F} {cx1 cy1 cx2 cy2 ex ey : F}
    (hd : I1 d ∧ I2 d) (h : d.cubicTo cx1 cy1 cx2 cy2 ex ey = .ok v) : I1 v ∧ I2 v := by
  unfold VPathData.cubicTo at h
  obtain ⟨d1, hd1, h2⟩ := bind_ok h
  simp only [pure, Except.pure, Except.ok.injEq] at h2
  subst h2
  obtain ⟨h1, h2⟩ := good_checkNewSegment hd hd1
  unfold I1 I2 VPathData.points VPathData.elements VPathData.segments at *
  constructor
  · simp [vector.push_back, arity, h1]
  · simp [vector.push_back, h2]

theorem good_close {d v : VPathData F} (hd : I1 d ∧ I2 d) (h : d.close = .ok v) :
    I1 v ∧ I2 v := by
  unfold VPathData.close at h
  split at h
  · simp only [Except.ok.injEq] at h
    subst h
    obtain ⟨h1, h2⟩ := hd
    unfold I1 I2 VPathData.points VPathData.elements VPathData.segments at *
    constructor
    · simp [vector.push_back, arity, h1]
    · simp [vector.push_back, h2]
  · simp only [Except.ok.injEq] at h
    subst h
    exact hd

theorem good_reset [Zero F] {d v : VPathData F} (h : d.reset = .ok v) : I1 v ∧ I2 v := by
  unfold VPathData.reset at h
  simp only [Except.ok.injEq] at h
  subst h
  constructor
  · simp [I1, VPathData.points, VPathData.elements, vector.clear]
  · simp [I2, VPathData.segments, VPathData.elements, vector.clear]

theorem good_reserve {d v : VPathData F} {pts elms : Nat} (hd : I1 d ∧ I2 d)
    (h : d.reserve pts elms = .ok v) : I1 v ∧ I2 v := by
  unfold VPathData.reserve at h
  simp only [Except.ok.injEq] at h
  subst h
  exact hd

theorem good_transform {d v : VPathData F} {m : VPointF F → VPointF F} (hd : I1 d ∧ I2 d)
    (h : d.transform m = .ok v) : I1 v ∧ I2 v := by
  unfold VPathData.transform at h
  simp only [Except.ok.injEq] at h
  subst h
  obtain ⟨h1, h2⟩ := hd
  unfold I1 I2 VPathData.points VPathData.elements VPathData.segments at *
  constructor
  · simp [h1]
  · exact h2

theorem good_prim [Zero F] {d v : VPathData F} {c : Prim F} (hd : I1 d ∧ I2 d)
    (h : d.prim c = .ok v) : I1 v ∧ I2 v := by
  cases c with
  | moveTo x y => exact good_moveTo hd h
  | lineTo x y => exact good_lineTo hd h
  | cubicTo cx1 cy1 cx2 cy2 ex ey => exact good_cubicTo hd h
  | close => exact good_close hd h

theorem good_shape [Zero F] (calls : List (Prim F)) {d v : VPathData F} (hd : I1 d ∧ I2 d)
    (h : d.shape calls = .ok v) : I1 v ∧ I2 v := by
  induction calls generalizing d with
  | nil =>
    simp only [VPathData.shape, Except.ok.injEq] at h
    subst h
    exact hd
  | cons c cs ih =>
    simp only [VPathData.shape] at h
    obtain ⟨d1, hd1, h2⟩ := bind_ok h
    exact ih (good_prim hd hd1) h2

theorem good_addPath {d src v : VPathData F} (hd : I1 d ∧ I2 d) (hs : I1 src ∧ I2 src)
    (h : d.addPath src = .ok v) : I1 v ∧ I2 v := by
  obtain ⟨he, hp, hseg⟩ := payload_addPath_eq h
  obtain ⟨h1, h2⟩ := hd
  obtain ⟨s1, s2⟩ := hs
  unfold I1 I2 at *
  rw [he, hp, hseg, h2, s2]
  constructor
  · simp [h1, s1]
  · simp

theorem good_length {d v : VPathData F} {x : F} (hd : I1 d ∧ I2 d)
    (h : d.length x = .ok v) : I1 v ∧ I2 v := by
  unfold VPathData.length at h
  split at h
  · simp only [Except.ok.injEq] at h
    subst h
    exact hd
  · simp only [Except.ok.injEq] at h
    subst h
    exact hd

theorem good_default [Zero F] :
    I1 (VPathData.default : VPathData F) ∧ I2 (VPathData.default : VPathData F) := by
  constructor
  · simp [I1, VPathData.default, VPathData.points, VPathData.elements]
  · simp [I2, VPathData.default, VPathData.segments, VPathData.elements]

theorem good_invariant [Zero F] : PayloadInvariant (fun d : VPathData F => I1 d ∧ I2 d) where
  copy := fun _ hd => hd
  mutate := by
    intro mu d v hd h
    cases mu with
    | moveTo x y => exact good_moveTo hd h
    | lineTo x y => exact good_lineTo hd h
    | cubicTo c1x c1y c2x c2y ex ey => exact good_cubicTo hd h
    | close => exact good_close hd h
    | reset => exact good_reset h
    | reserve pts elms => exact good_reserve hd h
    | transform m => exact good_transform hd h
    | arcTo calls => exact good_shape calls hd h
    | addRect calls => exact good_shape calls hd h
    | addRoundRect calls => exact good_shape calls hd h
    | addOval calls => exact good_shape calls hd h
    | addCircle calls => exact good_shape calls hd h
    | addPolygon calls => exact good_shape calls hd h
    | addPolystar calls => exact good_shape calls hd h
  addPath := fun _ _ _ hd hs h => good_addPath hd hs h
  length := fun _ _ _ hd h => good_length hd h

/-! ### Every cell of a reachable state keeps a payload invariant -/

theorem all_assign_copy {P : T → Prop} {w w2 : World T} (h : w.AllCells P) {i j : Nat}
    (ha : w.assign_copy i j = .ok w2) : w2.AllCells P := by
  unfold World.assign_copy at ha
  obtain ⟨x, -, h2⟩ := bind_ok ha
  obtain ⟨⟨tmp, w1⟩, h3, h4⟩ := bind_ok h2
  exact all_assign_temp (all_copy_of h h3) h4

theorem all_mutate [Zero F] {P : VPathData F → Prop} (hP : PayloadInvariant P)
    {w w2 : Paths F} (h : w.AllCells P) {i : Nat} {mu : Mutator F}
    (hm : VPath.mutate w i mu = .ok w2) : w2.AllCells P := by
  unfold VPath.mutate at hm
  obtain ⟨w1, hw, h2⟩ := bind_ok hm
  exact all_update (all_write hP.copy h hw) (fun d v hd hv => hP.mutate mu d v hd hv) h2

theorem all_addPath [Zero F] {P : VPathData F → Prop} (hP : PayloadInvariant P)
    {w w2 : Paths F} (h : w.AllCells P) {i j : Nat}
    (ha : VPath.addPath w i j = .ok w2) : w2.AllCells P := by
  unfold VPath.addPath at ha
  obtain ⟨e, -, h2⟩ := bind_ok ha
  cases e with
  | true =>
    simp only [if_true, pure, Except.pure, Except.ok.injEq] at h2
    subst h2
    exact h
  | false =>
    simp only [Bool.false_eq_true, if_false] at h2
    obtain ⟨n, -, h3⟩ := bind_ok h2
    cases n with
    | true =>
      simp only [if_true] at h3
      exact all_assign_copy h h3
    | false =>
      simp only [Bool.false_eq_true, if_false] at h3
      obtain ⟨w1, hw, h4⟩ := bind_ok h3
      obtain ⟨src, hsrc, h5⟩ := bind_ok h4
      have h1 := all_write hP.copy h hw
      exact all_update h1 (fun d v hd hv => hP.addPath d src v hd (all_read h1 hsrc) hv) h5

theorem all_op [Zero F] {P : VPathData F → Prop} (hP : PayloadInvariant P)
    {w w2 : Paths F} (h : w.AllCells P) (op : Op F) (hr : op.run w = .ok w2) :
    w2.AllCells P := by
  cases op with
  | construct =>
    simp only [Op.run, World.ctor_default] at hr
    obtain ⟨w1, h1, h2⟩ := bind_ok hr
    simp only [pure, Except.pure, Except.ok.injEq] at h2
    subst h2
    exact all_of_same_cells (all_increment h h1) rfl
  | copyConstruct j =>
    simp only [Op.run, World.ctor_copy] at hr
    obtain ⟨x, -, h2⟩ := bind_ok hr
    obtain ⟨⟨p, w1⟩, h3, h4⟩ := bind_ok h2
    simp only [pure, Except.pure, Except.ok.injEq] at h4
    subst h4
    exact all_of_same_cells (all_copy_of h h3) rfl
  | moveConstruct j =>
    simp only [Op.run, World.ctor_move] at hr
    obtain ⟨x, -, h2⟩ := bind_ok hr
    cases hm : x.mModel with
    | none => simp [hm] at h2
    | some a =>
      simp only [hm, pure, Except.pure, Except.ok.injEq] at h2
      subst h2
      exact all_of_same_cells h rfl
  | destroy i =>
    simp only [Op.run, World.dtor] at hr
    obtain ⟨p, -, h2⟩ := bind_ok hr
    obtain ⟨w1, h3, h4⟩ := bind_ok h2
    simp only [pure, Except.pure, Except.ok.injEq] at h4
    subst h4
    exact all_of_same_cells (all_release h h3) rfl
  | copyAssign i j => exact all_assign_copy h hr
  | moveAssign i j =>
    simp only [Op.run, World.assign_move] at hr
    obtain ⟨x, -, h2⟩ := bind_ok hr
    cases hm : x.mModel with
    | none => simp [hm] at h2
    | some a =>
      simp only [hm] at h2
      obtain ⟨self, -, h3⟩ := bind_ok h2
      have h1 : (World.setHandle (w.setHandle j { mModel := none }) i
          { mModel := some a }).AllCells P := all_of_same_cells h rfl
      exact all_release h1 h3
  | mutate i mu => exact all_mutate hP h hr
  | addPath i j => exact all_addPath hP h hr
  | clone i j =>
    simp only [Op.run, VPath.clone, VPath.reset] at hr
    obtain ⟨w1, h1, h2⟩ := bind_ok hr
    exact all_addPath hP (all_mutate hP h h1) h2
  | length i x =>
    simp only [Op.run, VPath.length] at hr
    obtain ⟨d, -, h2⟩ := bind_ok hr
    exact all_update h (fun d v hd hv => hP.length d v x hd hv) h2

theorem all_runOps [Zero F] {P : VPathData F → Prop} (hP : PayloadInvariant P)
    (ops : List (Op F)) {w w2 : Paths F} (h : w.AllCells P)
    (hr : runOps ops w = .ok w2) : w2.AllCells P := by
  induction ops generalizing w with
  | nil =>
    simp only [runOps, Except.ok.injEq] at hr
    subst hr
    exact h
  | cons op ops ih =>
    simp only [runOps] at hr
    obtain ⟨w1, h1, h2⟩ := bind_ok hr
    exact ih (all_op hP h op h1) h2

theorem good_of_reachable [Zero F] (ops : List (Op F)) {w : Paths F}
    (hr : runOps ops World.initial = .ok w) {i : Nat} {d : VPathData F}
    (hd : w.read i = .ok d) : I1 d ∧ I2 d := by
  have h0 : (World.initial : Paths F).AllCells (fun d => I1 d ∧ I2 d) := by
    intro cl hcl
    simp only [World.initial, List.mem_singleton] at hcl
    subst hcl
    exact good_default
  exact all_read (all_runOps good_invariant ops h0 hr) hd

theorem content_of_read {w : Paths F} {i : Nat} {es : List Element}
    {ps : List (VPointF F)} (he : VPath.elements w i = .ok es)
    (hp : VPath.points w i = .ok ps) :
    ∃ d, w.read i = .ok d ∧ d.elements = es ∧ d.points = ps := by
  unfold VPath.elements at he
  unfold VPath.points at hp
  obtain ⟨d, hd, h2⟩ := bind_ok he
  obtain ⟨d2, hd2, h3⟩ := bind_ok hp
  rw [hd] at hd2
  simp only [Except.ok.injEq] at hd2
  subst hd2
  simp only [pure, Except.pure, Except.ok.injEq] at h2 h3
  exact ⟨d, hd, h2, h3⟩

/-- C8 (invariant I1): in every state reached from the initial state, where no path
exists, by a sequence of public operations that returns (construction, copy and move
construction, destruction, copy and move assignment, every mutating call, `addPath`,
`clone`, `length`), every path object whose `elements()` and `points()` return has as
many points as the arities of its commands sum to. -/
theorem reachable_points_match_arities [Zero F] (ops : List (Op F)) (w : Paths F)
    (hr : runOps ops World.initial = .ok w) (i : Nat) (es : List Element)
    (ps : List (VPointF F)) (he : VPath.elements w i = .ok es)
    (hp : VPath.points w i = .ok ps) :
    ps.length = (es.map arity).sum := by
  obtain ⟨d, hd, hes, hps⟩ := content_of_read he hp
  have h := (good_of_reachable ops hr hd).1
  unfold I1 at h
  rw [hes, hps] at h
  exact h

/-- C8, after `VPath p0; VPath p1; p1.moveTo(0, 0); p1.lineTo(10, 0); p0.moveTo(5, 5);`
at `p1`. -/
theorem reachable_points_match_arities_witness :
    runOps [Op.construct, Op.construct, Op.mutate 1 (Mutator.moveTo 0 0),
      Op.mutate 1 (Mutator.lineTo 10 0), Op.mutate 0 (Mutator.moveTo 5 5)]
      (World.initial : Paths Int) = .ok twoOwners ∧
    VPath.elements twoOwners 1 = .ok [Element.MoveTo, Element.LineTo] ∧
    VPath.points twoOwners 1 = .ok [{ x := 0, y := 0 }, { x := 10, y := 0 }] ∧
    ([{ x := 0, y := 0 }, { x := 10, y := 0 }] : List (VPointF Int)).length =
      (([Element.MoveTo, Element.LineTo] : List Element).map arity).sum :=
  ⟨twoOwners_reachable, rfl, rfl,
    reachable_points_match_arities
      [Op.construct, Op.construct, Op.mutate 1 (Mutator.moveTo 0 0),
        Op.mutate 1 (Mutator.lineTo 10 0), Op.mutate 0 (Mutator.moveTo 5 5)]
      twoOwners twoOwners_reachable 1 [Element.MoveTo, Element.LineTo]
      [{ x := 0, y := 0 }, { x := 10, y := 0 }] rfl rfl⟩

theorem segments_of_read {w : Paths F} {i : Nat} {es : List Element} {n : Int}
    (he : VPath.elements w i = .ok es) (hs : VPath.segments w i = .ok n) :
    ∃ d, w.read i = .ok d ∧ d.elements = es ∧ d.segments = n := by
  unfold VPath.elements at he
  unfold VPath.segments at hs
  obtain ⟨d, hd, h2⟩ := bind_ok he
  obtain ⟨d2, hd2, h3⟩ := bind_ok hs
  rw [hd] at hd2
  simp only [Except.ok.injEq] at hd2
  subst hd2
  simp only [pure, Except.pure, Except.ok.injEq] at h2 h3
  exact ⟨d, hd, h2, h3⟩

/-- C9 (invariant I2): in every state reached from the initial state, where no path
exists, by a sequence of public operations that returns (construction, copy and move
construction, destruction, copy and move assignment, every mutating call, `addPath`
in each of its branches, `clone`, `length`), every path object whose `segments()` and
`elements()` return has `segments()` equal to the number of MoveTo commands in
`elements()`. -/
theorem reachable_segments_count_moveTo [Zero F] (ops : List (Op F)) (w : Paths F)
    (hr : runOps ops World.initial = .ok w) (i : Nat) (es : List Element) (n : Int)
    (he : VPath.elements w i = .ok es) (hs : VPath.segments w i = .ok n) :
    n = (es.count Element.MoveTo : Nat) := by
  obtain ⟨d, hd, hes, hn⟩ := segments_of_read he hs
  have h := (good_of_reachable ops hr hd).2
  unfold I2 at h
  rw [hes, hn] at h
  exact h

/-- C9, after `VPath p0; VPath p1; p1.moveTo(0, 0); p1.lineTo(10, 0); p0.moveTo(5, 5);`
at `p1`. -/
theorem reachable_segments_count_moveTo_witness :
    runOps [Op.construct, Op.construct, Op.mutate 1 (Mutator.moveTo 0 0),
      Op.mutate 1 (Mutator.lineTo 10 0), Op.mutate 0 (Mutator.moveTo 5 5)]
      (World.initial : Paths Int) = .ok twoOwners ∧
    VPath.elements twoOwners 1 = .ok [Element.MoveTo, Element.LineTo] ∧
    VPath.segments twoOwners 1 = .ok 1 ∧
    (1 : Int) = (([Element.MoveTo, Element.LineTo] : List Element).count Element.MoveTo :
      Nat) :=
  ⟨twoOwners_reachable, rfl, rfl,
    reachable_segments_count_moveTo
      [Op.construct, Op.construct, Op.mutate 1 (Mutator.moveTo 0 0),
        Op.mutate 1 (Mutator.lineTo 10 0), Op.mutate 0 (Mutator.moveTo 5 5)]
      twoOwners twoOwners_reachable 1 [Element.MoveTo, Element.LineTo] 1 rfl rfl⟩

/-! ### `addPath` with an empty argument -/

/-- C19: when `other.empty()` returns true, `p.addPath(other)` returns with the state
exactly as it was, for every receiver `p`: `p` stays bound to the same cell, nothing is
allocated (no copy-on-write detach, also when `p`'s cell is shared), no count
changes, and `p`'s elements, points and segments are unchanged. -/
theorem addPath_empty_argument_is_noop [Zero F] (w : Paths F) (i j : Nat)
    (he : VPath.empty w j = .ok true) : VPath.addPath w i j = .ok w := by
  simp [VPath.addPath, he, bind, Except.bind, pure, Except.pure]

/-- C19, at `VPath p0; VPath p1;` with receiver `p0`, whose cell is shared, and the
empty argument `p1`. -/
theorem addPath_empty_argument_is_noop_witness :
    VPath.empty twoDefaults 1 = .ok true ∧ VPath.addPath twoDefaults 0 1 = .ok twoDefaults :=
  ⟨rfl, addPath_empty_argument_is_noop twoDefaults 0 1 rfl⟩

/-! ### Assertions -/

theorem movedFrom_reachable :
    runOps [Op.construct, Op.moveConstruct 0] (World.initial : Paths Int) = .ok movedFrom :=
  rfl

theorem cell_ne_assertion (w : World T) (a : Nat) : w.cell a ≠ .error .assertion := by
  unfold World.cell
  cases w.cells[a]? with
  | none => simp
  | some c =>
    cases hd : c.deleted <;> simp [hd]

theorem deleteCell_ne_assertion (w : World T) (a : Nat) :
    w.deleteCell a ≠ .error .assertion := by
  unfold World.deleteCell
  split
  · simp
  · cases w.cells[a]? <;> simp

theorem release_ne_assertion (w : World T) (p : vcow_ptr) :
    w.release p ≠ .error .assertion := by
  unfold World.release
  cases p.mModel with
  | none => simp
  | some a =>
    simp only [bind, Except.bind]
    cases hc : w.cell a with
    | error e =>
      have := cell_ne_assertion w a
      rw [hc] at this
      simpa using this
    | ok c =>
      simp only
      split
      · exact deleteCell_ne_assertion _ a
      · simp [pure, Except.pure]

theorem handle_of_var {w : World T} {i : Nat} {p : vcow_ptr}
    (hv : w.vars[i]? = some (some p)) : w.handle i = .ok p := by
  simp [World.handle, hv]

theorem count_ne_assertion {w : World T} {i a : Nat}
    (hv : w.vars[i]? = some (some { mModel := some a })) :
    w.count i ≠ .error .assertion := by
  simp only [World.count, handle_of_var hv, bind, Except.bind]
  cases hc : w.cell a with
  | error e =>
    have := cell_ne_assertion w a
    rw [hc] at this
    simpa using this
  | ok c => simp [pure, Except.pure]

theorem read_ne_assertion {w : World T} {i a : Nat}
    (hv : w.vars[i]? = some (some { mModel := some a })) :
    w.read i ≠ .error .assertion := by
  simp only [World.read, handle_of_var hv, bind, Except.bind]
  cases hc : w.cell a with
  | error e =>
    have := cell_ne_assertion w a
    rw [hc] at this
    simpa using this
  | ok c => simp [pure, Except.pure]

theorem write_ne_assertion [Payload T] {w : World T} {i a : Nat}
    (hv : w.vars[i]? = some (some { mModel := some a })) :
    w.write i ≠ .error .assertion := by
  unfold World.write World.unique
  simp only [bind, Except.bind]
  cases hc : w.count i with
  | error e =>
    have := count_ne_assertion hv
    rw [hc] at this
    simpa using this
  | ok n =>
    simp only [pure, Except.pure]
    split
    · simp
    · cases hr : w.read i with
      | error e =>
        have := read_ne_assertion hv
        rw [hr] at this
        simpa using this
      | ok v =>
        simp only [World.ctor_value, World.assign_temp, World.handle, hv, World.setHandle,
          bind, Except.bind]
        exact release_ne_assertion _ _

/-- C13: with assertions enabled, on a handle object that has no backing cell (one
that was moved from) `read()`, `write()`, `unique()`, `refCount()`, copy construction
and move construction from it all stop at `assert(mModel)`; on a handle object whose
`mModel` is not null none of them stops at an assertion; and when the handle is bound
to a live cell (with a count of handles) all of them return. -/
theorem assertions_exactly_on_null [Payload T] (w : World T) (i : Nat) :
    (w.vars[i]? = some (some { mModel := none }) →
      w.read i = .error .assertion ∧ w.write i = .error .assertion ∧
      w.unique i = .error .assertion ∧ w.refCount i = .error .assertion ∧
      w.ctor_copy i = .error .assertion ∧ w.ctor_move i = .error .assertion) ∧
    (∀ a, w.vars[i]? = some (some { mModel := some a }) →
      w.read i ≠ .error .assertion ∧ w.write i ≠ .error .assertion ∧
      w.unique i ≠ .error .assertion ∧ w.refCount i ≠ .error .assertion ∧
      w.ctor_copy i ≠ .error .assertion ∧ w.ctor_move i ≠ .error .assertion) ∧
    (∀ a c, w.Bound i a c → 1 ≤ c.mRef → c.mRef < SIZE_MOD →
      (∃ v, w.read i = .ok v) ∧ (∃ w', w.write i = .ok w') ∧
      (∃ u, w.unique i = .ok u) ∧ (∃ n, w.refCount i = .ok n) ∧
      (∃ w', w.ctor_copy i = .ok w') ∧ (∃ w', w.ctor_move i = .ok w')) := by
  refine ⟨?_, ?_, ?_⟩
  · intro hv
    have hh := handle_of_var hv
    refine ⟨?_, ?_, ?_, ?_, ?_, ?_⟩
    · simp [World.read, hh, bind, Except.bind]
    · simp [World.write, World.unique, World.count, hh, bind, Except.bind]
    · simp [World.unique, World.count, hh, bind, Except.bind]
    · simp [World.refCount, World.count, hh, bind, Except.bind]
    · simp [World.ctor_copy, World.copy_of, hh, bind, Except.bind]
    · simp [World.ctor_move, hh, bind, Except.bind]
  · intro a hv
    have hh := handle_of_var hv
    have hcount := count_ne_assertion hv
    refine ⟨read_ne_assertion hv, write_ne_assertion hv, ?_, ?_, ?_, ?_⟩
    · unfold World.unique
      cases hc : w.count i with
      | error e =>
        rw [hc] at hcount
        simpa [bind, Except.bind] using hcount
      | ok n => simp [bind, Except.bind, pure, Except.pure]
    · unfold World.refCount
      cases hc : w.count i with
      | error e =>
        rw [hc] at hcount
        simpa [bind, Except.bind] using hcount
      | ok n => simp [bind, Except.bind, pure, Except.pure]
    · simp only [World.ctor_copy, World.copy_of, hh, bind, Except.bind, World.increment]
      cases hc : w.cell a with
      | error e =>
        have := cell_ne_assertion w a
        rw [hc] at this
        simpa using this
      | ok c => simp [pure, Except.pure]
    · simp [World.ctor_move, hh, bind, Except.bind, pure, Except.pure]
  · intro a c hb hpos hrep
    obtain ⟨w1, n, v, hw, -⟩ := write_post hb hpos hrep
    refine ⟨⟨_, read_of_bound hb⟩, ⟨w1, hw⟩, ⟨_, unique_of_bound hb⟩,
      ⟨_, refCount_of_bound hb⟩, ⟨_, ctor_copy_of_bound hb⟩, ?_⟩
    simp [World.ctor_move, handle_of_bound hb, bind, Except.bind, pure, Except.pure]

/-- C13, at `VPath p0; VPath p1(std::move(p0));`: the moved-from `p0` and the bound
`p1`. -/
theorem assertions_exactly_on_null_witness :
    (World.read movedFrom 0 = .error .assertion ∧
      World.write movedFrom 0 = .error .assertion ∧
      World.unique movedFrom 0 = .error .assertion ∧
      World.refCount movedFrom 0 = .error .assertion ∧
      World.ctor_copy movedFrom 0 = .error .assertion ∧
      World.ctor_move movedFrom 0 = .error .assertion) ∧
    (World.read movedFrom 1 ≠ .error .assertion ∧
      World.write movedFrom 1 ≠ .error .assertion ∧
      World.unique movedFrom 1 ≠ .error .assertion ∧
      World.refCount movedFrom 1 ≠ .error .assertion ∧
      World.ctor_copy movedFrom 1 ≠ .error .assertion ∧
      World.ctor_move movedFrom 1 ≠ .error .assertion) ∧
    ((∃ v, World.read movedFrom 1 = .ok v) ∧ (∃ w', World.write movedFrom 1 = .ok w') ∧
      (∃ u, World.unique movedFrom 1 = .ok u) ∧ (∃ n, World.refCount movedFrom 1 = .ok n) ∧
      (∃ w', World.ctor_copy movedFrom 1 = .ok w') ∧
      (∃ w', World.ctor_move movedFrom 1 = .ok w')) :=
  ⟨(assertions_exactly_on_null movedFrom 0).1 rfl,
    (assertions_exactly_on_null movedFrom 1).2.1 0 rfl,
    (assertions_exactly_on_null movedFrom 1).2.2 0
      { mRef := 2, mValue := VPathData.default } ⟨rfl, rfl⟩ (by decide) (by decide)⟩

/-! ### Move construction, move assignment, destruction of a moved-from handle -/

theorem ctor_move_of_bound {w : World T} {j a : Nat} {c : model T} (hb : w.Bound j a c) :
    w.ctor_move j = .ok
      { cells := w.cells,
        vars := (w.vars.set j (some { mModel := none })) ++ [some { mModel := some a }] } := by
  simp [World.ctor_move, handle_of_bound hb, bind, Except.bind, pure, Except.pure]

theorem assign_move_eq {w : World T} {i j a : Nat} {c : model T} {q : vcow_ptr}
    (hb : w.Bound j a c) (hij : i ≠ j) (hq : w.vars[i]? = some (some q)) :
    w.assign_move i j =
      World.release
        ((w.setHandle j { mModel := none }).setHandle i { mModel := some a }) q := by
  have h1 : (w.setHandle j { mModel := none }).handle i = .ok q := by
    unfold World.handle World.setHandle
    simp only
    rw [List.getElem?_set_ne (Ne.symm hij), hq]
  unfold World.assign_move
  rw [handle_of_bound hb]
  simp only [bind, Except.bind, h1]

theorem dtor_of_null {w : World T} {j : Nat}
    (hv : w.vars[j]? = some (some { mModel := none })) :
    w.dtor j = .ok { w with vars := w.vars.set j none } := by
  simp [World.dtor, handle_of_var hv, World.release, bind, Except.bind, pure, Except.pure]

/-- C11, as stated, fails for a move assignment into a handle that is already bound to
the source's cell: after `VPath p0; VPath p1;` both are bound to `default_s` with
count 3, and `p1 = std::move(p0)` leaves `p1` bound to it, `p0` null, and the count
at 2. -/
theorem move_assign_within_one_cell_lowers_count :
    twoDefaults.count 0 = .ok 3 ∧ twoDefaults.addr 1 = some 0 ∧
    ∃ w', twoDefaults.assign_move 1 0 = .ok w' ∧
      w'.addr 1 = some 0 ∧ w'.addr 0 = none ∧ w'.count 1 = .ok 2 :=
  ⟨rfl, rfl, _, rfl, rfl, rfl, rfl⟩

/-- C11 (amended): let `x` be a handle object bound to a live cell.
Move construction from `x` returns: the new handle (the last of `vars`) is bound to
`x`'s former cell, `x` is null and no cell changes.
Move assignment from `x` into a different handle object returns: the destination is
bound to `x`'s former cell and `x` is null; that cell is unchanged when the
destination was null or bound to another cell (whose count then drops by one, the cell
being deleted when it reaches zero), and its count drops by exactly one when the
destination was already bound to it.
In any state where `x` is null, such as the states after these moves, the destructor
of `x` returns and changes no cell. -/
theorem move_semantics (w : World T) (j a : Nat) (c : model T) (hb : w.Bound j a c) :
    (∃ w', w.ctor_move j = .ok w' ∧ w'.cells = w.cells ∧
      w'.vars[w.vars.length]? = some (some { mModel := some a }) ∧
      w'.vars[j]? = some (some { mModel := none })) ∧
    (∀ i, i ≠ j → w.vars[i]? = some (some { mModel := none }) →
      ∃ w', w.assign_move i j = .ok w' ∧ w'.cells = w.cells ∧
        w'.vars[i]? = some (some { mModel := some a }) ∧
        w'.vars[j]? = some (some { mModel := none })) ∧
    (∀ i b cb, i ≠ j → w.Bound i b cb → b ≠ a → 1 ≤ cb.mRef → cb.mRef < SIZE_MOD →
      (b = 0 → 2 ≤ cb.mRef) →
      ∃ w', w.assign_move i j = .ok w' ∧
        w'.vars[i]? = some (some { mModel := some a }) ∧
        w'.vars[j]? = some (some { mModel := none }) ∧
        w'.cells[a]? = some { obj := c, deleted := false } ∧
        w'.cells[b]? = some { obj := { mRef := cb.mRef - 1, mValue := cb.mValue },
                              deleted := decide (cb.mRef - 1 = 0) }) ∧
    (∀ i, i ≠ j → w.Bound i a c → 2 ≤ c.mRef → c.mRef < SIZE_MOD →
      ∃ w', w.assign_move i j = .ok w' ∧
        w'.vars[i]? = some (some { mModel := some a }) ∧
        w'.vars[j]? = some (some { mModel := none }) ∧
        w'.cells[a]? = some { obj := { mRef := c.mRef - 1, mValue := c.mValue },
                              deleted := false }) ∧
    (∀ w1 : World T, w1.vars[j]? = some (some { mModel := none }) →
      ∃ w2, w1.dtor j = .ok w2 ∧ w2.cells = w1.cells) := by
  have hj := index_lt_of_bound hb
  have hlt := addr_lt_of_bound hb
  refine ⟨?_, ?_, ?_, ?_, ?_⟩
  · refine ⟨_, ctor_move_of_bound hb, rfl, ?_, ?_⟩
    · simp
    · simp [List.getElem?_append_left, hj]
  · intro i hij hq
    have hi : i < w.vars.length := by
      by_contra hi
      rw [List.getElem?_eq_none (by omega)] at hq
      exact Option.noConfusion hq
    refine ⟨_, (assign_move_eq hb hij hq).trans (release_null _), rfl, ?_, ?_⟩
    · simp [World.setHandle, hi]
    · simp [World.setHandle, List.getElem?_set_ne hij, hj]
  · intro i b cb hij hbi hba hpos hrep hstatic
    have hi := index_lt_of_bound hbi
    have hltb := addr_lt_of_bound hbi
    have hdec := decRef_of_pos cb.mRef hpos hrep
    have heq := assign_move_eq hb hij hbi.1
    have hcb : ((w.setHandle j { mModel := none }).setHandle i
        { mModel := some a }).cells[b]? = some { obj := cb, deleted := false } := hbi.2
    by_cases h1 : cb.mRef = 1
    · have hz : decRef cb.mRef = 0 := by omega
      have hb0 : b ≠ 0 := by
        intro h0
        have := hstatic h0
        omega
      rw [release_last hcb hz hb0] at heq
      refine ⟨_, heq, ?_, ?_, ?_, ?_⟩
      · simp [World.setHandle, hi]
      · simp [World.setHandle, List.getElem?_set_ne hij, hj]
      · simp [World.setHandle, List.getElem?_set_ne hba, hb.2]
      · simp [World.setHandle, hltb, h1]
    · have hz : decRef cb.mRef ≠ 0 := by omega
      have hz' : ¬ (cb.mRef - 1 = 0) := by omega
      rw [release_kept hcb hz, hdec] at heq
      refine ⟨_, heq, ?_, ?_, ?_, ?_⟩
      · simp [World.setHandle, hi]
      · simp [World.setHandle, List.getElem?_set_ne hij, hj]
      · simp [World.setHandle, List.getElem?_set_ne hba, hb.2]
      · simp [World.setHandle, hltb, hz']
  · intro i hij hbi h2 hrep
    have hi := index_lt_of_bound hbi
    have hdec := decRef_of_pos c.mRef (by omega) hrep
    have heq := assign_move_eq hb hij hbi.1
    have hca : ((w.setHandle j { mModel := none }).setHandle i
        { mModel := some a }).cells[a]? = some { obj := c, deleted := false } := hb.2
    have hz : decRef c.mRef ≠ 0 := by omega
    rw [release_kept hca hz, hdec] at heq
    refine ⟨_, heq, ?_, ?_, ?_⟩
    · simp [World.setHandle, hi]
    · simp [World.setHandle, List.getElem?_set_ne hij, hj]
    · simp [World.setHandle, hlt]
  · intro w1 hv
    exact ⟨_, dtor_of_null hv, rfl⟩

/-- C11 (amended), at `VPath p0; VPath p1; p1.moveTo(0, 0); p1.lineTo(10, 0);
p0.moveTo(5, 5);` with `x = p1`. -/
theorem move_semantics_witness :
    (∃ w', twoOwners.ctor_move 1 = .ok w' ∧ w'.cells = twoOwners.cells ∧
      w'.vars[twoOwners.vars.length]? = some (some { mModel := some 1 }) ∧
      w'.vars[1]? = some (some { mModel := none })) ∧
    (∀ i, i ≠ 1 → twoOwners.vars[i]? = some (some { mModel := none }) →
      ∃ w', twoOwners.assign_move i 1 = .ok w' ∧ w'.cells = twoOwners.cells ∧
        w'.vars[i]? = some (some { mModel := some 1 }) ∧
        w'.vars[1]? = some (some { mModel := none })) ∧
    (∀ i b cb, i ≠ 1 → twoOwners.Bound i b cb → b ≠ 1 → 1 ≤ cb.mRef →
      cb.mRef < SIZE_MOD → (b = 0 → 2 ≤ cb.mRef) →
      ∃ w', twoOwners.assign_move i 1 = .ok w' ∧
        w'.vars[i]? = some (some { mModel := some 1 }) ∧
        w'.vars[1]? = some (some { mModel := none }) ∧
        w'.cells[1]? = some { obj := { mRef := 1, mValue := linePayload },
                              deleted := false } ∧
        w'.cells[b]? = some { obj := { mRef := cb.mRef - 1, mValue := cb.mValue },
                              deleted := decide (cb.mRef - 1 = 0) }) ∧
    (∀ i, i ≠ 1 → twoOwners.Bound i 1 { mRef := 1, mValue := linePayload } →
      2 ≤ (1 : Nat) → (1 : Nat) < SIZE_MOD →
      ∃ w', twoOwners.assign_move i 1 = .ok w' ∧
        w'.vars[i]? = some (some { mModel := some 1 }) ∧
        w'.vars[1]? = some (some { mModel := none }) ∧
        w'.cells[1]? = some { obj := { mRef := 1 - 1, mValue := linePayload },
                              deleted := false }) ∧
    (∀ w1 : Paths Int, w1.vars[1]? = some (some { mModel := none }) →
      ∃ w2, w1.dtor 1 = .ok w2 ∧ w2.cells = w1.cells) :=
  move_semantics twoOwners 1 1 { mRef := 1, mValue := linePayload } ⟨rfl, rfl⟩

/-! ### Copy assignment -/

theorem decRef_incRef (n : Nat) (h : n < SIZE_MOD) : decRef (incRef n) = n := by
  unfold decRef incRef SIZE_MOD at *
  omega

theorem set_of_getElem? {α : Type} {l : List α} {i : Nat} {x : α} (h : l[i]? = some x) :
    l.set i x = l := by
  induction l generalizing i with
  | nil => rfl
  | cons y ys ih =>
    cases i with
    | zero =>
      simp only [List.getElem?_cons_zero, Option.some.injEq] at h
      subst h
      rfl
    | succ k =>
      simp only [List.getElem?_cons_succ] at h
      simp only [List.set_cons_succ, ih h]

theorem assign_copy_same {w : World T} {i j a : Nat} {c c2 : model T}
    (hbi : w.Bound i a c) (hbj : w.Bound j a c2) (hpos : 1 ≤ c.mRef)
    (hrep : c.mRef < SIZE_MOD) : w.assign_copy i j = .ok w := by
  have hcc : c2 = c := by
    have h := hbj.2
    rw [hbi.2] at h
    simp only [Option.some.injEq, Cell.mk.injEq, and_true] at h
    exact h.symm
  subst hcc
  have hlt := addr_lt_of_bound hbi
  have hb1 : World.Bound
      ({ w with
         cells := w.cells.set a
          { obj := { mRef := incRef c2.mRef, mValue := c2.mValue }, deleted := false } } :
        World T) i a { mRef := incRef c2.mRef, mValue := c2.mValue } := by
    refine ⟨hbi.1, ?_⟩
    show (w.cells.set a _)[a]? = _
    simp [hlt]
  have hz : decRef (incRef c2.mRef) ≠ 0 := by
    rw [decRef_incRef _ hrep]
    omega
  unfold World.assign_copy
  rw [handle_of_bound hbj]
  simp only [bind, Except.bind, World.copy_of, increment_of_cell hbj.2, pure, Except.pure]
  rw [assign_temp_eq hb1]
  have hc2 : (World.setHandle
      ({ w with
         cells := w.cells.set a
          { obj := { mRef := incRef c2.mRef, mValue := c2.mValue }, deleted := false } } :
        World T) i { mModel := some a }).cells[a]? =
      some { obj := { mRef := incRef c2.mRef, mValue := c2.mValue }, deleted := false } :=
    hb1.2
  rw [release_kept hc2 hz, decRef_incRef _ hrep]
  have hcells : (w.cells.set a
      { obj := { mRef := incRef c2.mRef, mValue := c2.mValue }, deleted := false }).set a
      { obj := { mRef := c2.mRef, mValue := c2.mValue }, deleted := false } = w.cells := by
    rw [List.set_set]
    exact set_of_getElem? hbi.2
  have hvars : w.vars.set i (some { mModel := some a }) = w.vars := set_of_getElem? hbi.1
  simp only [World.setHandle, hcells, hvars]

/-- C12: let `x` and `y` be handle objects bound to live cells, the counts being counts
of handles (at least 1, and at least 2 on `default_s`; successors representable).
If the cells differ, `x = y` returns with `x` and `y` bound to `y`'s cell, whose
count is one more than before and whose payload is the same; the count of `x`'s old
cell is one less and that cell is deleted exactly when it reaches zero; no cell is
allocated and no other cell changes.  If `x` and `y` are bound to one cell, in
particular if they are the same object, `x = y` returns with the state exactly as it
was: the cell, its payload and its count are unchanged. -/
theorem copy_assignment_contract (w : World T) (i j a b : Nat) (c cb : model T)
    (hx : w.Bound i a c) (hy : w.Bound j b cb) (hpos : 1 ≤ c.mRef)
    (hrep : c.mRef < SIZE_MOD) (hstatic : a = 0 → 2 ≤ c.mRef)
    (hrepy : cb.mRef + 1 < SIZE_MOD) :
    (a ≠ b → ∃ w', w.assign_copy i j = .ok w' ∧
      w'.Bound i b { mRef := cb.mRef + 1, mValue := cb.mValue } ∧
      w'.Bound j b { mRef := cb.mRef + 1, mValue := cb.mValue } ∧
      w'.cells[a]? = some { obj := { mRef := c.mRef - 1, mValue := c.mValue },
                            deleted := decide (c.mRef - 1 = 0) } ∧
      w'.cells.length = w.cells.length ∧
      (∀ q, q ≠ a → q ≠ b → w'.cells[q]? = w.cells[q]?)) ∧
    (a = b → w.assign_copy i j = .ok w) := by
  constructor
  · intro hab
    obtain ⟨w', hw', hbi, hbj, hca, hlen, hframe, -⟩ :=
      assign_copy_post hx hy hab hpos hrep hstatic
    rw [incRef_of_lt _ hrepy] at hbi hbj
    refine ⟨w', hw', hbi, hbj, ?_, hlen, hframe⟩
    rw [hca]
    have hd : decide (c.mRef = 1) = decide (c.mRef - 1 = 0) := by
      by_cases h1 : c.mRef = 1
      · simp [h1]
      · have : ¬ (c.mRef - 1 = 0) := by omega
        simp [h1, this]
    rw [hd]
  · intro hab
    subst hab
    exact assign_copy_same hx hy hpos hrep

/-- C12, at `VPath p0; VPath p1; p1.moveTo(0, 0); p1.lineTo(10, 0); p0.moveTo(5, 5);`
with `x = p0` and `y = p1`. -/
theorem copy_assignment_contract_witness :
    ((2 : Nat) ≠ 1 → ∃ w', twoOwners.assign_copy 0 1 = .ok w' ∧
      w'.Bound 0 1 { mRef := 1 + 1, mValue := linePayload } ∧
      w'.Bound 1 1 { mRef := 1 + 1, mValue := linePayload } ∧
      w'.cells[2]? = some { obj := { mRef := 1 - 1, mValue := dotPayload },
                            deleted := decide (1 - 1 = 0) } ∧
      w'.cells.length = twoOwners.cells.length ∧
      (∀ q, q ≠ 2 → q ≠ 1 → w'.cells[q]? = twoOwners.cells[q]?)) ∧
    ((2 : Nat) = 1 → twoOwners.assign_copy 0 1 = .ok twoOwners) :=
  copy_assignment_contract twoOwners 0 1 2 1 { mRef := 1, mValue := dotPayload }
    { mRef := 1, mValue := linePayload } ⟨rfl, rfl⟩ ⟨rfl, rfl⟩ (by decide) (by decide)
    (by decide) (by decide)

theorem self_assignment_example :
    twoOwners.assign_copy 1 1 = .ok twoOwners ∧ twoDefaults.assign_copy 0 1 = .ok twoDefaults :=
  ⟨rfl, rfl⟩

/-! ### Counting handles -/

theorem count_set_add {α : Type} [BEq α] [LawfulBEq α] {l : List α} {i : Nat} {x z : α}
    (y : α) (h : l[i]? = some z) :
    (l.set i x).count y + (if z == y then 1 else 0) =
      l.count y + (if x == y then 1 else 0) := by
  induction l generalizing i with
  | nil => simp at h
  | cons u us ih =>
    cases i with
    | zero =>
      simp only [List.getElem?_cons_zero, Option.some.injEq] at h
      subst h
      simp only [List.set_cons_zero, List.count_cons]
      omega
    | succ k =>
      simp only [List.getElem?_cons_succ] at h
      have := ih h
      simp only [List.set_cons_succ, List.count_cons]
      omega

theorem holders_cons (w : World T) (p : vcow_ptr) (temps : List vcow_ptr) (a : Nat) :
    w.holders (p :: temps) a =
      w.holders temps a + (if p = { mModel := some a } then 1 else 0) := by
  simp only [World.holders, List.count_cons, beq_iff_eq]
  omega

theorem holders_le (w : World T) (temps : List vcow_ptr) (a : Nat) :
    w.holders temps a ≤ w.vars.length + temps.length := by
  unfold World.holders
  have h1 := List.count_le_length (some ({ mModel := some a } : vcow_ptr)) w.vars
  have h2 := List.count_le_length ({ mModel := some a } : vcow_ptr) temps
  omega

theorem accounted_congr {w w2 : World T} {t t2 : List vcow_ptr} (h : w.Accounted t)
    (hc : w2.cells = w.cells) (hh : ∀ a, w2.holders t2 a = w.holders t a) :
    w2.Accounted t2 := by
  refine ⟨?_, ?_, ?_, ?_⟩
  · rw [hc]
    exact h.static
  · intro a c hcell
    rw [hc] at hcell
    simp only [World.due, hh]
    exact h.counts a c hcell
  · intro a c hcell
    rw [hc] at hcell
    exact h.freed a c hcell
  · intro a ha
    rw [hc] at ha
    rw [hh]
    exact h.alloc a ha

theorem accounted_recount {w w2 : World T} {t t2 : List vcow_ptr} {a : Nat} {c x : Cell T}
    (h : w.Accounted t) (hc : w.cells[a]? = some c) (hcells : w2.cells = w.cells.set a x)
    (hx : x.obj.mRef = w2.due t2 a) (hd : x.deleted = true ↔ x.obj.mRef = 0)
    (hh : ∀ b, b ≠ a → w2.holders t2 b = w.holders t b) : w2.Accounted t2 := by
  have hlt : a < w.cells.length := by
    by_contra hlt
    rw [List.getElem?_eq_none (by omega)] at hc
    exact Option.noConfusion hc
  refine ⟨?_, ?_, ?_, ?_⟩
  · rw [hcells, List.length_set]
    exact h.static
  · intro b cb hcell
    rw [hcells] at hcell
    by_cases hba : b = a
    · subst hba
      rw [List.getElem?_set_self hlt] at hcell
      simp only [Option.some.injEq] at hcell
      subst hcell
      exact hx
    · rw [List.getElem?_set_ne (Ne.symm hba)] at hcell
      simp only [World.due, hh b hba]
      exact h.counts b cb hcell
  · intro b cb hcell
    rw [hcells] at hcell
    by_cases hba : b = a
    · subst hba
      rw [List.getElem?_set_self hlt] at hcell
      simp only [Option.some.injEq] at hcell
      subst hcell
      exact hd
    · rw [List.getElem?_set_ne (Ne.symm hba)] at hcell
      exact h.freed b cb hcell
  · intro b hb
    rw [hcells, List.length_set] at hb
    have hba : b ≠ a := by omega
    rw [hh b hba]
    exact h.alloc b hb

theorem accounted_null_temp {w : World T} {t : List vcow_ptr} (h : w.Accounted t) :
    w.Accounted ({ mModel := none } :: t) := by
  refine accounted_congr h rfl ?_
  intro a
  rw [holders_cons]
  simp

theorem accounted_drop_null {w : World T} {t : List vcow_ptr}
    (h : w.Accounted ({ mModel := none } :: t)) : w.Accounted t := by
  refine accounted_congr h rfl ?_
  intro a
  rw [holders_cons]
  simp

theorem accounted_setHandle {w : World T} {t : List vcow_ptr} {p q : vcow_ptr} {i : Nat}
    (h : w.Accounted (p :: t)) (hv : w.vars[i]? = some (some q)) :
    (w.setHandle i p).Accounted (q :: t) := by
  refine accounted_congr h rfl ?_
  intro a
  have hcount := count_set_add (x := some p) (some ({ mModel := some a } : vcow_ptr)) hv
  simp only [beq_iff_eq, Option.some.injEq] at hcount
  rw [holders_cons, holders_cons]
  simp only [World.holders, World.setHandle]
  omega

theorem accounted_push {w : World T} {t : List vcow_ptr} {p : vcow_ptr}
    (h : w.Accounted (p :: t)) :
    World.Accounted ({ cells := w.cells, vars := w.vars ++ [some p] } : World T) t := by
  refine accounted_congr h rfl ?_
  intro a
  rw [holders_cons]
  simp only [World.holders, List.count_append, List.count_singleton, beq_iff_eq,
    Option.some.injEq]
  omega

theorem accounted_kill {w : World T} {t : List vcow_ptr} {q : vcow_ptr} {i : Nat}
    (h : w.Accounted t) (hv : w.vars[i]? = some (some q)) :
    World.Accounted ({ cells := w.cells, vars := w.vars.set i none } : World T) (q :: t) := by
  refine accounted_congr h rfl ?_
  intro a
  have hcount := count_set_add (x := none) (some ({ mModel := some a } : vcow_ptr)) hv
  simp only [beq_iff_eq, Option.some.injEq, reduceCtorEq, if_false] at hcount
  rw [holders_cons]
  simp only [World.holders]
  omega

theorem live_cell_of_due {w : World T} {t : List vcow_ptr} (h : w.Accounted t) {a : Nat}
    (hdue : 1 ≤ w.due t a) :
    ∃ c, w.cells[a]? = some { obj := c, deleted := false } ∧ c.mRef = w.due t a := by
  have hlt : a < w.cells.length := by
    by_contra hlt
    have h0 := h.alloc a (by omega)
    have hs := h.static
    have ha : a ≠ 0 := by omega
    simp only [World.due, h0, ha, if_false] at hdue
    omega
  have hc : w.cells[a]? = some w.cells[a] := List.getElem?_eq_getElem hlt
  have hcount := h.counts a _ hc
  have hfreed := h.freed a _ hc
  cases hcell : w.cells[a] with
  | mk obj del =>
    rw [hcell] at hc hcount hfreed
    simp only at hcount hfreed
    cases del with
    | true =>
      have := hfreed.mp rfl
      omega
    | false => exact ⟨obj, hc, hcount⟩

theorem due_le (w : World T) (t : List vcow_ptr) (a : Nat) :
    w.due t a ≤ w.vars.length + t.length + 1 := by
  unfold World.due
  have := holders_le w t a
  split <;> omega

theorem due_cons (w : World T) (p : vcow_ptr) (t : List vcow_ptr) (a : Nat) :
    w.due (p :: t) a = w.due t a + (if p = { mModel := some a } then 1 else 0) := by
  simp only [World.due, holders_cons]
  omega

theorem accounted_increment {w : World T} {t : List vcow_ptr} {a : Nat}
    (h : w.Accounted t) (ha : 1 ≤ w.due t a)
    (hsz : w.vars.length + t.length + 2 < SIZE_MOD) :
    ∃ w1, w.increment a = .ok w1 ∧ w1.Accounted ({ mModel := some a } :: t) ∧
      w1.vars = w.vars := by
  obtain ⟨c, hc, hcount⟩ := live_cell_of_due h ha
  have hle := due_le w t a
  have hinc : incRef c.mRef = c.mRef + 1 := incRef_of_lt _ (by omega)
  refine ⟨_, increment_of_cell hc, ?_, rfl⟩
  refine accounted_recount h hc rfl ?_ ?_ ?_
  · show incRef c.mRef = _
    rw [hinc, hcount, due_cons]
    simp [World.due, World.holders]
  · show false = true ↔ incRef c.mRef = 0
    rw [hinc]
    simp
  · intro b hb
    rw [holders_cons]
    have hne : ¬ (({ mModel := some a } : vcow_ptr) = { mModel := some b }) := by
      intro heq
      simp only [vcow_ptr.mk.injEq, Option.some.injEq] at heq
      exact hb heq.symm
    simp [hne, World.holders]

theorem accounted_release {w : World T} {t : List vcow_ptr} {p : vcow_ptr}
    (h : w.Accounted (p :: t)) (hsz : w.vars.length + t.length + 2 < SIZE_MOD) :
    ∃ w1, w.release p = .ok w1 ∧ w1.Accounted t ∧ w1.vars = w.vars := by
  cases p with
  | mk m =>
    cases m with
    | none => exact ⟨w, rfl, accounted_drop_null h, rfl⟩
    | some a =>
      have hd1 : w.due ({ mModel := some a } :: t) a = w.due t a + 1 := by
        rw [due_cons]
        simp
      have hpos : 1 ≤ w.due ({ mModel := some a } :: t) a := by omega
      obtain ⟨c, hc, hcount⟩ := live_cell_of_due h hpos
      have hle := due_le w t a
      have hdec : decRef c.mRef = w.due t a := by
        rw [decRef_of_pos c.mRef (by omega) (by omega)]
        omega
      have hh : ∀ b, b ≠ a → w.holders t b = w.holders ({ mModel := some a } :: t) b := by
        intro b hb
        rw [holders_cons]
        have hne : ¬ (({ mModel := some a } : vcow_ptr) = { mModel := some b }) := by
          intro heq
          simp only [vcow_ptr.mk.injEq, Option.some.injEq] at heq
          exact hb heq.symm
        simp [hne]
      by_cases hz : w.due t a = 0
      · have ha0 : a ≠ 0 := by
          intro h0
          simp [World.due, h0] at hz
        refine ⟨_, release_last hc (by omega) ha0, ?_, rfl⟩
        refine accounted_recount h hc rfl ?_ ?_ hh
        · show 0 = World.due _ t a
          simp only [World.due, World.holders] at hz ⊢
          omega
        · simp
      · refine ⟨_, release_kept hc (by omega), ?_, rfl⟩
        refine accounted_recount h hc rfl ?_ ?_ hh
        · show decRef c.mRef = World.due _ t a
          rw [hdec]
          rfl
        · show false = true ↔ decRef c.mRef = 0
          rw [hdec]
          simp [hz]

theorem accounted_ctor_value [Payload T] {w : World T} {t : List vcow_ptr}
    (h : w.Accounted t) (v : T) :
    (w.ctor_value v).2.Accounted ((w.ctor_value v).1 :: t) := by
  have hs := h.static
  have h0 := h.alloc w.cells.length (le_refl _)
  have hne : ∀ b, b ≠ w.cells.length →
      ¬ (({ mModel := some w.cells.length } : vcow_ptr) = { mModel := some b }) := by
    intro b hb heq
    simp only [vcow_ptr.mk.injEq, Option.some.injEq] at heq
    exact hb heq.symm
  refine ⟨?_, ?_, ?_, ?_⟩
  · simp [World.ctor_value]
  · intro b cb hcell
    simp only [World.ctor_value] at hcell ⊢
    by_cases hb : b < w.cells.length
    · rw [List.getElem?_append_left hb] at hcell
      rw [due_cons]
      simp only [hne b (by omega), if_false, Nat.add_zero]
      exact h.counts b cb hcell
    · rw [List.getElem?_append_right (by omega)] at hcell
      have hb0 : b - w.cells.length = 0 := by
        by_contra hb0
        obtain ⟨k, hk⟩ := Nat.exists_eq_succ_of_ne_zero hb0
        rw [hk] at hcell
        simp at hcell
      rw [hb0] at hcell
      simp only [List.getElem?_cons_zero, Option.some.injEq] at hcell
      subst hcell
      have hbe : b = w.cells.length := by omega
      subst hbe
      rw [due_cons]
      simp only [World.due, World.holders] at h0 ⊢
      have hlen0 : w.cells.length ≠ 0 := by omega
      simp [hlen0]
      omega
  · intro b cb hcell
    simp only [World.ctor_value] at hcell
    by_cases hb : b < w.cells.length
    · rw [List.getElem?_append_left hb] at hcell
      exact h.freed b cb hcell
    · rw [List.getElem?_append_right (by omega)] at hcell
      have hb0 : b - w.cells.length = 0 := by
        by_contra hb0
        obtain ⟨k, hk⟩ := Nat.exists_eq_succ_of_ne_zero hb0
        rw [hk] at hcell
        simp at hcell
      rw [hb0] at hcell
      simp only [List.getElem?_cons_zero, Option.some.injEq] at hcell
      subst hcell
      simp
  · intro b hb
    simp only [World.ctor_value, List.length_append, List.length_singleton] at hb
    rw [holders_cons]
    have := h.alloc b (by omega)
    simp only [World.ctor_value, hne b (by omega), if_false, Nat.add_zero]
    exact this

theorem accounted_setValue {w : World T} {t : List vcow_ptr} (h : w.Accounted t)
    (a : Nat) (v : T) : (w.setValue a v).Accounted t := by
  unfold World.setValue
  cases hc : w.cells[a]? with
  | none => exact h
  | some c =>
    refine accounted_recount h hc rfl ?_ ?_ (fun _ _ => rfl)
    · exact h.counts a c hc
    · exact h.freed a c hc

/-! ### Every handle operation keeps the accounting and returns -/

theorem cell_vars (w : World T) (V : List (Option vcow_ptr)) (a : Nat) :
    World.cell ({ cells := w.cells, vars := V } : World T) a = w.cell a := rfl

theorem setRef_with_vars (w : World T) (V : List (Option vcow_ptr)) (a r : Nat) :
    World.setRef ({ cells := w.cells, vars := V } : World T) a r =
      { cells := (w.setRef a r).cells, vars := V } := by
  unfold World.setRef
  cases w.cells[a]? <;> rfl

theorem deleteCell_with_vars (w : World T) (V : List (Option vcow_ptr)) (a : Nat) :
    World.deleteCell ({ cells := w.cells, vars := V } : World T) a =
      (w.deleteCell a).map (fun w1 => ({ cells := w1.cells, vars := V } : World T)) := by
  unfold World.deleteCell
  by_cases h0 : a = 0
  · rw [if_pos h0, if_pos h0]
    rfl
  · rw [if_neg h0, if_neg h0]
    cases w.cells[a]? <;> rfl

theorem release_vars (w : World T) (V : List (Option vcow_ptr)) (p : vcow_ptr) :
    World.release ({ cells := w.cells, vars := V } : World T) p =
      (w.release p).map (fun w1 => ({ cells := w1.cells, vars := V } : World T)) := by
  unfold World.release
  cases p.mModel with
  | none => rfl
  | some a =>
    simp only [bind, Except.bind, cell_vars]
    cases w.cell a with
    | error e => rfl
    | ok c =>
      simp only [setRef_with_vars]
      by_cases hz : decRef c.mRef = 0
      · rw [if_pos hz, if_pos hz]
        exact deleteCell_with_vars (w.setRef a (decRef c.mRef)) V a
      · rw [if_neg hz, if_neg hz]
        rfl

theorem assign_temp_step {w : World T} {i n : Nat} {q : vcow_ptr}
    (h : w.Accounted [{ mModel := some n }]) (hv : w.vars[i]? = some (some q))
    (hsz : w.vars.length + 2 < SIZE_MOD) :
    ∃ w', w.assign_temp i { mModel := some n } = .ok w' ∧ w'.Accounted [] ∧
      w'.vars = w.vars.set i (some { mModel := some n }) := by
  have h2 := accounted_setHandle h hv
  have hsz2 : (w.setHandle i { mModel := some n }).vars.length + ([] : List vcow_ptr).length
      + 2 < SIZE_MOD := by
    simp only [World.setHandle, List.length_set, List.length_nil]
    omega
  obtain ⟨w', hrel, hacc, hvars⟩ := accounted_release h2 hsz2
  refine ⟨w', ?_, hacc, hvars⟩
  simp only [World.assign_temp, handle_of_var hv, bind, Except.bind]
  exact hrel

theorem due_pos_of_var {w : World T} {t : List vcow_ptr} {i a : Nat}
    (hv : w.vars[i]? = some (some { mModel := some a })) : 1 ≤ w.due t a := by
  have hmem : some ({ mModel := some a } : vcow_ptr) ∈ w.vars := List.getElem?_mem hv
  have hpos := List.count_pos_iff.mpr hmem
  simp only [World.due, World.holders]
  omega

theorem step_ctor_default {w : World T} (h : w.Accounted [])
    (hsz : w.vars.length + 2 < SIZE_MOD) :
    ∃ w', w.ctor_default = .ok w' ∧ w'.Accounted [] ∧
      w'.vars = w.vars ++ [some { mModel := some 0 }] := by
  have hd : 1 ≤ w.due [] 0 := by simp [World.due]
  obtain ⟨w1, hinc, hacc, hvars⟩ := accounted_increment h hd (by simpa using hsz)
  refine ⟨{ cells := w1.cells, vars := w1.vars ++ [some { mModel := some 0 }] }, ?_,
    accounted_push hacc, by rw [hvars]⟩
  simp [World.ctor_default, hinc, bind, Except.bind, pure, Except.pure]

theorem step_ctor_args [Payload T] {w : World T} (h : w.Accounted []) (v : T) :
    ∃ w', w.ctor_args v = .ok w' ∧ w'.Accounted [] ∧
      w'.vars = w.vars ++ [some { mModel := some w.cells.length }] :=
  ⟨_, rfl, accounted_push (accounted_ctor_value h v), rfl⟩

theorem step_ctor_copy {w : World T} {j a : Nat} (h : w.Accounted [])
    (hsz : w.vars.length + 2 < SIZE_MOD)
    (hv : w.vars[j]? = some (some { mModel := some a })) :
    ∃ w', w.ctor_copy j = .ok w' ∧ w'.Accounted [] ∧
      w'.vars = w.vars ++ [some { mModel := some a }] := by
  obtain ⟨w1, hinc, hacc, hvars⟩ :=
    accounted_increment h (due_pos_of_var hv) (by simpa using hsz)
  refine ⟨{ cells := w1.cells, vars := w1.vars ++ [some { mModel := some a }] }, ?_,
    accounted_push hacc, by rw [hvars]⟩
  simp [World.ctor_copy, World.copy_of, handle_of_var hv, hinc, bind, Except.bind, pure,
    Except.pure]

theorem step_ctor_move {w : World T} {j a : Nat} (h : w.Accounted [])
    (hv : w.vars[j]? = some (some { mModel := some a })) :
    ∃ w', w.ctor_move j = .ok w' ∧ w'.Accounted [] ∧
      w'.vars = (w.vars.set j (some { mModel := none })) ++ [some { mModel := some a }] := by
  have h1 := accounted_setHandle (accounted_null_temp h) hv
  refine ⟨_, ?_, accounted_push h1, rfl⟩
  simp [World.ctor_move, handle_of_var hv, World.setHandle, bind, Except.bind, pure,
    Except.pure]

theorem step_dtor {w : World T} {i : Nat} {p : vcow_ptr} (h : w.Accounted [])
    (hsz : w.vars.length + 2 < SIZE_MOD) (hv : w.vars[i]? = some (some p)) :
    ∃ w', w.dtor i = .ok w' ∧ w'.Accounted [] ∧ w'.vars = w.vars.set i none := by
  have h1 := accounted_kill h hv
  have hsz1 : (({ cells := w.cells, vars := w.vars.set i none } : World T)).vars.length +
      ([] : List vcow_ptr).length + 2 < SIZE_MOD := by
    simp only [List.length_set, List.length_nil]
    omega
  obtain ⟨w1, hrel, hacc, hvars⟩ := accounted_release h1 hsz1
  rw [release_vars] at hrel
  cases hr : w.release p with
  | error e => simp [hr, Except.map] at hrel
  | ok w2 =>
    simp only [hr, Except.map, Except.ok.injEq] at hrel
    subst hrel
    have hw2 : w2.vars = w.vars := by
      have := release_vars w w.vars p
      have hself : ({ cells := w.cells, vars := w.vars } : World T) = w := rfl
      rw [hself, hr] at this
      simp only [Except.map, Except.ok.injEq] at this
      rw [this]
    refine ⟨_, ?_, hacc, rfl⟩
    simp [World.dtor, handle_of_var hv, hr, hw2, bind, Except.bind, pure, Except.pure]

theorem step_assign_copy {w : World T} {i j a : Nat} {q : vcow_ptr} (h : w.Accounted [])
    (hsz : w.vars.length + 2 < SIZE_MOD) (hi : w.vars[i]? = some (some q))
    (hj : w.vars[j]? = some (some { mModel := some a })) :
    ∃ w', w.assign_copy i j = .ok w' ∧ w'.Accounted [] ∧
      w'.vars = w.vars.set i (some { mModel := some a }) := by
  obtain ⟨w1, hinc, hacc, hvars⟩ :=
    accounted_increment h (due_pos_of_var hj) (by simpa using hsz)
  have hi1 : w1.vars[i]? = some (some q) := by rw [hvars]; exact hi
  obtain ⟨w', hat, hacc', hvars'⟩ := assign_temp_step hacc hi1 (by rw [hvars]; exact hsz)
  refine ⟨w', ?_, hacc', by rw [hvars', hvars]⟩
  simp only [World.assign_copy, handle_of_var hj, World.copy_of, hinc, bind, Except.bind,
    pure, Except.pure]
  exact hat

theorem step_assign_move {w : World T} {i j a : Nat} {q : vcow_ptr} (h : w.Accounted [])
    (hsz : w.vars.length + 2 < SIZE_MOD) (hi : w.vars[i]? = some (some q))
    (hj : w.vars[j]? = some (some { mModel := some a })) :
    ∃ w', w.assign_move i j = .ok w' ∧ w'.Accounted [] ∧
      w'.vars = (w.vars.set j (some { mModel := none })).set i
        (some { mModel := some a }) := by
  have h1 := accounted_setHandle (accounted_null_temp h) hj
  have hjlt : j < w.vars.length := by
    by_contra hlt
    rw [List.getElem?_eq_none (by omega)] at hj
    exact Option.noConfusion hj
  have hi1 : ∃ q1, (w.setHandle j { mModel := none }).vars[i]? = some (some q1) := by
    by_cases hij : i = j
    · subst hij
      exact ⟨{ mModel := none }, by simp [World.setHandle, hjlt]⟩
    · exact ⟨q, by simp [World.setHandle, List.getElem?_set_ne (Ne.symm hij), hi]⟩
  obtain ⟨q1, hq1⟩ := hi1
  have h2 := accounted_setHandle h1 hq1
  have hsz2 : (World.setHandle (w.setHandle j { mModel := none }) i
      { mModel := some a }).vars.length + ([] : List vcow_ptr).length + 2 < SIZE_MOD := by
    simp only [World.setHandle, List.length_set, List.length_nil]
    omega
  obtain ⟨w', hrel, hacc, hvars⟩ := accounted_release h2 hsz2
  refine ⟨w', ?_, hacc, hvars⟩
  simp only [World.assign_move, handle_of_var hj, handle_of_var hq1, bind, Except.bind]
  exact hrel

theorem step_swap {w : World T} {i j : Nat} {x y : vcow_ptr} (h : w.Accounted [])
    (hi : w.vars[i]? = some (some x)) (hj : w.vars[j]? = some (some y)) :
    ∃ w', w.swap i j = .ok w' ∧ w'.Accounted [] ∧
      w'.vars = (w.vars.set i (some y)).set j (some x) := by
  have hilt : i < w.vars.length := by
    by_contra hlt
    rw [List.getElem?_eq_none (by omega)] at hi
    exact Option.noConfusion hi
  have hj1 : (w.vars.set i (some y))[j]? = some (some y) := by
    by_cases hij : i = j
    · subst hij
      simp [hilt]
    · rw [List.getElem?_set_ne hij]
      exact hj
  refine ⟨(w.setHandle i y).setHandle j x, ?_, ?_, rfl⟩
  · simp [World.swap, handle_of_var hi, handle_of_var hj, bind, Except.bind, pure,
      Except.pure]
  · refine accounted_congr h rfl ?_
    intro a
    have c1 := count_set_add (x := some y) (some ({ mModel := some a } : vcow_ptr)) hi
    have c2 := count_set_add (x := some x) (some ({ mModel := some a } : vcow_ptr)) hj1
    simp only [beq_iff_eq, Option.some.injEq] at c1 c2
    simp only [World.holders, World.setHandle]
    omega

theorem step_write [Payload T] {w : World T} {i a : Nat} (h : w.Accounted [])
    (hsz : w.vars.length + 2 < SIZE_MOD)
    (hv : w.vars[i]? = some (some { mModel := some a })) :
    ∃ w' n, w.write i = .ok w' ∧ w'.Accounted [] ∧
      w'.vars = w.vars.set i (some { mModel := some n }) := by
  obtain ⟨c, hc, -⟩ := live_cell_of_due h (due_pos_of_var (t := []) hv)
  have hb : w.Bound i a c := ⟨hv, hc⟩
  by_cases h1 : c.mRef = 1
  · exact ⟨w, a, write_of_unique hb h1, h, (set_of_getElem? hv).symm⟩
  · have h2 := accounted_ctor_value h c.mValue
    have hi1 : (w.ctor_value c.mValue).2.vars[i]? = some (some { mModel := some a }) := hv
    obtain ⟨w', hat, hacc, hvars⟩ := assign_temp_step h2 hi1 hsz
    refine ⟨w', w.cells.length, ?_, hacc, hvars⟩
    simp only [World.write, unique_of_bound hb, read_of_bound hb, h1, bind, Except.bind,
      beq_iff_eq, if_false]
    exact hat

theorem lt_of_var {w : World T} {i : Nat} {o : Option vcow_ptr} (hv : w.vars[i]? = some o) :
    i < w.vars.length := by
  by_contra hlt
  rw [List.getElem?_eq_none (by omega)] at hv
  exact Option.noConfusion hv

theorem step_store [Payload T] {w : World T} {i a : Nat} (h : w.Accounted [])
    (hsz : w.vars.length + 2 < SIZE_MOD)
    (hv : w.vars[i]? = some (some { mModel := some a })) (v : T) :
    ∃ w', (HandleOp.store i v).run w = .ok w' ∧ w'.Accounted [] ∧
      w'.vars.length = w.vars.length := by
  obtain ⟨w1, n, hw, hacc, hvars⟩ := step_write h hsz hv
  have hv1 : w1.vars[i]? = some (some { mModel := some n }) := by
    rw [hvars]
    simp [lt_of_var hv]
  obtain ⟨c, hc, -⟩ := live_cell_of_due hacc (due_pos_of_var (t := []) hv1)
  have hb : w1.Bound i n c := ⟨hv1, hc⟩
  refine ⟨w1.setValue n v, ?_, accounted_setValue hacc n v, ?_⟩
  · simp [HandleOp.run, hw, World.update, handle_of_bound hb, cell_of_bound hb, bind,
      Except.bind, pure, Except.pure]
  · have hsv : (w1.setValue n v).vars = w1.vars := by
      unfold World.setValue
      cases w1.cells[n]? <;> rfl
    rw [hsv, hvars]
    simp

/-! ### The number of handle objects never decreases -/

theorem setRef_vars (w : World T) (a r : Nat) : (w.setRef a r).vars = w.vars := by
  unfold World.setRef
  cases w.cells[a]? <;> rfl

theorem deleteCell_vars {w w1 : World T} {a : Nat} (h : w.deleteCell a = .ok w1) :
    w1.vars = w.vars := by
  unfold World.deleteCell at h
  split at h
  · exact Except.noConfusion h
  · cases hc : w.cells[a]? with
    | none => simp [hc] at h
    | some c =>
      simp only [hc, Except.ok.injEq] at h
      subst h
      rfl

theorem increment_vars {w w1 : World T} {a : Nat} (h : w.increment a = .ok w1) :
    w1.vars = w.vars := by
  unfold World.increment at h
  obtain ⟨c, -, h2⟩ := bind_ok h
  simp only [pure, Except.pure, Except.ok.injEq] at h2
  subst h2
  exact setRef_vars w a _

theorem release_keeps_vars {w w1 : World T} {p : vcow_ptr} (h : w.release p = .ok w1) :
    w1.vars = w.vars := by
  unfold World.release at h
  cases hm : p.mModel with
  | none =>
    simp only [hm, Except.ok.injEq] at h
    subst h
    rfl
  | some a =>
    simp only [hm] at h
    obtain ⟨c, -, h2⟩ := bind_ok h
    split at h2
    · rw [deleteCell_vars h2]
      exact setRef_vars w a _
    · simp only [pure, Except.pure, Except.ok.injEq] at h2
      subst h2
      exact setRef_vars w a _

theorem copy_of_vars {w w1 : World T} {x p : vcow_ptr} (h : w.copy_of x = .ok (p, w1)) :
    w1.vars = w.vars := by
  unfold World.copy_of at h
  cases hm : x.mModel with
  | none => simp [hm] at h
  | some a =>
    simp only [hm] at h
    obtain ⟨w2, h1, h2⟩ := bind_ok h
    simp only [pure, Except.pure, Except.ok.injEq, Prod.mk.injEq] at h2
    rw [← h2.2]
    exact increment_vars h1

theorem assign_temp_length {w w1 : World T} {i : Nat} {x : vcow_ptr}
    (h : w.assign_temp i x = .ok w1) : w1.vars.length = w.vars.length := by
  unfold World.assign_temp at h
  cases hm : x.mModel with
  | none => simp [hm] at h
  | some a =>
    simp only [hm] at h
    obtain ⟨self, -, h2⟩ := bind_ok h
    rw [release_keeps_vars h2]
    simp [World.setHandle]

theorem write_length [Payload T] {w w1 : World T} {i : Nat} (h : w.write i = .ok w1) :
    w1.vars.length = w.vars.length := by
  unfold World.write at h
  obtain ⟨u, -, h2⟩ := bind_ok h
  cases u with
  | true =>
    simp only [if_true, pure, Except.pure, Except.ok.injEq] at h2
    subst h2
    rfl
  | false =>
    simp only [Bool.false_eq_true, if_false] at h2
    obtain ⟨v, -, h3⟩ := bind_ok h2
    rw [assign_temp_length h3]
    rfl

theorem update_vars {w w2 : World T} {i : Nat} {f : T → Except Fault T}
    (h : w.update i f = .ok w2) : w2.vars = w.vars := by
  unfold World.update at h
  obtain ⟨p, -, h2⟩ := bind_ok h
  cases hm : p.mModel with
  | none => simp [hm] at h2
  | some a =>
    simp only [hm] at h2
    obtain ⟨c, -, h3⟩ := bind_ok h2
    obtain ⟨v, -, h4⟩ := bind_ok h3
    simp only [pure, Except.pure, Except.ok.injEq] at h4
    subst h4
    unfold World.setValue
    cases w.cells[a]? <;> rfl

theorem handleOp_length [Payload T] {w w1 : World T} (op : HandleOp T)
    (h : op.run w = .ok w1) : w.vars.length ≤ w1.vars.length := by
  cases op with
  | ctor_default =>
    simp only [HandleOp.run, World.ctor_default] at h
    obtain ⟨w2, h1, h2⟩ := bind_ok h
    simp only [pure, Except.pure, Except.ok.injEq] at h2
    subst h2
    simp [increment_vars h1]
  | ctor_value v =>
    simp only [HandleOp.run, World.ctor_args, Except.ok.injEq] at h
    subst h
    simp [World.ctor_value]
  | ctor_copy j =>
    simp only [HandleOp.run, World.ctor_copy] at h
    obtain ⟨x, -, h2⟩ := bind_ok h
    obtain ⟨⟨p, w2⟩, h3, h4⟩ := bind_ok h2
    simp only [pure, Except.pure, Except.ok.injEq] at h4
    subst h4
    simp [copy_of_vars h3]
  | ctor_move j =>
    simp only [HandleOp.run, World.ctor_move] at h
    obtain ⟨x, -, h2⟩ := bind_ok h
    cases hm : x.mModel with
    | none => simp [hm] at h2
    | some a =>
      simp only [hm, pure, Except.pure, Except.ok.injEq] at h2
      subst h2
      simp
  | dtor i =>
    simp only [HandleOp.run, World.dtor] at h
    obtain ⟨p, -, h2⟩ := bind_ok h
    obtain ⟨w2, h3, h4⟩ := bind_ok h2
    simp only [pure, Except.pure, Except.ok.injEq] at h4
    subst h4
    simp [release_keeps_vars h3]
  | assign_copy i j =>
    simp only [HandleOp.run, World.assign_copy] at h
    obtain ⟨x, -, h2⟩ := bind_ok h
    obtain ⟨⟨p, w2⟩, h3, h4⟩ := bind_ok h2
    rw [assign_temp_length h4, copy_of_vars h3]
  | assign_move i j =>
    simp only [HandleOp.run, World.assign_move] at h
    obtain ⟨x, -, h2⟩ := bind_ok h
    cases hm : x.mModel with
    | none => simp [hm] at h2
    | some a =>
      simp only [hm] at h2
      obtain ⟨self, -, h3⟩ := bind_ok h2
      rw [release_keeps_vars h3]
      simp [World.setHandle]
  | swap i j =>
    simp only [HandleOp.run, World.swap] at h
    obtain ⟨x, -, h2⟩ := bind_ok h
    obtain ⟨y, -, h3⟩ := bind_ok h2
    simp only [pure, Except.pure, Except.ok.injEq] at h3
    subst h3
    simp [World.setHandle]
  | write i =>
    exact le_of_eq (write_length h).symm
  | store i v =>
    simp only [HandleOp.run] at h
    obtain ⟨w2, h1, h2⟩ := bind_ok h
    rw [update_vars h2]
    exact le_of_eq (write_length h1).symm

theorem runHandleOps_length [Payload T] (ops : List (HandleOp T)) {w w1 : World T}
    (h : runHandleOps ops w = .ok w1) : w.vars.length ≤ w1.vars.length := by
  induction ops generalizing w with
  | nil =>
    simp only [runHandleOps, Except.ok.injEq] at h
    subst h
    exact le_refl _
  | cons op ops ih =>
    simp only [runHandleOps] at h
    obtain ⟨w2, h1, h2⟩ := bind_ok h
    exact le_trans (handleOp_length op h1) (ih h2)

/-! ### The accounting holds in every reachable state -/

theorem var_of_handle {w : World T} {i : Nat} {p : vcow_ptr} (h : w.handle i = .ok p) :
    w.vars[i]? = some (some p) := by
  unfold World.handle at h
  cases hv : w.vars[i]? with
  | none => simp [hv] at h
  | some o =>
    cases o with
    | none => simp [hv] at h
    | some q =>
      simp only [hv, Except.ok.injEq] at h
      rw [h]

theorem nonNull_of_copy_of {w w2 : World T} {j : Nat} {x p : vcow_ptr}
    (hv : w.vars[j]? = some (some x)) (h : w.copy_of x = .ok (p, w2)) : w.NonNull j := by
  cases x with
  | mk m =>
    cases m with
    | none => simp [World.copy_of] at h
    | some a => exact ⟨a, hv⟩

theorem nonNull_of_count {w : World T} {i n : Nat} (h : w.count i = .ok n) :
    w.NonNull i := by
  unfold World.count at h
  obtain ⟨p, hp, h2⟩ := bind_ok h
  have hv := var_of_handle hp
  cases p with
  | mk m =>
    cases m with
    | none => simp at h2
    | some a => exact ⟨a, hv⟩

theorem handleOp_admissible_of_ok [Payload T] {w w1 : World T} (op : HandleOp T)
    (h : op.run w = .ok w1) : op.Admissible w := by
  cases op with
  | ctor_default => exact True.intro
  | ctor_value v => exact True.intro
  | ctor_copy j =>
    simp only [HandleOp.run, World.ctor_copy] at h
    obtain ⟨x, hx, h2⟩ := bind_ok h
    obtain ⟨⟨p, w2⟩, h3, -⟩ := bind_ok h2
    exact nonNull_of_copy_of (var_of_handle hx) h3
  | ctor_move j =>
    simp only [HandleOp.run, World.ctor_move] at h
    obtain ⟨x, hx, h2⟩ := bind_ok h
    have hv := var_of_handle hx
    cases x with
    | mk m =>
      cases m with
      | none => simp at h2
      | some a => exact ⟨a, hv⟩
  | dtor i =>
    simp only [HandleOp.run, World.dtor] at h
    obtain ⟨p, hp, -⟩ := bind_ok h
    exact ⟨p, var_of_handle hp⟩
  | assign_copy i j =>
    simp only [HandleOp.run, World.assign_copy] at h
    obtain ⟨x, hx, h2⟩ := bind_ok h
    obtain ⟨⟨p, w2⟩, h3, h4⟩ := bind_ok h2
    refine ⟨?_, nonNull_of_copy_of (var_of_handle hx) h3⟩
    simp only [World.assign_temp] at h4
    cases hm : p.mModel with
    | none => simp [hm] at h4
    | some a =>
      simp only [hm] at h4
      obtain ⟨self, hs, -⟩ := bind_ok h4
      have hv := var_of_handle hs
      rw [copy_of_vars h3] at hv
      exact ⟨self, hv⟩
  | assign_move i j =>
    simp only [HandleOp.run, World.assign_move] at h
    obtain ⟨x, hx, h2⟩ := bind_ok h
    have hv := var_of_handle hx
    cases x with
    | mk m =>
      cases m with
      | none => simp at h2
      | some a =>
        simp only at h2
        obtain ⟨self, hs, -⟩ := bind_ok h2
        have hs2 := var_of_handle hs
        refine ⟨?_, a, hv⟩
        by_cases hij : i = j
        · subst hij
          exact ⟨_, hv⟩
        · simp only [World.setHandle] at hs2
          rw [List.getElem?_set_ne (Ne.symm hij)] at hs2
          exact ⟨self, hs2⟩
  | swap i j =>
    simp only [HandleOp.run, World.swap] at h
    obtain ⟨x, hx, h2⟩ := bind_ok h
    obtain ⟨y, hy, -⟩ := bind_ok h2
    exact ⟨⟨x, var_of_handle hx⟩, ⟨y, var_of_handle hy⟩⟩
  | write i =>
    simp only [HandleOp.run, World.write] at h
    obtain ⟨u, hu, -⟩ := bind_ok h
    unfold World.unique at hu
    obtain ⟨n, hn, -⟩ := bind_ok hu
    exact nonNull_of_count hn
  | store i v =>
    simp only [HandleOp.run] at h
    obtain ⟨w2, h1, -⟩ := bind_ok h
    unfold World.write at h1
    obtain ⟨u, hu, -⟩ := bind_ok h1
    unfold World.unique at hu
    obtain ⟨n, hn, -⟩ := bind_ok hu
    exact nonNull_of_count hn

theorem handleOp_total [Payload T] {w : World T} (op : HandleOp T) (h : w.Accounted [])
    (hsz : w.vars.length + 2 < SIZE_MOD) (ha : op.Admissible w) :
    ∃ w', op.run w = .ok w' ∧ w'.Accounted [] := by
  cases op with
  | ctor_default =>
    obtain ⟨w', h1, h2, -⟩ := step_ctor_default h hsz
    exact ⟨w', h1, h2⟩
  | ctor_value v =>
    obtain ⟨w', h1, h2, -⟩ := step_ctor_args h v
    exact ⟨w', h1, h2⟩
  | ctor_copy j =>
    obtain ⟨a, hj⟩ := ha
    obtain ⟨w', h1, h2, -⟩ := step_ctor_copy h hsz hj
    exact ⟨w', h1, h2⟩
  | ctor_move j =>
    obtain ⟨a, hj⟩ := ha
    obtain ⟨w', h1, h2, -⟩ := step_ctor_move h hj
    exact ⟨w', h1, h2⟩
  | dtor i =>
    obtain ⟨p, hp⟩ := ha
    obtain ⟨w', h1, h2, -⟩ := step_dtor h hsz hp
    exact ⟨w', h1, h2⟩
  | assign_copy i j =>
    obtain ⟨⟨q, hq⟩, a, hj⟩ := ha
    obtain ⟨w', h1, h2, -⟩ := step_assign_copy h hsz hq hj
    exact ⟨w', h1, h2⟩
  | assign_move i j =>
    obtain ⟨⟨q, hq⟩, a, hj⟩ := ha
    obtain ⟨w', h1, h2, -⟩ := step_assign_move h hsz hq hj
    exact ⟨w', h1, h2⟩
  | swap i j =>
    obtain ⟨⟨x, hx⟩, y, hy⟩ := ha
    obtain ⟨w', h1, h2, -⟩ := step_swap h hx hy
    exact ⟨w', h1, h2⟩
  | write i =>
    obtain ⟨a, hi⟩ := ha
    obtain ⟨w', n, h1, h2, -⟩ := step_write h hsz hi
    exact ⟨w', h1, h2⟩
  | store i v =>
    obtain ⟨a, hi⟩ := ha
    obtain ⟨w', h1, h2, -⟩ := step_store h hsz hi v
    exact ⟨w', h1, h2⟩

theorem handleOp_accounted [Payload T] {w w1 : World T} (op : HandleOp T)
    (h : w.Accounted []) (hsz : w.vars.length + 2 < SIZE_MOD) (hr : op.run w = .ok w1) :
    w1.Accounted [] := by
  obtain ⟨w', h1, h2⟩ := handleOp_total op h hsz (handleOp_admissible_of_ok op hr)
  rw [hr] at h1
  simp only [Except.ok.injEq] at h1
  rw [h1]
  exact h2

theorem runHandleOps_accounted [Payload T] (ops : List (HandleOp T)) {w w1 : World T}
    (h : w.Accounted []) (hr : runHandleOps ops w = .ok w1)
    (hsz : w1.vars.length + 2 < SIZE_MOD) : w1.Accounted [] := by
  induction ops generalizing w with
  | nil =>
    simp only [runHandleOps, Except.ok.injEq] at hr
    subst hr
    exact h
  | cons op ops ih =>
    simp only [runHandleOps] at hr
    obtain ⟨w2, h1, h2⟩ := bind_ok hr
    have hlen := runHandleOps_length ops h2
    have hlen1 := handleOp_length op h1
    exact ih (handleOp_accounted op h (by omega) h1) h2

theorem initial_accounted [Payload T] : (World.initial : World T).Accounted [] where
  static := by simp [World.initial]
  counts := by
    intro a c hc
    cases a with
    | zero =>
      simp only [World.initial, List.getElem?_cons_zero, Option.some.injEq] at hc
      subst hc
      simp [World.due, World.holders, World.initial]
    | succ n => simp [World.initial] at hc
  freed := by
    intro a c hc
    cases a with
    | zero =>
      simp only [World.initial, List.getElem?_cons_zero, Option.some.injEq] at hc
      subst hc
      simp
    | succ n => simp [World.initial] at hc
  alloc := by
    intro a _
    simp [World.holders, World.initial]

theorem reachable_accounted [Payload T] (ops : List (HandleOp T)) {w : World T}
    (hr : runHandleOps ops World.initial = .ok w) (hsz : w.vars.length + 2 < SIZE_MOD) :
    w.Accounted [] :=
  runHandleOps_accounted ops initial_accounted hr hsz

/-! ### What the accounting says of the cells -/

theorem handleSample_reachable :
    runHandleOps [HandleOp.ctor_default, HandleOp.ctor_value linePayload,
      HandleOp.ctor_copy 1, HandleOp.store 2 dotPayload, HandleOp.assign_copy 0 1,
      HandleOp.dtor 2] (World.initial : Paths Int) = .ok handleSample := rfl

theorem allDestroyed_reachable :
    runHandleOps [HandleOp.ctor_default, HandleOp.ctor_default, HandleOp.dtor 0,
      HandleOp.dtor 1] (World.initial : Paths Int) = .ok allDestroyed := rfl

theorem static_of_accounted {w : World T} (h : w.Accounted []) :
    ∃ c0 : Cell T, w.cells[0]? = some c0 ∧ c0.deleted = false ∧
      c0.obj.mRef = 1 + w.vars.count (some { mModel := some 0 }) := by
  have hs : 0 < w.cells.length := h.static
  obtain ⟨c0, hc⟩ : ∃ c0, w.cells[0]? = some c0 := ⟨_, List.getElem?_eq_getElem hs⟩
  have hcount := h.counts 0 _ hc
  have hfreed := h.freed 0 _ hc
  simp only [World.due, World.holders, List.count_nil, if_true] at hcount
  refine ⟨c0, hc, ?_, by omega⟩
  cases hd : c0.deleted with
  | false => rfl
  | true =>
    have := hfreed.mp hd
    omega

theorem heap_of_accounted {w : World T} (h : w.Accounted []) {a : Nat} {c : Cell T}
    (ha : 0 < a) (hc : w.cells[a]? = some c) :
    c.obj.mRef = w.vars.count (some { mModel := some a }) ∧
      (c.deleted = true ↔ w.vars.count (some { mModel := some a }) = 0) := by
  have hcount := h.counts a c hc
  have hfreed := h.freed a c hc
  have hne : a ≠ 0 := by omega
  simp only [World.due, World.holders, List.count_nil, hne, if_false] at hcount
  refine ⟨by omega, ?_⟩
  rw [hfreed]
  omega

theorem live_of_accounted {w : World T} (h : w.Accounted []) {i a : Nat}
    (hv : w.vars[i]? = some (some { mModel := some a })) :
    ∃ c : Cell T, w.cells[a]? = some c ∧ c.deleted = false ∧ 1 ≤ c.obj.mRef := by
  obtain ⟨c, hc, hm⟩ := live_cell_of_due h (due_pos_of_var (t := []) hv)
  have hpos := due_pos_of_var (t := []) hv
  exact ⟨_, hc, rfl, by simp only; omega⟩

/-- C16: in every state reached from the initial one by default construction, value
construction, copy and move construction, copy and move assignment, `swap`, `write()`
(and a store through the reference it returns) and destruction, with fewer than
`2 ^ 64 - 2` handle objects created: the count of `default_s` is one plus the number of
live handles bound to it, and `default_s` is not deleted; the count of every heap cell
is the number of live handles bound to it, and the cell is deleted exactly when no live
handle is bound to it; every live handle that is not null is bound to a cell that is
not deleted. -/
theorem reachable_counts_are_handles [Payload T] (ops : List (HandleOp T)) (w : World T)
    (hr : runHandleOps ops World.initial = .ok w) (hsz : w.vars.length + 2 < SIZE_MOD) :
    (∃ c0 : Cell T, w.cells[0]? = some c0 ∧ c0.deleted = false ∧
      c0.obj.mRef = 1 + w.vars.count (some { mModel := some 0 })) ∧
    (∀ (a : Nat) (c : Cell T), 0 < a → w.cells[a]? = some c →
      c.obj.mRef = w.vars.count (some { mModel := some a }) ∧
      (c.deleted = true ↔ w.vars.count (some { mModel := some a }) = 0)) ∧
    (∀ i a : Nat, w.vars[i]? = some (some { mModel := some a }) →
      ∃ c : Cell T, w.cells[a]? = some c ∧ c.deleted = false) := by
  have h := reachable_accounted ops hr hsz
  refine ⟨static_of_accounted h, fun a c ha hc => heap_of_accounted h ha hc, ?_⟩
  intro i a hv
  obtain ⟨c, hc, hd, -⟩ := live_of_accounted h hv
  exact ⟨c, hc, hd⟩

/-- C16, after `vcow_ptr<T> h0; vcow_ptr<T> h1(line); vcow_ptr<T> h2(h1);
h2.write() = dot; h0 = h1;` and the destruction of `h2`: `default_s` has count 1, the
cell of `line` count 2 for `h0` and `h1`, the cell of `dot` is deleted. -/
theorem reachable_counts_are_handles_witness :
    runHandleOps [HandleOp.ctor_default, HandleOp.ctor_value linePayload,
      HandleOp.ctor_copy 1, HandleOp.store 2 dotPayload, HandleOp.assign_copy 0 1,
      HandleOp.dtor 2] (World.initial : Paths Int) = .ok handleSample ∧
    handleSample.vars.length + 2 < SIZE_MOD ∧
    ((∃ c0 : Cell (VPathData Int), handleSample.cells[0]? = some c0 ∧ c0.deleted = false ∧
      c0.obj.mRef = 1 + handleSample.vars.count (some { mModel := some 0 })) ∧
    (∀ (a : Nat) (c : Cell (VPathData Int)), 0 < a → handleSample.cells[a]? = some c →
      c.obj.mRef = handleSample.vars.count (some { mModel := some a }) ∧
      (c.deleted = true ↔ handleSample.vars.count (some { mModel := some a }) = 0)) ∧
    (∀ i a : Nat, handleSample.vars[i]? = some (some { mModel := some a }) →
      ∃ c : Cell (VPathData Int), handleSample.cells[a]? = some c ∧ c.deleted = false)) :=
  ⟨handleSample_reachable, by decide,
    reachable_counts_are_handles
      [HandleOp.ctor_default, HandleOp.ctor_value linePayload, HandleOp.ctor_copy 1,
        HandleOp.store 2 dotPayload, HandleOp.assign_copy 0 1, HandleOp.dtor 2]
      handleSample handleSample_reachable (by decide)⟩

/-- C17: in every state reached from the initial one by handle operations (with fewer
than `2 ^ 64 - 2` handle objects created) `default_s` is not deleted and its count is
at least 1, exactly 1 when no live handle is bound to it; `delete` on `default_s` is a
fault of the model, and every handle operation whose operands are within their
lifetime (and not null where the code asserts it), a destruction among them, returns
without fault, so it has not run `delete` on `default_s`, and leaves `default_s` not
deleted with a count of at least 1. -/
theorem static_cell_never_deleted [Payload T] (ops : List (HandleOp T)) (w : World T)
    (hr : runHandleOps ops World.initial = .ok w) (hsz : w.vars.length + 2 < SIZE_MOD) :
    (∃ c0 : Cell T, w.cells[0]? = some c0 ∧ c0.deleted = false ∧ 1 ≤ c0.obj.mRef ∧
      (w.vars.count (some { mModel := some 0 }) = 0 → c0.obj.mRef = 1)) ∧
    (∀ w0 : World T, w0.deleteCell 0 = .error .undefined) ∧
    (∀ op : HandleOp T, op.Admissible w →
      ∃ w', op.run w = .ok w' ∧
        ∃ c0 : Cell T, w'.cells[0]? = some c0 ∧ c0.deleted = false ∧ 1 ≤ c0.obj.mRef) := by
  have h := reachable_accounted ops hr hsz
  refine ⟨?_, fun w0 => rfl, ?_⟩
  · obtain ⟨c0, hc, hd, hm⟩ := static_of_accounted h
    exact ⟨c0, hc, hd, by omega, fun hz => by omega⟩
  · intro op ha
    obtain ⟨w', hrun, hacc⟩ := handleOp_total op h hsz ha
    obtain ⟨c0, hc, hd, hm⟩ := static_of_accounted hacc
    exact ⟨w', hrun, c0, hc, hd, by omega⟩

/-- C17, after `{ vcow_ptr<T> h0; vcow_ptr<T> h1; }`, every handle that was created
being destroyed: `default_s` is left with count 1. -/
theorem static_cell_never_deleted_witness :
    runHandleOps [HandleOp.ctor_default, HandleOp.ctor_default, HandleOp.dtor 0,
      HandleOp.dtor 1] (World.initial : Paths Int) = .ok allDestroyed ∧
    allDestroyed.vars.length + 2 < SIZE_MOD ∧
    ((∃ c0 : Cell (VPathData Int), allDestroyed.cells[0]? = some c0 ∧ c0.deleted = false ∧
      1 ≤ c0.obj.mRef ∧
      (allDestroyed.vars.count (some { mModel := some 0 }) = 0 → c0.obj.mRef = 1)) ∧
    (∀ w0 : Paths Int, w0.deleteCell 0 = .error .undefined) ∧
    (∀ op : HandleOp (VPathData Int), op.Admissible allDestroyed →
      ∃ w', op.run allDestroyed = .ok w' ∧
        ∃ c0 : Cell (VPathData Int), w'.cells[0]? = some c0 ∧ c0.deleted = false ∧
          1 ≤ c0.obj.mRef)) :=
  ⟨allDestroyed_reachable, by decide,
    static_cell_never_deleted
      [HandleOp.ctor_default, HandleOp.ctor_default, HandleOp.dtor 0, HandleOp.dtor 1]
      allDestroyed allDestroyed_reachable (by decide)⟩

/-! ### Handles bound to `default_s` -/

theorem ctor_default_replicate [Payload T] (n k : Nat) (v : T)
    (V : List (Option vcow_ptr)) (h : k + n < SIZE_MOD) :
    runHandleOps (List.replicate n HandleOp.ctor_default)
      ({ cells := [{ obj := { mRef := k, mValue := v }, deleted := false }],
         vars := V } : World T) =
      .ok { cells := [{ obj := { mRef := k + n, mValue := v }, deleted := false }],
            vars := V ++ List.replicate n (some { mModel := some 0 }) } := by
  induction n generalizing k V with
  | zero => simp [runHandleOps]
  | succ n ih =>
    have hk : incRef k = k + 1 := incRef_of_lt k (by omega)
    have hstep : World.ctor_default
        ({ cells := [{ obj := { mRef := k, mValue := v }, deleted := false }],
           vars := V } : World T) =
        .ok { cells := [{ obj := { mRef := k + 1, mValue := v }, deleted := false }],
              vars := V ++ [some { mModel := some 0 }] } := by
      simp [World.ctor_default, World.increment, World.cell, World.setRef, hk, bind,
        Except.bind, pure, Except.pure]
    have hih := ih (k + 1) (V ++ [some { mModel := some 0 }]) (by omega)
    simp only [List.replicate_succ, runHandleOps, HandleOp.run, hstep, bind, Except.bind]
    rw [hih]
    have e1 : k + 1 + n = k + (n + 1) := by omega
    rw [e1, List.append_assoc]
    rfl

theorem twoDefaults_by_handles :
    runHandleOps [HandleOp.ctor_default, HandleOp.ctor_default]
      (World.initial : Paths Int) = .ok twoDefaults := rfl

/-- C15, as stated, fails for `refCount() >= 2`: after `2 ^ 31 - 1` declarations
`vcow_ptr<T> h;` the count of `default_s` is `2 ^ 31`, which `int refCount()` returns
converted to `int`, a negative number. -/
theorem refCount_of_default_handle_negative :
    runHandleOps (List.replicate (2 ^ 31 - 1) HandleOp.ctor_default)
      (World.initial : Paths Int) = .ok manyDefaults ∧
    manyDefaults.vars[0]? = some (some { mModel := some 0 }) ∧
    manyDefaults.refCount 0 = .ok (-2147483648) := by
  have hv : manyDefaults.vars[0]? = some (some { mModel := some 0 }) := by
    simp only [manyDefaults, List.nil_append, List.getElem?_replicate]
    rw [if_pos (by decide)]
  refine ⟨ctor_default_replicate (2 ^ 31 - 1) 1 VPathData.default [] (by decide), hv, ?_⟩
  have hb : manyDefaults.Bound 0 0
      { mRef := 1 + (2 ^ 31 - 1), mValue := VPathData.default } := ⟨hv, rfl⟩
  rw [refCount_of_bound hb]
  have ht : toInt (1 + (2 ^ 31 - 1)) = -2147483648 := by decide
  exact congrArg Except.ok ht

/-- C15, amended: in every state reached from the initial one by handle operations
(with fewer than `2 ^ 64 - 2` handle objects created) `default_s` exists and is not
deleted; a default construction returns, binds the new handle to `default_s` and
raises its count by one, changing no other cell; and for every live handle bound to
`default_s` the count is at least 2, `unique()` is false, `refCount()` is at least 2
as long as the count is below `2 ^ 31`, and `write()` allocates a fresh cell with the
copy-constructed payload and count 1 and binds the handle to it, `default_s` keeping
its payload with a count one less. -/
theorem default_cell_never_exclusive [Payload T] (ops : List (HandleOp T)) (w : World T)
    (hr : runHandleOps ops World.initial = .ok w) (hsz : w.vars.length + 2 < SIZE_MOD) :
    ∃ c0 : model T, w.cells[0]? = some { obj := c0, deleted := false } ∧
      (∃ w', w.ctor_default = .ok w' ∧
        w'.vars = w.vars ++ [some { mModel := some 0 }] ∧
        w'.cells = w.cells.set 0
          { obj := { mRef := c0.mRef + 1, mValue := c0.mValue }, deleted := false }) ∧
      (∀ i, w.vars[i]? = some (some { mModel := some 0 }) →
        2 ≤ c0.mRef ∧ w.unique i = .ok false ∧
        (c0.mRef < 2 ^ 31 → ∃ n : Int, w.refCount i = .ok n ∧ 2 ≤ n) ∧
        ∃ w', w.write i = .ok w' ∧ w'.cells.length = w.cells.length + 1 ∧
          w'.Bound i w.cells.length
            { mRef := 1, mValue := Payload.copyValue c0.mValue } ∧
          w'.cells[0]? = some { obj := { mRef := c0.mRef - 1, mValue := c0.mValue },
                                deleted := false }) := by
  have h := reachable_accounted ops hr hsz
  obtain ⟨cl, hc, hd, hm⟩ := static_of_accounted h
  have hle : w.vars.count (some { mModel := some 0 }) ≤ w.vars.length :=
    List.count_le_length _ _
  cases cl with
  | mk obj del =>
    simp only at hd hm
    subst hd
    have hinc : incRef obj.mRef = obj.mRef + 1 := incRef_of_lt _ (by omega)
    have hcd : w.ctor_default = .ok
        { cells := w.cells.set 0
            { obj := { mRef := obj.mRef + 1, mValue := obj.mValue }, deleted := false },
          vars := w.vars ++ [some { mModel := some 0 }] } := by
      simp [World.ctor_default, increment_of_cell hc, hinc, bind, Except.bind, pure,
        Except.pure]
    refine ⟨obj, hc, ⟨_, hcd, rfl, rfl⟩, ?_⟩
    · intro i hv
      have hmem : some ({ mModel := some 0 } : vcow_ptr) ∈ w.vars := List.getElem?_mem hv
      have hpos := List.count_pos_iff.mpr hmem
      have h2 : 2 ≤ obj.mRef := by omega
      have hb : w.Bound i 0 obj := ⟨hv, hc⟩
      have hne : obj.mRef ≠ 1 := by omega
      have hs := h.static
      have hi := lt_of_var hv
      refine ⟨h2, ?_, ?_, _, write_of_shared hb hne (by omega) (by omega), ?_, ?_, ?_⟩
      · rw [unique_of_bound hb]
        simp [hne]
      · intro hsmall
        refine ⟨(obj.mRef : Int), ?_, by omega⟩
        rw [refCount_of_bound hb, toInt_of_small _ hsmall]
      · simp
      · constructor
        · simp [hi]
        · have hn : (0 : Nat) ≠ w.cells.length := by omega
          simp [List.getElem?_set_ne hn]
      · have hlt : 0 < w.cells.length + 1 := by omega
        simp [hlt]

/-- C15, amended, at `vcow_ptr<T> h0; vcow_ptr<T> h1;`: the count of `default_s`
is 3. -/
theorem default_cell_never_exclusive_witness :
    runHandleOps [HandleOp.ctor_default, HandleOp.ctor_default]
      (World.initial : Paths Int) = .ok twoDefaults ∧
    twoDefaults.vars.length + 2 < SIZE_MOD ∧
    ∃ c0 : model (VPathData Int),
      twoDefaults.cells[0]? = some { obj := c0, deleted := false } ∧
      (∃ w', twoDefaults.ctor_default = .ok w' ∧
        w'.vars = twoDefaults.vars ++ [some { mModel := some 0 }] ∧
        w'.cells = twoDefaults.cells.set 0
          { obj := { mRef := c0.mRef + 1, mValue := c0.mValue }, deleted := false }) ∧
      (∀ i, twoDefaults.vars[i]? = some (some { mModel := some 0 }) →
        2 ≤ c0.mRef ∧ twoDefaults.unique i = .ok false ∧
        (c0.mRef < 2 ^ 31 → ∃ n : Int, twoDefaults.refCount i = .ok n ∧ 2 ≤ n) ∧
        ∃ w', twoDefaults.write i = .ok w' ∧
          w'.cells.length = twoDefaults.cells.length + 1 ∧
          w'.Bound i twoDefaults.cells.length
            { mRef := 1, mValue := Payload.copyValue c0.mValue } ∧
          w'.cells[0]? = some { obj := { mRef := c0.mRef - 1, mValue := c0.mValue },
                                deleted := false }) :=
  ⟨twoDefaults_by_handles, by decide,
    default_cell_never_exclusive [HandleOp.ctor_default, HandleOp.ctor_default]
      twoDefaults twoDefaults_by_handles (by decide)⟩

/-! ### `reset()` -/

theorem payload_reset_ok [Zero F] (d : VPathData F) :
    ∃ v, d.reset = .ok v ∧ v.empty = true :=
  ⟨_, rfl, rfl⟩

/-- C14, as stated, fails for a path that shares its cell: `reset()` goes through
`write()`.  After `VPath p0; VPath p1;` both paths are bound to `default_s`, count 3;
`p1.reset()` allocates a cell, binds `p1` to it and lowers the count of `default_s`
to 2. -/
theorem reset_of_shared_path_allocates :
    twoDefaults.addr 1 = some 0 ∧ twoDefaults.cells.length = 1 ∧
    twoDefaults.cells[0]? =
      some { obj := { mRef := 3, mValue := VPathData.default }, deleted := false } ∧
    VPath.reset twoDefaults 1 = .ok oneReset ∧
    oneReset.addr 1 = some 1 ∧ oneReset.cells.length = 2 ∧
    oneReset.cells[0]? =
      some { obj := { mRef := 2, mValue := VPathData.default }, deleted := false } :=
  ⟨rfl, rfl, rfl, rfl, rfl, rfl, rfl⟩

/-- C14, amended: for a path `p` bound to a live cell (whose count, a count of handles
that includes `p`, is at least 1), `p.reset()` returns and `p.empty()` is true after
it.  If `p` is the only owner of its cell (count 1), `p` is bound to the same cell as
before, no cell is allocated, no count and no handle changes, and only the payload of
that cell is replaced by the reset one.  Otherwise `reset()` allocates exactly one
cell, with count 1 and the reset copy of the payload, and binds `p` to it; the count
of the cell `p` was bound to is one less, its payload is kept, and no other cell and
no other handle changes. -/
theorem reset_contract [Zero F] (w : Paths F) (i a : Nat) (c : model (VPathData F))
    (hb : w.Bound i a c) (hpos : 1 ≤ c.mRef) (hrep : c.mRef < SIZE_MOD) :
    (c.mRef = 1 → ∃ w' v, VPath.reset w i = .ok w' ∧ c.mValue.reset = .ok v ∧
      w'.vars = w.vars ∧
      w'.cells = w.cells.set a
        { obj := { mRef := c.mRef, mValue := v }, deleted := false } ∧
      w'.Bound i a { mRef := c.mRef, mValue := v } ∧
      VPath.empty w' i = .ok true) ∧
    (c.mRef ≠ 1 → ∃ w' v, VPath.reset w i = .ok w' ∧ c.mValue.copy.reset = .ok v ∧
      w'.cells.length = w.cells.length + 1 ∧
      w'.Bound i w.cells.length { mRef := 1, mValue := v } ∧
      w'.cells[a]? = some { obj := { mRef := c.mRef - 1, mValue := c.mValue },
                            deleted := false } ∧
      (∀ b, b ≠ a → b < w.cells.length → w'.cells[b]? = w.cells[b]?) ∧
      (∀ k, k ≠ i → w'.vars[k]? = w.vars[k]?) ∧
      VPath.empty w' i = .ok true) := by
  have hlt := addr_lt_of_bound hb
  have hi := index_lt_of_bound hb
  constructor
  · intro h1
    obtain ⟨v, hv, hev⟩ := payload_reset_ok c.mValue
    have happ : Mutator.reset.apply c.mValue = .ok v := hv
    have hm : VPath.reset w i = .ok
        { cells := w.cells.set a { obj := { mRef := 1, mValue := v }, deleted := false },
          vars := w.vars } := by
      unfold VPath.reset
      rw [mutate_of_unique hb h1, happ]
      rfl
    rw [h1]
    have hb2 : World.Bound
        ({ cells := w.cells.set a { obj := { mRef := 1, mValue := v }, deleted := false },
           vars := w.vars } : Paths F) i a { mRef := 1, mValue := v } :=
      ⟨hb.1, by simp [hlt]⟩
    refine ⟨_, v, hm, hv, rfl, rfl, hb2, ?_⟩
    rw [empty_of_bound hb2]
    exact congrArg Except.ok hev
  · intro h1
    obtain ⟨v, hv, hev⟩ := payload_reset_ok c.mValue.copy
    have happ : Mutator.reset.apply c.mValue.copy = .ok v := hv
    have hm : VPath.reset w i = .ok
        { cells := ((w.cells ++
            [({ obj := { mRef := 1, mValue := c.mValue.copy }, deleted := false } :
              Cell (VPathData F))]).set
            a { obj := { mRef := c.mRef - 1, mValue := c.mValue }, deleted := false }).set
            w.cells.length { obj := { mRef := 1, mValue := v }, deleted := false },
          vars := w.vars.set i (some { mModel := some w.cells.length }) } := by
      unfold VPath.reset
      rw [mutate_of_shared hb h1 hpos hrep, happ]
      rfl
    have hne : a ≠ w.cells.length := by omega
    have hb2 : World.Bound
        ({ cells := ((w.cells ++
            [({ obj := { mRef := 1, mValue := c.mValue.copy }, deleted := false } :
              Cell (VPathData F))]).set
            a { obj := { mRef := c.mRef - 1, mValue := c.mValue }, deleted := false }).set
            w.cells.length { obj := { mRef := 1, mValue := v }, deleted := false },
           vars := w.vars.set i (some { mModel := some w.cells.length }) } : Paths F)
        i w.cells.length { mRef := 1, mValue := v } := by
      constructor
      · simp [hi]
      · simp
    refine ⟨_, v, hm, hv, ?_, hb2, ?_, ?_, ?_, ?_⟩
    · simp
    · have hlt2 : a < w.cells.length + 1 := by omega
      simp [List.getElem?_set_ne (Ne.symm hne), hlt2]
    · intro b hba hbl
      have hbn : b ≠ w.cells.length := by omega
      simp [List.getElem?_set_ne (Ne.symm hbn), List.getElem?_set_ne (Ne.symm hba),
        List.getElem?_append_left hbl]
    · intro k hk
      simp [List.getElem?_set_ne (Ne.symm hk)]
    · rw [empty_of_bound hb2]
      exact congrArg Except.ok hev

/-- C14, amended, at `VPath p0; VPath p1; p1.moveTo(0, 0); p1.lineTo(10, 0);` with
`p1.reset()`: `p1` is the only owner of its cell and stays bound to it. -/
theorem reset_contract_witness :
    ((1 : Nat) = 1 → ∃ w' v, VPath.reset oneLine 1 = .ok w' ∧ linePayload.reset = .ok v ∧
      w'.vars = oneLine.vars ∧
      w'.cells = oneLine.cells.set 1
        { obj := { mRef := 1, mValue := v }, deleted := false } ∧
      w'.Bound 1 1 { mRef := 1, mValue := v } ∧
      VPath.empty w' 1 = .ok true) ∧
    ((1 : Nat) ≠ 1 → ∃ w' v, VPath.reset oneLine 1 = .ok w' ∧
      linePayload.copy.reset = .ok v ∧
      w'.cells.length = oneLine.cells.length + 1 ∧
      w'.Bound 1 oneLine.cells.length { mRef := 1, mValue := v } ∧
      w'.cells[1]? = some { obj := { mRef := 1 - 1, mValue := linePayload },
                            deleted := false } ∧
      (∀ b, b ≠ 1 → b < oneLine.cells.length → w'.cells[b]? = oneLine.cells[b]?) ∧
      (∀ k, k ≠ 1 → w'.vars[k]? = oneLine.vars[k]?) ∧
      VPath.empty w' 1 = .ok true) :=
  reset_contract oneLine 1 1 { mRef := 1, mValue := linePayload } ⟨rfl, rfl⟩ (by decide)
    (by decide)

/-! ### `clone` -/

/-- C18 fails on the code when the source is the receiver itself.  After `VPath p0;
VPath p1; p1.moveTo(0, 0); p1.lineTo(10, 0); p0.moveTo(5, 5);` the path `p1` holds a
MoveTo and a LineTo with two points; `p1.clone(p1)` runs `reset()` on `p1` before
`addPath` reads the source, finds the source empty and returns: `p1` is left with no
element and no point. -/
theorem clone_of_itself_empties :
    VPath.elements twoOwners 1 = .ok [Element.MoveTo, Element.LineTo] ∧
    VPath.points twoOwners 1 = .ok [{ x := 0, y := 0 }, { x := 10, y := 0 }] ∧
    ∃ w', VPath.clone twoOwners 1 1 = .ok w' ∧
      VPath.elements w' 1 = .ok [] ∧ VPath.points w' 1 = .ok [] :=
  ⟨rfl, rfl, _, rfl, rfl, rfl⟩

theorem payload_reset_post [Zero F] (d : VPathData F) :
    ∃ v, d.reset = .ok v ∧ v.elements = [] ∧ v.points = [] ∧ v.segments = 0 :=
  ⟨_, rfl, rfl, rfl, rfl⟩

theorem reset_post [Zero F] {w : Paths F} {i j a b : Nat} {c cb : model (VPathData F)}
    (hbi : w.Bound i a c) (hbj : w.Bound j b cb) (hij : i ≠ j) (hpos : 1 ≤ c.mRef)
    (hrep : c.mRef < SIZE_MOD) (hshare : a = b → 2 ≤ c.mRef)
    (hstatic : a = 0 → 2 ≤ c.mRef) :
    ∃ w1 n v r, VPath.reset w i = .ok w1 ∧ w1.Bound i n { mRef := 1, mValue := v } ∧
      v.elements = [] ∧ v.points = [] ∧ v.segments = 0 ∧
      w1.Bound j b { mRef := r, mValue := cb.mValue } ∧ n ≠ b ∧ n ≠ 0 := by
  have hlta := addr_lt_of_bound hbi
  have hltb := addr_lt_of_bound hbj
  have hi := index_lt_of_bound hbi
  by_cases h1 : c.mRef = 1
  · have hab : a ≠ b := fun e => by
      have := hshare e
      omega
    have ha0 : a ≠ 0 := fun e => by
      have := hstatic e
      omega
    obtain ⟨v, hv, hel, hpt, hsg⟩ := payload_reset_post c.mValue
    have happ : Mutator.reset.apply c.mValue = .ok v := hv
    have hm : VPath.reset w i = .ok
        { cells := w.cells.set a { obj := { mRef := 1, mValue := v }, deleted := false },
          vars := w.vars } := by
      unfold VPath.reset
      rw [mutate_of_unique hbi h1, happ]
      rfl
    refine ⟨_, a, v, cb.mRef, hm, ⟨hbi.1, by simp [hlta]⟩, hel, hpt, hsg, ⟨hbj.1, ?_⟩, hab,
      ha0⟩
    show (w.cells.set a _)[b]? = _
    rw [List.getElem?_set_ne hab]
    exact hbj.2
  · obtain ⟨v, hv, hel, hpt, hsg⟩ := payload_reset_post c.mValue.copy
    have happ : Mutator.reset.apply c.mValue.copy = .ok v := hv
    have hm : VPath.reset w i = .ok
        { cells := ((w.cells ++
            [({ obj := { mRef := 1, mValue := c.mValue.copy }, deleted := false } :
              Cell (VPathData F))]).set
            a { obj := { mRef := c.mRef - 1, mValue := c.mValue }, deleted := false }).set
            w.cells.length { obj := { mRef := 1, mValue := v }, deleted := false },
          vars := w.vars.set i (some { mModel := some w.cells.length }) } := by
      unfold VPath.reset
      rw [mutate_of_shared hbi h1 hpos hrep, happ]
      rfl
    have hbl : b ≠ w.cells.length := by omega
    have hjv : (w.vars.set i (some { mModel := some w.cells.length }))[j]? =
        some (some { mModel := some b }) := by
      rw [List.getElem?_set_ne hij]
      exact hbj.1
    have hbi2 : World.Bound
        ({ cells := ((w.cells ++
            [({ obj := { mRef := 1, mValue := c.mValue.copy }, deleted := false } :
              Cell (VPathData F))]).set
            a { obj := { mRef := c.mRef - 1, mValue := c.mValue }, deleted := false }).set
            w.cells.length { obj := { mRef := 1, mValue := v }, deleted := false },
           vars := w.vars.set i (some { mModel := some w.cells.length }) } : Paths F)
        i w.cells.length { mRef := 1, mValue := v } := by
      constructor
      · simp [hi]
      · simp
    by_cases hab : a = b
    · subst hab
      have hcc : c = cb := by
        have h := hbi.2
        rw [hbj.2] at h
        simp only [Option.some.injEq, Cell.mk.injEq, and_true] at h
        exact h.symm
      subst hcc
      refine ⟨_, w.cells.length, v, c.mRef - 1, hm, hbi2, hel, hpt, hsg, ⟨hjv, ?_⟩,
        Ne.symm hbl, by omega⟩
      have hlt2 : a < w.cells.length + 1 := by omega
      simp [List.getElem?_set_ne (Ne.symm hbl), hlt2]
    · refine ⟨_, w.cells.length, v, cb.mRef, hm, hbi2, hel, hpt, hsg, ⟨hjv, ?_⟩,
        Ne.symm hbl, by omega⟩
      have h := hbj.2
      simp [List.getElem?_set_ne (Ne.symm hbl), List.getElem?_set_ne hab,
        List.getElem?_append_left hltb, h]

/-- For a source that is another object than the receiver, `clone` gives the receiver
the elements and points of the source and leaves the source's as they were: the
receiver and the source are bound to live cells, the receiver's count is a count of
handles (at least 2 when it is bound to the source's cell or to `default_s`), and the
source's payload satisfies I1 with `segments()` in the range of `int`. -/
theorem clone_of_other_object [Zero F] (w : Paths F) (i j a b : Nat)
    (c cb : model (VPathData F)) (hbi : w.Bound i a c) (hbj : w.Bound j b cb)
    (hij : i ≠ j) (hpos : 1 ≤ c.mRef) (hrep : c.mRef < SIZE_MOD)
    (hshare : a = b → 2 ≤ c.mRef) (hstatic : a = 0 → 2 ≤ c.mRef) (hI1 : I1 cb.mValue)
    (hseg1 : -INT_MAX - 1 ≤ cb.mValue.segments) (hseg2 : cb.mValue.segments ≤ INT_MAX) :
    ∃ w', VPath.clone w i j = .ok w' ∧
      VPath.elements w' i = .ok cb.mValue.elements ∧
      VPath.points w' i = .ok cb.mValue.points ∧
      VPath.elements w' j = .ok cb.mValue.elements ∧
      VPath.points w' j = .ok cb.mValue.points := by
  obtain ⟨w1, n, v, r, hreset, hb1, hel, hpt, hsg, hbj1, hnb, hn0⟩ :=
    reset_post hbi hbj hij hpos hrep hshare hstatic
  have hclone : VPath.clone w i j = VPath.addPath w1 i j := by
    simp [VPath.clone, hreset, bind, Except.bind]
  rw [hclone]
  have hone : (1 : Nat) < SIZE_MOD := by decide
  cases he : cb.mValue.empty with
  | true =>
    obtain ⟨hse, hsp⟩ := points_nil_of_empty hI1 he
    have hje := elements_of_bound hbj1
    have hjp := points_of_bound hbj1
    refine ⟨w1, addPath_of_empty i hbj1 he, ?_, ?_, hje, hjp⟩
    · rw [elements_of_bound hb1, hse]
      exact congrArg Except.ok hel
    · rw [points_of_bound hb1, hsp]
      exact congrArg Except.ok hpt
  | false =>
    cases hn : v.null with
    | true =>
      obtain ⟨w', hac, hbi2, hbj2, -⟩ :=
        assign_copy_post hb1 hbj1 hnb (le_refl 1) hone (fun e => absurd e hn0)
      have hie := elements_of_bound hbi2
      have hip := points_of_bound hbi2
      have hje := elements_of_bound hbj2
      have hjp := points_of_bound hbj2
      refine ⟨w', ?_, hie, hip, hje, hjp⟩
      rw [addPath_of_null hb1 hbj1 hn he]
      exact hac
    | false =>
      obtain ⟨v2, hv2⟩ := payload_addPath_ok v cb.mValue (by rw [hsg]; omega)
        (by rw [hsg]; omega)
      obtain ⟨hve, hvp, -⟩ := payload_addPath_eq hv2
      have hw : w1.write i = .ok w1 := write_of_unique hb1 rfl
      have hr0 := read_of_bound hbj1
      have hr : w1.read j = .ok cb.mValue := hr0
      have hu := update_of_bound hb1 (fun d => d.addPath cb.mValue)
      have hadd : VPath.addPath w1 i j = .ok
          { cells := w1.cells.set n
              { obj := { mRef := 1, mValue := v2 }, deleted := false },
            vars := w1.vars } := by
        simp only [VPath.addPath, empty_of_bound hbj1, null_of_bound hb1, he, hn, hw, hr,
          hu, hv2, bind, Except.bind, Except.map, Bool.false_eq_true, if_false]
      have hlt := addr_lt_of_bound hb1
      have hbi2 : World.Bound
          ({ cells := w1.cells.set n
              { obj := { mRef := 1, mValue := v2 }, deleted := false },
             vars := w1.vars } : Paths F) i n { mRef := 1, mValue := v2 } :=
        ⟨hb1.1, by simp [hlt]⟩
      have hbj2 : World.Bound
          ({ cells := w1.cells.set n
              { obj := { mRef := 1, mValue := v2 }, deleted := false },
             vars := w1.vars } : Paths F) j b { mRef := r, mValue := cb.mValue } := by
        refine ⟨hbj1.1, ?_⟩
        show (w1.cells.set n _)[b]? = _
        rw [List.getElem?_set_ne hnb]
        exact hbj1.2
      have hje := elements_of_bound hbj2
      have hjp := points_of_bound hbj2
      refine ⟨_, hadd, ?_, ?_, hje, hjp⟩
      · rw [elements_of_bound hbi2]
        show Except.ok v2.elements = _
        rw [hve, hel, List.nil_append]
      · rw [points_of_bound hbi2]
        show Except.ok v2.points = _
        rw [hvp, hpt, List.nil_append]

/-- The clone of another object, at `VPath p0; VPath p1; p1.moveTo(0, 0);
p1.lineTo(10, 0); p0.moveTo(5, 5);` with `p0.clone(p1)`. -/
theorem clone_of_other_object_example :
    ∃ w', VPath.clone twoOwners 0 1 = .ok w' ∧
      VPath.elements w' 0 = .ok linePayload.elements ∧
      VPath.points w' 0 = .ok linePayload.points ∧
      VPath.elements w' 1 = .ok linePayload.elements ∧
      VPath.points w' 1 = .ok linePayload.points :=
  clone_of_other_object twoOwners 0 1 2 1 { mRef := 1, mValue := dotPayload }
    { mRef := 1, mValue := linePayload } ⟨rfl, rfl⟩ ⟨rfl, rfl⟩ (by decide) (by decide)
    (by decide) (by decide) (by decide) (by decide) (by decide) (by decide)

end VCow
